import Mathlib

/-!
# logs-tco-configurator: sizing engine and the stage operators

A shallow embedding of the Go sources

* `internal/models/models.go`, `internal/budget/budget.go`, `internal/utils/utils.go`
  (budget derivation, over-budget detection, sampling percentages),
* `internal/promtail/models.go`, `internal/promtail/sampling.go`
  (the pipeline-stage list and the sampling-stage operator),
* `internal/promtail/drop.go` (the drop-stage operator),
* `internal/promtail/promtail.go`, `internal/kubernetes/secrets.go` and
  `updateSamplingConfig` of `main.go` (load and dump, validation before persistence),
* `ExtractBudget` of `internal/budget/budget.go`, `FetchSecretValue` and `midnightCron`
  of `main.go` (the budget catalog, the secret store and the cycle),

followed by the properties proved about them.

Conventions.  A Go `string` is a byte sequence; it is modelled by a Lean `String`
read as one `Char` per byte, so `len`, slicing and concatenation are the list
operations on `String.data`.  A Go `float64` is modelled by `Float64` below with
round-to-nearest-even arithmetic.  A Go `map[string]V` is modelled by an association
list with distinct keys (`GoMap`).  A `range` statement over a map that runs once per
call visits it in list order, which stands for the one enumeration order Go happens
to pick.  The `range newWorkloads` of `AddSamplingStages` runs once per scrape job and
Go picks an enumeration order every time it starts: there the order of each run is
given separately (`ranges`, `Env.rangeOrder`).
-/

/-! ## float64 -/

/-- A float64 value: NaN, the two infinities, negative zero, or a finite value
(positive zero is `fin 0`). -/
inductive Float64 where
  | nan
  | pinf
  | ninf
  | nzero
  | fin (q : ℚ)
deriving DecidableEq

namespace Float64

/-- The sign bit (false for NaN). -/
def isNeg : Float64 → Bool
  | ninf => true
  | nzero => true
  | fin q => decide (q < 0)
  | _ => false

def isZero : Float64 → Bool
  | nzero => true
  | fin q => decide (q = 0)
  | _ => false

def isInf : Float64 → Bool
  | pinf => true
  | ninf => true
  | _ => false

def isNaN : Float64 → Bool
  | nan => true
  | _ => false

/-- The numeric value of a finite float (both zeros are 0). -/
def toRat : Float64 → ℚ
  | fin q => q
  | _ => 0

def signedZero (neg : Bool) : Float64 := if neg then nzero else fin 0

def signedInf (neg : Bool) : Float64 := if neg then ninf else pinf

/-- The quotient `n / d` rounded to the nearest natural number, ties to even. -/
def roundNat (n d : Nat) : Nat :=
  if 2 * (n % d) < d then n / d
  else if d < 2 * (n % d) then n / d + 1
  else if (n / d) % 2 = 0 then n / d else n / d + 1

def log2Aux : Nat → Nat → Nat
  | 0, _ => 0
  | fuel + 1, n => if n < 2 then 0 else log2Aux fuel (n / 2) + 1

/-- The position of the leading binary digit: `2 ^ log2 n ≤ n < 2 ^ (log2 n + 1)` for `0 < n`. -/
def log2 (n : Nat) : Nat := log2Aux n n

/-- Round an exact real result to binary64: 53 significant bits, round to nearest,
ties to even, gradual underflow below `2 ^ (-1022)`, overflow to infinity at `2 ^ 1024`.
A result that rounds to zero keeps the sign of the exact value. -/
def round (q : ℚ) : Float64 :=
  let n := q.num.natAbs
  let d := q.den
  if n = 0 then fin 0 else
  let e0 : Int := (log2 n : Int) - (log2 d : Int)
  let e : Int :=
    if (if 0 ≤ e0 then d * 2 ^ e0.toNat ≤ n else d ≤ n * 2 ^ (-e0).toNat) then e0 else e0 - 1
  let t : Int := max e (-1022) - 52
  let m : Nat :=
    if 0 ≤ t then roundNat n (d * 2 ^ t.toNat) else roundNat (n * 2 ^ (-t).toNat) d
  let r : ℚ :=
    if 0 ≤ t then ((m * 2 ^ t.toNat : Nat) : ℚ) else (m : ℚ) / ((2 ^ (-t).toNat : Nat) : ℚ)
  if ((2 ^ 1024 : Nat) : ℚ) ≤ r then signedInf (decide (q < 0))
  else if m = 0 then signedZero (decide (q < 0))
  else fin (if q < 0 then -r else r)

/-- Go `a / b` on float64 (IEEE 754 division; dividing by zero does not panic). -/
def div (a b : Float64) : Float64 :=
  match a, b with
  | nan, _ => nan
  | _, nan => nan
  | a, b =>
    if a.isInf then (if b.isInf then nan else signedInf (xor a.isNeg b.isNeg))
    else if b.isInf then signedZero (xor a.isNeg b.isNeg)
    else if b.isZero then (if a.isZero then nan else signedInf (xor a.isNeg b.isNeg))
    else if a.isZero then signedZero (xor a.isNeg b.isNeg)
    else round (a.toRat / b.toRat)

/-- Go `a * b` on float64. -/
def mul (a b : Float64) : Float64 :=
  match a, b with
  | nan, _ => nan
  | _, nan => nan
  | a, b =>
    if a.isInf then (if b.isZero then nan else signedInf (xor a.isNeg b.isNeg))
    else if b.isInf then (if a.isZero then nan else signedInf (xor a.isNeg b.isNeg))
    else if a.isZero || b.isZero then signedZero (xor a.isNeg b.isNeg)
    else round (a.toRat * b.toRat)

/-- Go `a < b` on float64 (false when either side is NaN). -/
def lt : Float64 → Float64 → Bool
  | nan, _ => false
  | _, nan => false
  | pinf, _ => false
  | _, ninf => false
  | _, pinf => true
  | ninf, _ => true
  | a, b => decide (a.toRat < b.toRat)

/-- Go `a <= b` on float64 (false when either side is NaN). -/
def le : Float64 → Float64 → Bool
  | nan, _ => false
  | _, nan => false
  | ninf, _ => true
  | _, pinf => true
  | pinf, _ => false
  | _, ninf => false
  | a, b => decide (a.toRat ≤ b.toRat)

/-- Go `a > b`. -/
def gt (a b : Float64) : Bool := lt b a

/-- Go `a == b` on float64 (false when either side is NaN; the two zeros are equal). -/
def eq : Float64 → Float64 → Bool
  | nan, _ => false
  | _, nan => false
  | pinf, pinf => true
  | ninf, ninf => true
  | pinf, _ => false
  | _, pinf => false
  | ninf, _ => false
  | _, ninf => false
  | a, b => decide (a.toRat = b.toRat)

/-- Go builtin `max(x, y)` on float64: NaN if either is NaN, and `max(-0, +0) = +0`. -/
def max (x y : Float64) : Float64 :=
  match x, y with
  | nan, _ => nan
  | _, nan => nan
  | x, y => if lt x y then y else if lt y x then x else if x.isNeg then y else x

/-- Go builtin `min(x, y)` on float64: NaN if either is NaN, and `min(-0, +0) = -0`. -/
def min (x y : Float64) : Float64 :=
  match x, y with
  | nan, _ => nan
  | _, nan => nan
  | x, y => if lt x y then x else if lt y x then y else if x.isNeg then x else y

end Float64

/-! ## Go maps and strings -/

deriving instance DecidableEq for Except

/-- A Go `map[string]V`: an association list; a `range` that runs once per call visits it
in list order. -/
abbrev GoMap (V : Type) := List (String × V)

namespace GoMap

/-- `v, ok := m[k]`. -/
def get? {V : Type} : GoMap V → String → Option V
  | [], _ => none
  | (k, v) :: rest, key => if k = key then some v else get? rest key

/-- `m[k] = v`. -/
def set {V : Type} : GoMap V → String → V → GoMap V
  | [], key, val => [(key, val)]
  | (k, v) :: rest, key, val => if k = key then (k, val) :: rest else (k, v) :: set rest key val

end GoMap

namespace strings

def indexAux (sub : List Char) : List Char → Nat → Int
  | [], i => if sub = [] then (i : Int) else -1
  | c :: cs, i => if sub.isPrefixOf (c :: cs) then (i : Int) else indexAux sub cs (i + 1)

/-- `strings.Index(s, substr)`: the index of the first instance of `substr` in `s`, or -1. -/
def Index (s substr : String) : Int := indexAux substr.data s.data 0

end strings

namespace Go

/-- Go `len(s)`. -/
def len (s : String) : Nat := s.data.length

/-- Go `s[i:j]`. -/
def slice (s : String) (i j : Nat) : String := ⟨(s.data.take j).drop i⟩

end Go

namespace fmt

def sprintfAux (arg : List Char) : List Char → Bool → List Char
  | [], used => if used then [] else "%!(EXTRA string=".data ++ arg ++ [')']
  | '%' :: 's' :: rest, used =>
    (if used then "%!s(MISSING)".data else arg) ++ sprintfAux arg rest true
  | '%' :: '%' :: rest, used => '%' :: sprintfAux arg rest used
  | c :: rest, used => c :: sprintfAux arg rest used

/-- `fmt.Sprintf(format, arg)` with one string operand, for formats built from literal
bytes, `%%` and `%s`: the first `%s` is replaced by the operand, a further `%s` prints
`%!s(MISSING)`, and an unused operand is reported by a trailing `%!(EXTRA string=...)`.
Any other directive after `%` lies outside the fragment modelled here and is copied as it
stands; the statements below only use formats whose single `%` is that of `%s`. -/
def Sprintf (format arg : String) : String := ⟨sprintfAux arg.data format.data false⟩

end fmt

/-! ## internal/promtail: the shipper configuration model (models.go) -/

namespace promtail

/-- `Sampling` of models.go. -/
structure Sampling where
  Rate : Float64
deriving DecidableEq

/-- `MatchStage` of models.go; `Stages` is a `[]map[string]Sampling`. -/
structure MatchStage where
  PipelineName : String
  Selector : String
  Stages : List (GoMap Sampling)
deriving DecidableEq

/-- `DropStage` of models.go. -/
structure DropStage where
  Source : String
  DropCounterReason : String
  Value : String
deriving DecidableEq

/-- A Go `interface{}` held by a pipeline stage.  The first seven constructors are what
`yaml.Unmarshal` produces (`seq` is `[]interface{}`, `map` is
`map[interface{}]interface{}`); the last two are the typed pointers `*MatchStage` and
`*DropStage` that the operators store in memory. -/
inductive Any where
  | null
  | bool (b : Bool)
  | int (i : Int)
  | float (x : Float64)
  | str (s : String)
  | seq (xs : List Any)
  | map (kvs : List (Any × Any))
  | matchStage (m : MatchStage)
  | dropStage (d : DropStage)

namespace Any

/-- `m[key]` on a `map[interface{}]interface{}` with a string key. -/
def index : List (Any × Any) → String → Option Any
  | [], _ => none
  | (.str k, v) :: rest, key => if k = key then some v else index rest key
  | _ :: rest, key => index rest key

/-- Whether the value is one of the typed pointers, which `yaml.Unmarshal` never produces. -/
def isTyped : Any → Bool
  | .matchStage _ => true
  | .dropStage _ => true
  | _ => false

end Any

/-- `PipelineStage` of models.go: `map[string]interface{}`. -/
abbrev PipelineStage := GoMap Any

/-- `ScrapeConfig` of models.go; the two `[]yaml.MapSlice` blocks are carried verbatim. -/
structure ScrapeConfig where
  JobName : String
  PipelineStages : List PipelineStage
  KubernetesSDConfigs : List Any
  RelabelConfigs : List Any

/-- `PromtailConfig` of models.go. -/
structure PromtailConfig where
  Server : Any
  Client : Any
  Positions : Any
  ScrapeConfigs : List ScrapeConfig

/-! ## internal/promtail/sampling.go -/

/-- The errors of `newSamplingStage` (errors.go). -/
inductive StageError where
  | outOfRangePercentage (percentage : Float64)
  | canNotCreateSamplingStage (msg : String)
deriving DecidableEq

/-- The errors of `parseSamplingStage`; `notASamplingStage` is the sentinel
`errNotASamplingStage`, the others are the `fmt.Errorf` values in source order. -/
inductive ParseError where
  | invalidFormat (format : String)
  | notASamplingStage
  | rateNotFloat
  | samplingNotFound
  | invalidStageFormat
  | stagesMissingOrEmpty
  | extractFailed (selector : String)
deriving DecidableEq

def newSamplingStage (format workload : String) (samplingPercentage : Float64) :
    Except StageError PipelineStage :=
  if Float64.lt samplingPercentage (.fin 0) || Float64.gt samplingPercentage (.fin 100) then
    .error (.outOfRangePercentage samplingPercentage)
  else if workload = "" then
    .error (.canNotCreateSamplingStage "workload name can not be empty")
  else
    .ok [("match", .matchStage
      { PipelineName := "automated_sampling"
        Selector := fmt.Sprintf format workload
        Stages := [[("sampling", { Rate := Float64.div samplingPercentage (.fin 100) })]] })]

def parseSamplingStage (s : PipelineStage) (format : String) :
    Except ParseError (String × Float64) :=
  let idx := strings.Index format "%s"
  if idx = -1 then .error (.invalidFormat format) else
  let pfx := Go.slice format 0 idx.toNat
  let sfx := Go.slice format (idx.toNat + 2) (Go.len format)
  match GoMap.get? s "match" with
  | some (.map m) =>
    match Any.index m "pipeline_name" with
    | some (.str pipelineName) =>
      if pipelineName = "automated_sampling" then
        match Any.index m "selector" with
        | some (.str selector) =>
          if Go.len selector > Go.len pfx then
            let startIdx : Int := Go.len pfx
            let endIdx : Int := (Go.len selector : Int) - (Go.len sfx : Int)
            if endIdx > startIdx then
              let workload := Go.slice selector startIdx.toNat endIdx.toNat
              match Any.index m "stages" with
              | some (.seq (stage0 :: _)) =>
                match stage0 with
                | .map stage0 =>
                  match Any.index stage0 "sampling" with
                  | some (.map samplingMap) =>
                    match Any.index samplingMap "rate" with
                    | some (.float rate) => .ok (workload, Float64.mul rate (.fin 100))
                    | _ => .error .rateNotFloat
                  | _ => .error .samplingNotFound
                | _ => .error .invalidStageFormat
              | _ => .error .stagesMissingOrEmpty
            else .error (.extractFailed selector)
          else .error .notASamplingStage
        | _ => .error .notASamplingStage
      else .error .notASamplingStage
    | _ => .error .notASamplingStage
  | _ => .error .notASamplingStage

/-- The loop `for w, s := range newWorkloads` of `AddSamplingStages` for one job. -/
def addStagesLoop (format : String) :
    GoMap Float64 → List PipelineStage → Bool → List PipelineStage × Bool
  | [], stages, isConfigUpdated => (stages, isConfigUpdated)
  | (w, s) :: rest, stages, isConfigUpdated =>
    match newSamplingStage format w s with
    | .error _ => addStagesLoop format rest stages isConfigUpdated
    | .ok st => addStagesLoop format rest (stages ++ [st]) true

/-- The loop `for i := range p.ScrapeConfigs` of `AddSamplingStages`, from job `i` on.
The inner `for w, s := range newWorkloads` starts anew for every job, and Go picks the
enumeration order of a map every time a `range` over it starts: `ranges i` is the
sequence of entries that the statement yields for job `i`, in the order it yields them. -/
def addJobsLoop (format : String) (ranges : Nat → GoMap Float64) :
    Nat → List ScrapeConfig → Bool → List ScrapeConfig × Bool
  | _, [], isConfigUpdated => ([], isConfigUpdated)
  | i, sc :: rest, isConfigUpdated =>
    let r := addStagesLoop format (ranges i) sc.PipelineStages isConfigUpdated
    let rs := addJobsLoop format ranges (i + 1) rest r.2
    ({ sc with PipelineStages := r.1 } :: rs.1, rs.2)

/-- `AddSamplingStages`: the config after the call and the returned `isConfigUpdated`.
`ranges i` is the enumeration of `newWorkloads` by the `range` statement of job `i`
(see `addJobsLoop`); in a run of the program every `ranges i` is a permutation of the
entries of `newWorkloads`, and two jobs need not get the same one. -/
def AddSamplingStages (p : PromtailConfig) (newWorkloads : GoMap Float64) (format : String)
    (ranges : Nat → GoMap Float64) : PromtailConfig × Bool :=
  if newWorkloads.length = 0 then (p, false)
  else
    let r := addJobsLoop format ranges 0 p.ScrapeConfigs false
    ({ p with ScrapeConfigs := r.1 }, r.2)

/-- The loop over one job's stages in `RemoveAllSamplingStages`: the new stage list and
the running `isConfigUpdated`, or the error that makes the function return. -/
def removeStagesLoop (format : String) :
    List PipelineStage → List PipelineStage → Bool → Except ParseError (List PipelineStage × Bool)
  | [], newPipelineStages, isConfigUpdated => .ok (newPipelineStages, isConfigUpdated)
  | stage :: rest, newPipelineStages, isConfigUpdated =>
    match parseSamplingStage stage format with
    | .ok _ => removeStagesLoop format rest newPipelineStages isConfigUpdated
    | .error .notASamplingStage =>
      removeStagesLoop format rest (newPipelineStages ++ [stage]) true
    | .error err => .error err

/-- What a call of `RemoveAllSamplingStages` leaves behind: the config as mutated so
far and the two return values. -/
structure RemoveResult where
  config : List ScrapeConfig
  isConfigUpdated : Bool
  err : Option ParseError

/-- The loop `for i, scrapeConfig := range p.ScrapeConfigs` of
`RemoveAllSamplingStages`; a job is rewritten only after all its stages parsed. -/
def removeJobsLoop (format : String) : List ScrapeConfig → Bool → RemoveResult
  | [], isConfigUpdated => ⟨[], isConfigUpdated, none⟩
  | sc :: rest, isConfigUpdated =>
    match removeStagesLoop format sc.PipelineStages [] isConfigUpdated with
    | .error err => ⟨sc :: rest, false, some err⟩
    | .ok r =>
      let rs := removeJobsLoop format rest r.2
      ⟨{ sc with PipelineStages := r.1 } :: rs.config, rs.isConfigUpdated, rs.err⟩

/-- `RemoveAllSamplingStages`: the config after the call (also when it returned an
error), `isConfigUpdated` and `err` (`none` is Go `nil`). -/
def RemoveAllSamplingStages (p : PromtailConfig) (format : String) :
    PromtailConfig × Bool × Option ParseError :=
  let r := removeJobsLoop format p.ScrapeConfigs false
  ({ p with ScrapeConfigs := r.config }, r.isConfigUpdated, r.err)

/-- The stage loop of `GetSampledWorkloads`. -/
def sampledLoop (format : String) :
    List PipelineStage → GoMap Float64 → Except ParseError (GoMap Float64)
  | [], sampledWorkloads => .ok sampledWorkloads
  | stage :: rest, sampledWorkloads =>
    match parseSamplingStage stage format with
    | .ok (workload, samplingPercentage) =>
      sampledLoop format rest (GoMap.set sampledWorkloads workload samplingPercentage)
    | .error .notASamplingStage => sampledLoop format rest sampledWorkloads
    | .error err => .error err

/-- `GetSampledWorkloads`. -/
def GetSampledWorkloads (p : PromtailConfig) (format : String) :
    Except ParseError (GoMap Float64) :=
  sampledLoop format (p.ScrapeConfigs.flatMap fun sc => sc.PipelineStages) []

/-! ### The YAML form of a stage

`gopkg.in/yaml.v2` is not part of the repository.  What the statements need of it is the
shape in which a typed `*MatchStage` comes back from `yaml.Marshal` followed by
`yaml.Unmarshal`: a `map[interface{}]interface{}` keyed by the struct tags
`pipeline_name`, `selector` and `stages`. -/

/-- The integer that a float64 is read back as after a YAML round trip, if it is read
back as one.  The encoder prints a float64 with `strconv.FormatFloat(x, 'g', -1, 64)`,
which gives a whole number below `10 ^ 6` in magnitude without decimal point or exponent
(`1`, `0`, `-0`); the decoder resolves such a scalar to an `int`. -/
def yamlInt? : Float64 → Option Int
  | .fin q => if q.den = 1 ∧ q.num.natAbs < 1000000 then some q.num else none
  | .nzero => some 0
  | _ => none

/-- A float64 after a YAML round trip: an `int` in the cases of `yamlInt?`, and the same
float64 otherwise. -/
def yamlFloat (x : Float64) : Any :=
  match yamlInt? x with
  | some i => .int i
  | none => .float x

/-- The untyped mapping that a `*MatchStage` is read back as. -/
def MatchStage.untyped (m : MatchStage) : Any :=
  .map [(.str "pipeline_name", .str m.PipelineName),
        (.str "selector", .str m.Selector),
        (.str "stages", .seq (m.Stages.map fun st =>
          .map (st.map fun kv => (.str kv.1, .map [(.str "rate", yamlFloat kv.2.Rate)]))))]

/-- The untyped mapping that a `*DropStage` is read back as. -/
def DropStage.untyped (d : DropStage) : Any :=
  .map [(.str "source", .str d.Source),
        (.str "drop_counter_reason", .str d.DropCounterReason),
        (.str "value", .str d.Value)]

/-- A pipeline stage as it comes back from the secret: typed stage values are replaced
by their untyped mappings, values that were read from YAML stay as they are. -/
def serialized (s : PipelineStage) : PipelineStage :=
  s.map fun kv =>
    (kv.1, match kv.2 with
      | .matchStage m => m.untyped
      | .dropStage d => d.untyped
      | v => v)

end promtail

/-! ## internal/models -/

namespace models

/-- `WorkloadIngestedBytes` of models.go. -/
structure WorkloadIngestedBytes where
  Cluster : String
  Workload : String
  Value : Float64
deriving DecidableEq

/-- `WorkloadResourceRequest` of models.go (`Cores` and `Bytes` are float64). -/
structure WorkloadResourceRequest where
  Cluster : String
  Workload : String
  CPU : Float64
  Memory : Float64
deriving DecidableEq

/-- `OverBudgetWorkload` of models.go (`GigaBytes` is float64). -/
structure OverBudgetWorkload where
  Cluster : String
  Workload : String
  Budget : Float64
  CurrentIngestion : Float64
deriving DecidableEq

end models

/-! ## internal/budget: `CalculateDynamicBudget` -/

namespace budget

/-- The constant `standardCPUCores`. -/
def standardCPUCores : Float64 := .fin 16

/-- The value assigned to `calculatedBudgetBytes[w.Workload]` in one iteration. -/
def budgetOf (w : models.WorkloadResourceRequest) (budgetOverideBytes : GoMap Float64)
    (baselineBudgetMultiplier minimumBudget : Float64) : Float64 :=
  let b := Float64.mul (Float64.div w.CPU standardCPUCores) baselineBudgetMultiplier
  let b := if Float64.lt b minimumBudget then minimumBudget else b
  match GoMap.get? budgetOverideBytes w.Workload with
  | some override => override
  | none => b

/-- The loop `for _, w := range workloadResourceRequests`. -/
def dynamicBudgetLoop (budgetOverideBytes : GoMap Float64)
    (baselineBudgetMultiplier minimumBudget : Float64) :
    List models.WorkloadResourceRequest → GoMap Float64 → GoMap Float64
  | [], calculatedBudgetBytes => calculatedBudgetBytes
  | w :: rest, calculatedBudgetBytes =>
    dynamicBudgetLoop budgetOverideBytes baselineBudgetMultiplier minimumBudget rest
      (GoMap.set calculatedBudgetBytes w.Workload
        (budgetOf w budgetOverideBytes baselineBudgetMultiplier minimumBudget))

/-- `CalculateDynamicBudget`; the error it returns is always `nil`. -/
def CalculateDynamicBudget (workloadResourceRequests : List models.WorkloadResourceRequest)
    (budgetOverideBytes : GoMap Float64) (baselineBudgetMultiplier minimumBudget : Float64) :
    Except String (GoMap Float64) :=
  .ok (dynamicBudgetLoop budgetOverideBytes baselineBudgetMultiplier minimumBudget
    workloadResourceRequests [])

end budget

/-! ## internal/utils: `FindAbusersV2` and `CalculateSamplingRates` -/

namespace utils

/-- `ingestedBytes[i].Value / 1000000000.0`. -/
def currentGB (w : models.WorkloadIngestedBytes) : Float64 :=
  Float64.div w.Value (.fin 1000000000)

/-- The loop of `FindAbusersV2`; indexing a Go map at a missing key gives the zero value. -/
def findAbusersLoop (workloadBudget : GoMap Float64) :
    List models.WorkloadIngestedBytes → List models.OverBudgetWorkload →
    List models.OverBudgetWorkload
  | [], overBudgetWorkloads => overBudgetWorkloads
  | w :: rest, overBudgetWorkloads =>
    let b := (GoMap.get? workloadBudget w.Workload).getD (.fin 0)
    if Float64.eq b (.fin 0) then findAbusersLoop workloadBudget rest overBudgetWorkloads
    else if Float64.gt (currentGB w) b then
      findAbusersLoop workloadBudget rest (overBudgetWorkloads ++
        [{ Cluster := w.Cluster, Workload := w.Workload, Budget := b,
           CurrentIngestion := currentGB w }])
    else findAbusersLoop workloadBudget rest overBudgetWorkloads

def FindAbusersV2 (ingestedBytes : List models.WorkloadIngestedBytes)
    (workloadBudget : GoMap Float64) : List models.OverBudgetWorkload :=
  findAbusersLoop workloadBudget ingestedBytes []

/-- The value of `samplingPercentage` for one offender:
`max(minimum, min(maximum, Budget / CurrentIngestion * 100.0))` with `minimum, maximum := 1.0, 100.0`. -/
def samplingPercentageOf (w : models.OverBudgetWorkload) : Float64 :=
  Float64.max (.fin 1) (Float64.min (.fin 100)
    (Float64.mul (Float64.div w.Budget w.CurrentIngestion) (.fin 100)))

/-- The loop of `CalculateSamplingRates` (logging and the telemetry gauge are not modelled). -/
def samplingRatesLoop : List models.OverBudgetWorkload → GoMap Float64 → GoMap Float64
  | [], samplingRates => samplingRates
  | w :: rest, samplingRates =>
    samplingRatesLoop rest (GoMap.set samplingRates w.Workload (samplingPercentageOf w))

def CalculateSamplingRates (overBudgetWorkloads : List models.OverBudgetWorkload) :
    GoMap Float64 :=
  samplingRatesLoop overBudgetWorkloads []

end utils

/-! ## The world outside the process

The cluster API, the temporary file and the `promtail -check-syntax` subprocess are
external.  Their answers are inputs of the model: the secrets held by the cluster, a
script saying which of the coming API requests fail, and the oracles of `Env`.  Every
request that leaves the process is appended to `trace`. -/

/-- A `v1.Secret`; `Data` is a `map[string][]byte`, `none` being the nil map of a secret
without data. -/
structure Secret where
  Namespace : String
  Name : String
  Data : Option (GoMap String)
deriving DecidableEq

/-- A request that left the process. -/
inductive Event where
  | sleep (seconds : Nat)
  | secretGet (ns name : String)
  | secretUpdate (secret : Secret) (dryRun : Bool)
  | exec (bin : String) (args : List String)
  | removeFile (name : String)
deriving DecidableEq

structure World where
  secrets : List Secret
  faults : List Bool
  trace : List Event
deriving DecidableEq

/-- How a Go function call ends: it returns, the process exits (`os.Exit`), or it panics. -/
inductive Outcome (α : Type) where
  | returned (a : α)
  | exited (code : Nat)
  | panicked (msg : String)
deriving DecidableEq

namespace World

def log (w : World) (e : Event) : World := { w with trace := w.trace ++ [e] }

/-- Whether the next API request fails; the script is consumed one entry per request and
an exhausted script means no further failure. -/
def nextFault (w : World) : Bool × World :=
  match w.faults with
  | [] => (false, w)
  | f :: fs => (f, { w with faults := fs })

def findSecret : List Secret → String → String → Option Secret
  | [], _, _ => none
  | s :: rest, ns, name =>
    if s.Namespace = ns ∧ s.Name = name then some s else findSecret rest ns name

def replaceSecret : List Secret → Secret → List Secret
  | [], _ => []
  | s :: rest, new =>
    if s.Namespace = new.Namespace ∧ s.Name = new.Name then new :: rest
    else s :: replaceSecret rest new

/-- `clientset.CoreV1().Secrets(ns).Get(ctx, name, opts)`. -/
def secretGet (w : World) (ns name : String) : World × Except String Secret :=
  let w1 := (w.log (.secretGet ns name)).nextFault
  if w1.1 then (w1.2, .error "api error")
  else
    match findSecret w1.2.secrets ns name with
    | some s => (w1.2, .ok s)
    | none => (w1.2, .error "not found")

/-- `clientset.CoreV1().Secrets(ns).Update(ctx, secret, opts)`; with `DryRun` set the
server stores nothing. -/
def secretUpdate (w : World) (secret : Secret) (dryRun : Bool) : World × Except String Unit :=
  let w1 := (w.log (.secretUpdate secret dryRun)).nextFault
  if w1.1 then (w1.2, .error "api error")
  else
    match findSecret w1.2.secrets secret.Namespace secret.Name with
    | none => (w1.2, .error "not found")
    | some _ =>
      if dryRun then (w1.2, .ok ())
      else ({ w1.2 with secrets := replaceSecret w1.2.secrets secret }, .ok ())

end World

/-! ## internal/kubernetes/secrets.go: `UpdateSecretValue` -/

namespace kubernetes

def maxRetries : Nat := 14

/-- The body of `for attempt := 0; attempt <= maxRetries; attempt++` in
`UpdateSecretValue`; `remaining` counts the iterations still allowed. -/
def updateSecretLoop (ns secretName key yamlValue : String) (dryRun : Bool) :
    Nat → Nat → World → String → World × Outcome (Option String)
  | 0, _, w, lastErr =>
    (w, .returned (some ("failed to update secret after 15 attempts: " ++ lastErr)))
  | remaining + 1, attempt, w, _ =>
    let w0 := if attempt > 0 then w.log (.sleep (1 * 2 ^ (attempt - 1))) else w
    match w0.secretGet ns secretName with
    | (w1, .error e) =>
      updateSecretLoop ns secretName key yamlValue dryRun remaining (attempt + 1) w1
        ("failed to get secret: " ++ e)
    | (w1, .ok secret) =>
      match secret.Data with
      | none => (w1, .panicked "assignment to entry in nil map")
      | some data =>
        match w1.secretUpdate { secret with Data := some (GoMap.set data key yamlValue) } dryRun with
        | (w2, .error e) =>
          updateSecretLoop ns secretName key yamlValue dryRun remaining (attempt + 1) w2
            ("failed to update secret: " ++ e)
        | (w2, .ok _) => (w2, .returned none)

/-- `UpdateSecretValue`; the returned value is the error (`none` is `nil`). -/
def UpdateSecretValue (w : World) (ns secretName key yamlValue : String) (dryRun : Bool) :
    World × Outcome (Option String) :=
  updateSecretLoop ns secretName key yamlValue dryRun (maxRetries + 1) 0 w ""

end kubernetes

/-! ## internal/promtail/promtail.go: `ToYAML` and `ValidateConfig` -/

/-- The answers of what the source leaves to its surroundings: the external collaborators
of `ValidateConfig` and the map enumeration orders of the Go runtime. -/
structure Env where
  /-- The enumeration of a rate map by the `range newWorkloads` statement of
  `AddSamplingStages` for the job with the given index: a permutation of its entries. -/
  rangeOrder : GoMap Float64 → Nat → GoMap Float64
  /-- The function `yaml.Marshal`. -/
  marshal : promtail.PromtailConfig → Except String String
  /-- The call `os.CreateTemp`: the name of the new file, or an error. -/
  createTemp : Except String String
  /-- The call `tmpFile.WriteString`. -/
  writeString : String → Option String
  /-- The call `tmpFile.Close`. -/
  close : Option String
  /-- Whether `promtailBin -check-syntax --config.file f` exits with status zero when
  `f` holds the given text. -/
  checkSyntax : String → String → Bool

namespace promtail

def ToYAML (env : Env) (p : PromtailConfig) : Except String String :=
  match env.marshal p with
  | .error e => .error ("failed to marshal YAML: " ++ e)
  | .ok yamlBytes => .ok yamlBytes

/-- `ValidateConfig`.  When the subprocess fails the code logs through
`log.Fatal()...Msg(...)`, and zerolog ends the process with `os.Exit(1)` inside `Msg`;
the `return` after it is not reached. -/
def ValidateConfig (env : Env) (p : PromtailConfig) (promtailBin : String) (w : World) :
    World × Outcome (Option String) :=
  match ToYAML env p with
  | .error e => (w, .returned (some ("failed to convert to YAML: " ++ e)))
  | .ok yamlStr =>
    match env.createTemp with
    | .error e => (w, .returned (some ("failed to create temp file: " ++ e)))
    | .ok tmpFile =>
      match env.writeString yamlStr with
      | some e => (w, .returned (some ("failed to write to temp file: " ++ e)))
      | none =>
        match env.close with
        | some e => (w, .returned (some ("failed to close temp file: " ++ e)))
        | none =>
          let w1 := w.log (.exec promtailBin ["-check-syntax", "--config.file", tmpFile])
          if env.checkSyntax promtailBin yamlStr then
            (w1.log (.removeFile tmpFile), .returned none)
          else (w1, .exited 1)

end promtail

/-! ## config and main.go: `updateSamplingConfig` -/

namespace config

structure Secret where
  Name : String
  Namespace : String
  Key : String

structure SamplingSelector where
  Format : String

structure Sampling where
  Selector : SamplingSelector

structure Promtail where
  LocalBin : String
  Secret : Secret
  Sampling : Sampling

/-- The fields of `Config` read by `updateSamplingConfig`. -/
structure Config where
  Promtail : Promtail
  DryRun : Bool

end config

namespace main

/-- The errors returned by `updateSamplingConfig`, one per `fmt.Errorf`. -/
inductive UpdateError where
  | removeFailed (err : promtail.ParseError)
  | validationFailed (err : String)
  | toYAMLFailed (err : String)
  | updateSecretFailed (err : String)
deriving DecidableEq

/-- `updateSamplingConfig`.  The first step of the source, `GetSampledWorkloads`, only
feeds log lines and its error is ignored, so it does not appear in the result. -/
def updateSamplingConfig (env : Env) (cfg : config.Config) (p : promtail.PromtailConfig)
    (samplingRates : GoMap Float64) (w : World) : World × Outcome (Option UpdateError) :=
  match promtail.RemoveAllSamplingStages p cfg.Promtail.Sampling.Selector.Format with
  | (_, _, some err) => (w, .returned (some (.removeFailed err)))
  | (p1, _, none) =>
    let p2 := (promtail.AddSamplingStages p1 samplingRates
      cfg.Promtail.Sampling.Selector.Format (env.rangeOrder samplingRates)).1
    match promtail.ValidateConfig env p2 cfg.Promtail.LocalBin w with
    | (w1, .exited code) => (w1, .exited code)
    | (w1, .panicked msg) => (w1, .panicked msg)
    | (w1, .returned (some err)) => (w1, .returned (some (.validationFailed err)))
    | (w1, .returned none) =>
      match promtail.ToYAML env p2 with
      | .error err => (w1, .returned (some (.toYAMLFailed err)))
      | .ok yamlContent =>
        match kubernetes.UpdateSecretValue w1 cfg.Promtail.Secret.Namespace
            cfg.Promtail.Secret.Name cfg.Promtail.Secret.Key yamlContent cfg.DryRun with
        | (w2, .returned (some err)) => (w2, .returned (some (.updateSecretFailed err)))
        | (w2, .returned none) => (w2, .returned none)
        | (w2, .exited code) => (w2, .exited code)
        | (w2, .panicked msg) => (w2, .panicked msg)

end main

/-! ## internal/promtail/drop.go

A Go function that dereferences a nil `*DropStage` panics, so the operators of this file
end in an `Outcome`.  `parseDropStage` returns `(nil, err)` on failure: the `Except` error
stands for that pair, and a caller that goes on to use the pointer meets `nil`. -/

namespace promtail

/-- The message of the runtime panic raised by a field access through a nil pointer. -/
def nilDereference : String := "invalid memory address or nil pointer dereference"

def parseDropStage (m : List (Any × Any)) : Except String DropStage :=
  match Any.index m "source" with
  | some (.str s) =>
    let dropCounterReason :=
      match Any.index m "drop_counter_reason" with
      | some (.str dcr) => dcr
      | _ => "too_many_logs"
    match Any.index m "value" with
    | some (.str v) => .ok { Source := s, DropCounterReason := dropCounterReason, Value := v }
    | _ => .error "can't parse drop stage, value field is missing or not a string"
  | _ => .error "can't parse drop stage, source field is missing or not a string"

/-- The stage loop of `extractDropStages`; after a failed parse the nil pointer is
appended all the same (`none`). -/
def extractLoop :
    List PipelineStage → List (Option DropStage) → Except String (List (Option DropStage))
  | [], dropStages => .ok dropStages
  | stage :: rest, dropStages =>
    match GoMap.get? stage "drop" with
    | some (.map dst) =>
      match parseDropStage dst with
      | .error _ => extractLoop rest (dropStages ++ [none])
      | .ok convertedDropStage => extractLoop rest (dropStages ++ [some convertedDropStage])
    | some (.dropStage dst) => extractLoop rest (dropStages ++ [some dst])
    | some _ =>
      .error "failed to assert type *DropStage or map[interface\x7b\x7d]interface\x7b\x7d for drop stage"
    | none => extractLoop rest dropStages

def extractDropStages (pCfg : PromtailConfig) : Except String (List (Option DropStage)) :=
  extractLoop (pCfg.ScrapeConfigs.flatMap fun sc => sc.PipelineStages) []

/-- The loop of `getDroppedWorkloads` over the extracted pointers. -/
def droppedLoop : List (Option DropStage) → List String → Outcome (List String)
  | [], droppedWorkloads => .returned droppedWorkloads
  | none :: _, _ => .panicked nilDereference
  | some dropStage :: rest, droppedWorkloads =>
    if dropStage.Source = "workload" ∧ dropStage.DropCounterReason = "too_many_logs" then
      droppedLoop rest (droppedWorkloads ++ [dropStage.Value])
    else droppedLoop rest droppedWorkloads

def getDroppedWorkloads (pCfg : PromtailConfig) : Outcome (Except String (List String)) :=
  match extractDropStages pCfg with
  | .error err => .returned (.error err)
  | .ok dropStages =>
    match droppedLoop dropStages [] with
    | .returned droppedWorkloads => .returned (.ok droppedWorkloads)
    | .exited code => .exited code
    | .panicked msg => .panicked msg

def appendDropStage (pCfg : PromtailConfig) (source value reason : String) : PromtailConfig :=
  { pCfg with ScrapeConfigs := pCfg.ScrapeConfigs.map fun scrapeConfig =>
      { scrapeConfig with PipelineStages := scrapeConfig.PipelineStages ++
          [[("drop", .dropStage
            { Source := source, DropCounterReason := reason, Value := value })]] } }

/-- The loop `for _, workload := range newWorkloads` of `DropLogs`; the set of already
dropped workloads is the one computed before the loop. -/
def dropLogsLoop (droppedWorkloadsMap : List String) :
    List String → PromtailConfig → Bool → PromtailConfig × Bool
  | [], pCfg, isConfigUpdated => (pCfg, isConfigUpdated)
  | workload :: rest, pCfg, isConfigUpdated =>
    if workload ∈ droppedWorkloadsMap then
      dropLogsLoop droppedWorkloadsMap rest pCfg isConfigUpdated
    else
      dropLogsLoop droppedWorkloadsMap rest
        (appendDropStage pCfg "workload" workload "too_many_logs") true

/-- `DropLogs`: the config after the call and the returned `isConfigUpdated`. -/
def DropLogs (pCfg : PromtailConfig) (newWorkloads : List String) :
    Outcome (PromtailConfig × Bool) :=
  match getDroppedWorkloads pCfg with
  | .returned (.error _) => .returned (pCfg, false)
  | .returned (.ok alreadyDroppedWorkloads) =>
    .returned (dropLogsLoop alreadyDroppedWorkloads newWorkloads pCfg false)
  | .exited code => .exited code
  | .panicked msg => .panicked msg

/-- The stage loop of `removeDropStage` for one job. -/
def removeDropLoop (source value : String) :
    List PipelineStage → List PipelineStage → Outcome (List PipelineStage)
  | [], newPipelineStages => .returned newPipelineStages
  | stage :: rest, newPipelineStages =>
    match GoMap.get? stage "drop" with
    | some (.map ds) =>
      match parseDropStage ds with
      | .error _ => .panicked nilDereference
      | .ok convertedDropStage =>
        if convertedDropStage.Source ≠ source ∨ convertedDropStage.Value ≠ value then
          removeDropLoop source value rest (newPipelineStages ++ [stage])
        else removeDropLoop source value rest newPipelineStages
    | some (.dropStage ds) =>
      if ds.Source ≠ source ∨ ds.Value ≠ value then
        removeDropLoop source value rest (newPipelineStages ++ [stage])
      else removeDropLoop source value rest newPipelineStages
    | some _ => removeDropLoop source value rest newPipelineStages
    | none => removeDropLoop source value rest (newPipelineStages ++ [stage])

/-- The job loop of `removeDropStage`. -/
def removeDropJobs (source value : String) : List ScrapeConfig → Outcome (List ScrapeConfig)
  | [] => .returned []
  | scrapeConfig :: rest =>
    match removeDropLoop source value scrapeConfig.PipelineStages [] with
    | .returned newPipelineStages =>
      match removeDropJobs source value rest with
      | .returned rest1 =>
        .returned ({ scrapeConfig with PipelineStages := newPipelineStages } :: rest1)
      | .exited code => .exited code
      | .panicked msg => .panicked msg
    | .exited code => .exited code
    | .panicked msg => .panicked msg

/-- `removeDropStage`: the config after the call. -/
def removeDropStage (p : PromtailConfig) (source value : String) : Outcome PromtailConfig :=
  match removeDropJobs source value p.ScrapeConfigs with
  | .returned jobs => .returned { p with ScrapeConfigs := jobs }
  | .exited code => .exited code
  | .panicked msg => .panicked msg

/-- `AllowLogs`. -/
def AllowLogs : PromtailConfig → List String → Outcome PromtailConfig
  | pCfg, [] => .returned pCfg
  | pCfg, workload :: rest =>
    match removeDropStage pCfg "workload" workload with
    | .returned pCfg1 => AllowLogs pCfg1 rest
    | .exited code => .exited code
    | .panicked msg => .panicked msg

/-- The stage loop of `AllowAllLogs` for one job. -/
def allowAllLoop : List PipelineStage → List PipelineStage → Outcome (List PipelineStage)
  | [], newPipelineStages => .returned newPipelineStages
  | stage :: rest, newPipelineStages =>
    match GoMap.get? stage "drop" with
    | some (.map ds) =>
      match parseDropStage ds with
      | .error _ => .panicked nilDereference
      | .ok convertedDropStage =>
        if convertedDropStage.DropCounterReason ≠ "too_many_logs" then
          allowAllLoop rest (newPipelineStages ++ [stage])
        else allowAllLoop rest newPipelineStages
    | some (.dropStage ds) =>
      if ds.DropCounterReason ≠ "too_many_logs" then
        allowAllLoop rest (newPipelineStages ++ [stage])
      else allowAllLoop rest newPipelineStages
    | some _ => allowAllLoop rest newPipelineStages
    | none => allowAllLoop rest (newPipelineStages ++ [stage])

/-- The job loop of `AllowAllLogs`. -/
def allowAllJobs : List ScrapeConfig → Outcome (List ScrapeConfig)
  | [] => .returned []
  | scrapeConfig :: rest =>
    match allowAllLoop scrapeConfig.PipelineStages [] with
    | .returned newPipelineStages =>
      match allowAllJobs rest with
      | .returned rest1 =>
        .returned ({ scrapeConfig with PipelineStages := newPipelineStages } :: rest1)
      | .exited code => .exited code
      | .panicked msg => .panicked msg
    | .exited code => .exited code
    | .panicked msg => .panicked msg

/-- `AllowAllLogs`: the config after the call and the returned error, which is always
`nil` when the function returns. -/
def AllowAllLogs (p : PromtailConfig) : Outcome (PromtailConfig × Option String) :=
  match allowAllJobs p.ScrapeConfigs with
  | .returned jobs => .returned ({ p with ScrapeConfigs := jobs }, none)
  | .exited code => .exited code
  | .panicked msg => .panicked msg

end promtail

/-! ## internal/promtail/promtail.go: `New` and `ToYAML` on document trees

`New` hands the text to `yaml.Unmarshal` with a `*PromtailConfig` as target, `ToYAML`
returns the text of `yaml.Marshal`.  The library `gopkg.in/yaml.v2` is not part of the
repository; what is embedded here is how it maps between a document and the struct types
of models.go, with the text left out.  A document is given as the value the decoder builds
for it at type `interface{}` (an `Any` without typed pointers, every mapping holding each
key once); the order in which the entries of a Go map are listed carries no meaning and is
kept as it is.

* A mapping is decoded into a struct field by field: each field takes the value under the
  key of its `yaml:"..."` tag, a key without a field is skipped, a field without a key
  keeps its zero value.
* A struct is encoded with all its fields, in the order of their declaration, under the
  keys of their tags; a nil interface is written `null`, a nil slice `[]`, a nil map `{}`.
* A float64 is written by `strconv.FormatFloat(x, 'g', -1, 64)` and so read back as an
  `int` in the cases of `yamlInt?`. -/

namespace yaml

open promtail

/-- The ways in which decoding ends without a value: `typeError` is the `*yaml.TypeError`
of a node whose kind does not fit the target type; `unsupported` marks a document for
which the decoder needs the text of a scalar (a number or boolean where the target is a
string), which a document tree does not carry. -/
inductive DecodeError where
  | typeError (target : String)
  | unsupported (what : String)
deriving DecidableEq

mutual
/-- A value after it was written by the encoder and read by the decoder at type
`interface{}`. -/
def reread : Any → Any
  | .float x => yamlFloat x
  | .seq xs => .seq (rereadList xs)
  | .map kvs => .map (rereadEntries kvs)
  | .matchStage m => m.untyped
  | .dropStage d => d.untyped
  | v => v
/-- The elements of a sequence, reread. -/
def rereadList : List Any → List Any
  | [] => []
  | x :: xs => reread x :: rereadList xs
/-- The entries of a mapping, reread. -/
def rereadEntries : List (Any × Any) → List (Any × Any)
  | [] => []
  | (k, v) :: rest => (reread k, reread v) :: rereadEntries rest
end

/-- Decoding of the elements of a sequence, in order; the first failure is the result. -/
def decodeList {α : Type} (f : Any → Except DecodeError α) :
    List Any → Except DecodeError (List α)
  | [] => .ok []
  | x :: xs =>
    match f x with
    | .error e => .error e
    | .ok a =>
      match decodeList f xs with
      | .error e => .error e
      | .ok as => .ok (a :: as)

/-- Decoding into a slice field: a sequence, or nothing (an absent key or `null`). -/
def decodeSlice {α : Type} (target : String) (f : Any → Except DecodeError α) :
    Option Any → Except DecodeError (List α)
  | none => .ok []
  | some .null => .ok []
  | some (.seq xs) => decodeList f xs
  | some _ => .error (.typeError target)

/-- Decoding into a `string` field. -/
def decodeString : Option Any → Except DecodeError String
  | none => .ok ""
  | some .null => .ok ""
  | some (.str s) => .ok s
  | some (.seq _) => .error (.typeError "string")
  | some (.map _) => .error (.typeError "string")
  | some _ => .error (.unsupported "scalar that is not a string")

/-- The entries of a mapping decoded into a `map[string]interface{}`. -/
def decodeEntries : List (Any × Any) → Except DecodeError PipelineStage
  | [] => .ok []
  | (.str k, v) :: rest =>
    match decodeEntries rest with
    | .error e => .error e
    | .ok st => .ok ((k, v) :: st)
  | (.seq _, _) :: _ => .error (.typeError "string")
  | (.map _, _) :: _ => .error (.typeError "string")
  | _ :: _ => .error (.unsupported "key that is not a string")

/-- Decoding into a `PipelineStage`. -/
def decodeStage : Any → Except DecodeError PipelineStage
  | .null => .ok []
  | .map kvs => decodeEntries kvs
  | _ => .error (.typeError "promtail.PipelineStage")

/-- Decoding into a `yaml.MapSlice`, which keeps the entries of the mapping in order.  A
sequence is decoded item by item into `yaml.MapItem` structs, which is left out. -/
def decodeMapSlice : Any → Except DecodeError Any
  | .null => .ok (.map [])
  | .map kvs => .ok (.map kvs)
  | .seq _ => .error (.unsupported "sequence where a mapping is expected")
  | _ => .error (.typeError "yaml.MapSlice")

/-- Decoding into a `ScrapeConfig`. -/
def decodeScrapeConfig : Any → Except DecodeError ScrapeConfig
  | .null => .ok { JobName := "", PipelineStages := [], KubernetesSDConfigs := [],
                   RelabelConfigs := [] }
  | .map kvs =>
    match decodeString (Any.index kvs "job_name") with
    | .error e => .error e
    | .ok jobName =>
      match decodeSlice "[]promtail.PipelineStage" decodeStage
          (Any.index kvs "pipeline_stages") with
      | .error e => .error e
      | .ok pipelineStages =>
        match decodeSlice "[]yaml.MapSlice" decodeMapSlice
            (Any.index kvs "kubernetes_sd_configs") with
        | .error e => .error e
        | .ok kubernetesSDConfigs =>
          match decodeSlice "[]yaml.MapSlice" decodeMapSlice
              (Any.index kvs "relabel_configs") with
          | .error e => .error e
          | .ok relabelConfigs =>
            .ok { JobName := jobName, PipelineStages := pipelineStages,
                  KubernetesSDConfigs := kubernetesSDConfigs,
                  RelabelConfigs := relabelConfigs }
  | _ => .error (.typeError "promtail.ScrapeConfig")

/-- `yaml.Unmarshal` with a `*PromtailConfig` as target. -/
def Unmarshal : Any → Except DecodeError PromtailConfig
  | .null => .ok { Server := .null, Client := .null, Positions := .null, ScrapeConfigs := [] }
  | .map kvs =>
    match decodeSlice "[]promtail.ScrapeConfig" decodeScrapeConfig
        (Any.index kvs "scrape_configs") with
    | .error e => .error e
    | .ok scrapeConfigs =>
      .ok { Server := (Any.index kvs "server").getD .null
            Client := (Any.index kvs "client").getD .null
            Positions := (Any.index kvs "positions").getD .null
            ScrapeConfigs := scrapeConfigs }
  | _ => .error (.typeError "promtail.PromtailConfig")

/-- The mapping written for a `PipelineStage`. -/
def marshalStage (st : PipelineStage) : Any :=
  .map (st.map fun kv => (.str kv.1, reread kv.2))

/-- The mapping written for a `ScrapeConfig`. -/
def marshalScrapeConfig (sc : ScrapeConfig) : Any :=
  .map [(.str "job_name", .str sc.JobName),
        (.str "pipeline_stages", .seq (sc.PipelineStages.map marshalStage)),
        (.str "kubernetes_sd_configs", .seq (sc.KubernetesSDConfigs.map reread)),
        (.str "relabel_configs", .seq (sc.RelabelConfigs.map reread))]

/-- `yaml.Marshal` of a `*PromtailConfig`: the document that is written. -/
def Marshal (p : PromtailConfig) : Any :=
  .map [(.str "server", reread p.Server),
        (.str "client", reread p.Client),
        (.str "positions", reread p.Positions),
        (.str "scrape_configs", .seq (p.ScrapeConfigs.map marshalScrapeConfig))]

end yaml

namespace promtail

/-- The error of `New`: `fmt.Errorf("failed to unmarshal YAML: %v", err)`. -/
inductive NewError where
  | failedToUnmarshal (err : yaml.DecodeError)
deriving DecidableEq

/-- `New` on the document that its argument `yamlStr` holds. -/
def New (yamlDoc : Any) : Except NewError PromtailConfig :=
  match yaml.Unmarshal yamlDoc with
  | .error err => .error (.failedToUnmarshal err)
  | .ok config => .ok config

end promtail

/-! ## internal/budget/budget.go: `ExtractBudget` -/

namespace Float64

/-- The conversion `float64(i)` of a Go `int`: the nearest binary64 value. -/
def ofInt (i : Int) : Float64 := round (i : ℚ)

end Float64

namespace budget

/-- `Workload` of budget.go. -/
structure Workload where
  Name : String
  DailyIngestionBudget : Int
deriving DecidableEq

/-- `Environment` of budget.go. -/
structure Environment where
  Name : String
  Workloads : List Workload
deriving DecidableEq

/-- `Organization` of budget.go. -/
structure Organization where
  Name : String
  Environments : List Environment
deriving DecidableEq

/-- `Budget` of budget.go, the budget catalog. -/
structure Budget where
  Organizations : List Organization
deriving DecidableEq

/-- The loop `for _, workload := range env.Workloads` of `ExtractBudget`. -/
def workloadsLoop : List Workload → GoMap Float64 → GoMap Float64
  | [], budgets => budgets
  | workload :: rest, budgets =>
    workloadsLoop rest
      (GoMap.set budgets workload.Name (Float64.ofInt workload.DailyIngestionBudget))

/-- The loop `for _, env := range org.Environments` of `ExtractBudget`. -/
def envsLoop (envName : String) : List Environment → GoMap Float64 → GoMap Float64
  | [], budgets => budgets
  | env :: rest, budgets =>
    if env.Name = envName then envsLoop envName rest (workloadsLoop env.Workloads budgets)
    else envsLoop envName rest budgets

/-- The loop `for _, org := range b.Organizations` of `ExtractBudget`. -/
def orgsLoop (orgName envName : String) : List Organization → GoMap Float64 → GoMap Float64
  | [], budgets => budgets
  | org :: rest, budgets =>
    if org.Name = orgName then
      orgsLoop orgName envName rest (envsLoop envName org.Environments budgets)
    else orgsLoop orgName envName rest budgets

/-- `ExtractBudget`; the error it returns is always `nil`. -/
def ExtractBudget (b : Budget) (orgName envName : String) : Except String (GoMap Float64) :=
  .ok (orgsLoop orgName envName b.Organizations [])

end budget

/-! ## internal/kubernetes/secrets.go: `FetchSecretValue` -/

namespace kubernetes

/-- The body of `for attempt := 0; attempt <= maxRetries; attempt++` in
`FetchSecretValue`; `remaining` counts the iterations still allowed.  Reading a nil
`secret.Data` gives `ok == false` like a missing key. -/
def fetchSecretLoop (ns secretName key : String) :
    Nat → Nat → World → String → World × Except String String
  | 0, _, w, lastErr =>
    (w, .error ("failed to get secret after 15 attempts: " ++ lastErr))
  | remaining + 1, attempt, w, _ =>
    let w0 := if attempt > 0 then w.log (.sleep (1 * 2 ^ (attempt - 1))) else w
    match w0.secretGet ns secretName with
    | (w1, .error e) =>
      fetchSecretLoop ns secretName key remaining (attempt + 1) w1
        ("failed to get secret: " ++ e)
    | (w1, .ok secret) =>
      match secret.Data with
      | none => (w1, .error ("key " ++ key ++ " not found in secret"))
      | some data =>
        match GoMap.get? data key with
        | none => (w1, .error ("key " ++ key ++ " not found in secret"))
        | some value => (w1, .ok value)

/-- `FetchSecretValue`. -/
def FetchSecretValue (w : World) (ns secretName key : String) : World × Except String String :=
  fetchSecretLoop ns secretName key (maxRetries + 1) 0 w ""

end kubernetes

/-! ## main.go: `midnightCron`

The three goroutines of `collectBudgetData` each deliver a result or an error; they share
no state, so they are taken one after the other.  The answers of the metrics backend and
the reading of the secret's text as a YAML document are inputs (`Sources`).  The calls of
`metrics.RecordTaskExecution` made by a cycle are its returned value. -/

namespace config

/-- `Budget` of config.go, without the path of the catalog. -/
structure Budget where
  Org : String
  Env : String
  Multiplier : Float64
  Minimum : Float64

end config

namespace main

/-- What a cycle reads besides the cluster API. -/
structure Sources where
  /-- The global `budgetConfig`. -/
  budgetConfig : budget.Budget
  /-- The field `cfg.Budget`. -/
  budgetCfg : config.Budget
  /-- The call `mimirClient.GetAvgWorkloadResourceRequest(cfg.Cluster, timeRange)`. -/
  resourceRequests : Except String (List models.WorkloadResourceRequest)
  /-- The call `mimirClient.GetIngestedGB(cfg.Cluster, timeRange)`. -/
  ingestedGB : Except String (List models.WorkloadIngestedBytes)
  /-- The YAML document that a text holds, or the syntax error of `yaml.Unmarshal`. -/
  document : String → Except String promtail.Any

/-- The errors of `getPromtailConfig` and `updateSamplingConfig`, as
`applySamplingToWorkloads` passes them on. -/
inductive ApplyError where
  | fetchFailed (err : String)
  | parseFailed
  | updateFailed (err : UpdateError)
deriving DecidableEq

/-- `collectBudgetData`: the first error, or the three results. -/
def collectBudgetData (src : Sources) :
    Except String (GoMap Float64 × List models.WorkloadResourceRequest ×
      List models.WorkloadIngestedBytes) :=
  match budget.ExtractBudget src.budgetConfig src.budgetCfg.Org src.budgetCfg.Env with
  | .error err => .error ("failed to extract budget: " ++ err)
  | .ok budgets =>
    match src.resourceRequests with
    | .error err => .error ("failed to get resource requests: " ++ err)
    | .ok resources =>
      match src.ingestedGB with
      | .error err => .error ("failed to get current ingestion: " ++ err)
      | .ok ingested => .ok (budgets, resources, ingested)

/-- `calculateDynamicBudgets`. -/
def calculateDynamicBudgets (src : Sources) (workloadBudgetOverride : GoMap Float64)
    (workloadResourceRequests : List models.WorkloadResourceRequest) :
    Except String (GoMap Float64) :=
  budget.CalculateDynamicBudget workloadResourceRequests workloadBudgetOverride
    src.budgetCfg.Multiplier src.budgetCfg.Minimum

/-- `findOverBudgetWorkloads`. -/
def findOverBudgetWorkloads (ingestedBytes : List models.WorkloadIngestedBytes)
    (dynamicBudget : GoMap Float64) : List models.OverBudgetWorkload :=
  utils.FindAbusersV2 ingestedBytes dynamicBudget

/-- `getPromtailConfig`. -/
def getPromtailConfig (cfg : config.Config) (src : Sources) (w : World) :
    World × Except ApplyError promtail.PromtailConfig :=
  match kubernetes.FetchSecretValue w cfg.Promtail.Secret.Namespace cfg.Promtail.Secret.Name
      cfg.Promtail.Secret.Key with
  | (w1, .error err) => (w1, .error (.fetchFailed err))
  | (w1, .ok configYaml) =>
    match src.document configYaml with
    | .error _ => (w1, .error .parseFailed)
    | .ok yamlDoc =>
      match promtail.New yamlDoc with
      | .error _ => (w1, .error .parseFailed)
      | .ok config => (w1, .ok config)

/-- `applySamplingToWorkloads`. -/
def applySamplingToWorkloads (env : Env) (cfg : config.Config) (src : Sources)
    (overBudgetWorkloads : List models.OverBudgetWorkload) (w : World) :
    World × Outcome (Option ApplyError) :=
  let samplingRates := utils.CalculateSamplingRates overBudgetWorkloads
  match getPromtailConfig cfg src w with
  | (w1, .error err) => (w1, .returned (some err))
  | (w1, .ok promtailConfig) =>
    match updateSamplingConfig env cfg promtailConfig samplingRates w1 with
    | (w2, .returned (some err)) => (w2, .returned (some (.updateFailed err)))
    | (w2, .returned none) => (w2, .returned none)
    | (w2, .exited code) => (w2, .exited code)
    | (w2, .panicked msg) => (w2, .panicked msg)

/-- `midnightCron`; the returned list holds the arguments of the calls of
`metrics.RecordTaskExecution`, in order. -/
def midnightCron (env : Env) (cfg : config.Config) (src : Sources) (w : World) :
    World × Outcome (List Bool) :=
  match collectBudgetData src with
  | .error _ => (w, .returned [false])
  | .ok (workloadBudgets, workloadResources, ingestedBytes) =>
    match calculateDynamicBudgets src workloadBudgets workloadResources with
    | .error _ => (w, .returned [false])
    | .ok dynamicBudget =>
      let overBudgetWorkloads := findOverBudgetWorkloads ingestedBytes dynamicBudget
      match applySamplingToWorkloads env cfg src overBudgetWorkloads w with
      | (w1, .returned (some _)) => (w1, .returned [false])
      | (w1, .returned none) => (w1, .returned [true])
      | (w1, .exited code) => (w1, .exited code)
      | (w1, .panicked msg) => (w1, .panicked msg)

end main

/-! ## Vocabulary of the specification

The definitions of this section are not translations of source functions: they name the
notions in which the specification states its properties. -/

namespace promtail

/-- Whether `parseSamplingStage` recognises the stage (returns no error). -/
def accepts (format : String) (st : PipelineStage) : Bool :=
  match parseSamplingStage st format with
  | .ok _ => true
  | .error _ => false

/-- The `pipeline_name` of a match stage, read from the typed or the untyped form. -/
def pipelineName? (st : PipelineStage) : Option String :=
  match GoMap.get? st "match" with
  | some (.matchStage m) => some m.PipelineName
  | some (.map m) =>
    match Any.index m "pipeline_name" with
    | some (.str s) => some s
    | _ => none
  | _ => none

/-- The `selector` of a match stage, read from the typed or the untyped form. -/
def selector? (st : PipelineStage) : Option String :=
  match GoMap.get? st "match" with
  | some (.matchStage m) => some m.Selector
  | some (.map m) =>
    match Any.index m "selector" with
    | some (.str s) => some s
    | _ => none
  | _ => none

/-- The rewrite step of a cycle: `RemoveAllSamplingStages` followed by
`AddSamplingStages` on the config it leaves, with the per-job enumerations `ranges` of
the rate map. -/
def rewrite (p : PromtailConfig) (samplingRates : GoMap Float64) (format : String)
    (ranges : Nat → GoMap Float64) : PromtailConfig :=
  (AddSamplingStages (RemoveAllSamplingStages p format).1 samplingRates format ranges).1

/-- The sampling stage that `newSamplingStage` builds for a valid workload and percentage. -/
def samplingStage (format workload : String) (samplingPercentage : Float64) : PipelineStage :=
  [("match", .matchStage
    { PipelineName := "automated_sampling"
      Selector := fmt.Sprintf format workload
      Stages := [[("sampling", { Rate := Float64.div samplingPercentage (.fin 100) })]] })]

/-- An untyped match stage with the marker `automated_sampling`, as YAML delivers it. -/
def markedStage (selector : String) (rate : Any) : PipelineStage :=
  [("match", .map [(.str "pipeline_name", .str "automated_sampling"),
    (.str "selector", .str selector),
    (.str "stages", .seq [.map [(.str "sampling", .map [(.str "rate", rate)])]])])]

end promtail

/-! ### Vocabulary for the stage operators -/

namespace promtail

/-- The part of a format before its first `%s` (the `prefix` of `parseSamplingStage`). -/
def formatHead (format : String) : String :=
  Go.slice format 0 (strings.Index format "%s").toNat

/-- The first error other than "not a sampling stage" that `parseSamplingStage` gives on
a list of stages, taken in order. -/
def firstParseError (format : String) : List PipelineStage → Option ParseError
  | [] => none
  | st :: rest =>
    match parseSamplingStage st format with
    | .ok _ => firstParseError format rest
    | .error .notASamplingStage => firstParseError format rest
    | .error err => some err

/-- An entry of the rate map that passes the validation of `newSamplingStage`. -/
def validEntry (kv : String × Float64) : Bool :=
  !(Float64.lt kv.2 (.fin 0) || Float64.gt kv.2 (.fin 100)) && decide (kv.1 ≠ "")

/-- The sampling stages of the valid entries of an enumeration of a rate map, in the order
of the enumeration. -/
def validStages (format : String) (samplingRates : GoMap Float64) : List PipelineStage :=
  (samplingRates.filter validEntry).map fun kv => samplingStage format kv.1 kv.2

/-- Whether the stage is a drop stage (has the key `drop`). -/
def isDropStage (st : PipelineStage) : Bool := (GoMap.get? st "drop").isSome

/-- The logical projection `{source, value, dropCounterReason}` of a drop stage: the typed
value, or what `parseDropStage` reads from the untyped mapping. -/
def dropStage? (st : PipelineStage) : Option DropStage :=
  match GoMap.get? st "drop" with
  | some (.dropStage d) => some d
  | some (.map m) =>
    match parseDropStage m with
    | .ok d => some d
    | .error _ => none
  | _ => none

/-- Whether the stage is a drop stage whose projection has the given reason. -/
def hasReason (reason : String) (st : PipelineStage) : Bool :=
  match dropStage? st with
  | some d => decide (d.DropCounterReason = reason)
  | none => false

/-- Whether the stage is a drop stage whose projection has the given source and value. -/
def dropMatches (source value : String) (st : PipelineStage) : Bool :=
  match dropStage? st with
  | some d => decide (d.Source = source ∧ d.Value = value)
  | none => false

/-- Every drop stage of the config has a logical projection. -/
def wellFormedDrops (p : PromtailConfig) : Bool :=
  p.ScrapeConfigs.all fun sc => sc.PipelineStages.all fun st =>
    !isDropStage st || (dropStage? st).isSome

end promtail

/-! ### Vocabulary for documents -/

namespace yaml

open promtail

mutual
/-- A value that holds no typed pointer and no float64 that is NaN or read back as an
`int`. -/
def plain : Any → Bool
  | .float x => (yamlInt? x).isNone && !x.isNaN
  | .seq xs => plainList xs
  | .map kvs => plainEntries kvs
  | .matchStage _ => false
  | .dropStage _ => false
  | _ => true
/-- All elements are plain. -/
def plainList : List Any → Bool
  | [] => true
  | x :: xs => plain x && plainList xs
/-- All keys and values are plain. -/
def plainEntries : List (Any × Any) → Bool
  | [] => true
  | (k, v) :: rest => plain k && plain v && plainEntries rest
end

/-- The keys of a mapping, in order. -/
def keys : Any → List Any
  | .map kvs => kvs.map fun kv => kv.1
  | _ => []

/-- The elements of the sequence under a key of a mapping. -/
def elementsAt (key : String) : Any → List Any
  | .map kvs =>
    match Any.index kvs key with
    | some (.seq xs) => xs
    | _ => []
  | _ => []

/-- The stage kinds of a document: for each scrape job in order, for each of its pipeline
stages in order, the keys of the stage. -/
def stageKinds (doc : Any) : List (List (List Any)) :=
  (elementsAt "scrape_configs" doc).map fun job =>
    (elementsAt "pipeline_stages" job).map keys

end yaml

/-! ### Vocabulary for `DropLogs` -/

namespace promtail

/-- The drop stage that `appendDropStage "workload" w "too_many_logs"` appends. -/
def workloadDrop (w : String) : PipelineStage :=
  [("drop", .dropStage { Source := "workload", DropCounterReason := "too_many_logs", Value := w })]

/-- The workloads that are present as an owned drop stage: the values of the drop stages,
over all jobs in order, whose projection has source `workload` and reason
`too_many_logs`. -/
def ownedDropWorkloads (p : PromtailConfig) : List String :=
  (p.ScrapeConfigs.flatMap fun sc => sc.PipelineStages).filterMap fun st =>
    match dropStage? st with
    | some d =>
      if d.Source = "workload" ∧ d.DropCounterReason = "too_many_logs" then some d.Value
      else none
    | none => none

/-- The entries of the list that `DropLogs` appends a stage for. -/
def newDrops (p : PromtailConfig) (newWorkloads : List String) : List String :=
  newWorkloads.filter fun w => decide (w ∉ ownedDropWorkloads p)

end promtail

/-! ### Vocabulary for the catalog and the secret store -/

namespace budget

/-- The workloads listed under the given org and env, in the order in which
`ExtractBudget` visits them. -/
def listedWorkloads (b : Budget) (orgName envName : String) : List Workload :=
  (b.Organizations.filter fun org => decide (org.Name = orgName)).flatMap fun org =>
    (org.Environments.filter fun env => decide (env.Name = envName)).flatMap fun env =>
      env.Workloads

end budget

namespace kubernetes

/-- The requests and pauses of `n` consecutive attempts, the first of them being attempt
number `attempt` (counted from 0): a pause of `2 ^ (attempt - 1)` seconds before every
attempt but the first, then the `Get` request. -/
def attemptEvents (ns secretName : String) : Nat → Nat → List Event
  | _, 0 => []
  | attempt, n + 1 =>
    (if attempt > 0 then [Event.sleep (1 * 2 ^ (attempt - 1))] else [])
      ++ Event.secretGet ns secretName :: attemptEvents ns secretName (attempt + 1) n

/-- The value at `secret.Data[key]`, if there is one. -/
def valueAt (secret : Secret) (key : String) : Option String :=
  match secret.Data with
  | none => none
  | some data => GoMap.get? data key

end kubernetes

/-- Whether the event is a request to the secret store. -/
def Event.isSecretCall : Event → Bool
  | .secretGet _ _ => true
  | .secretUpdate _ _ => true
  | _ => false

/-! ### Example data -/

/-- The selector format of the package tests, written `{workload="%s"} |= ""` in Go. -/
def exampleFormat : String := "\x7bworkload=\"%s\"\x7d |= \"\""

/-- A config with one scrape job holding the given stages. -/
def exampleConfig (stages : List promtail.PipelineStage) : promtail.PromtailConfig :=
  { Server := .null, Client := .null, Positions := .null
    ScrapeConfigs := [{ JobName := "kubernetes-pods", PipelineStages := stages
                        KubernetesSDConfigs := [], RelabelConfigs := [] }] }

/-- An environment in which every external step succeeds except that
`promtail -check-syntax` exits non-zero; every job enumerates the rate map in list order. -/
def rejectingEnv : Env :=
  { rangeOrder := fun m _ => m
    marshal := fun _ => .ok "scrape_configs: []"
    createTemp := .ok "/tmp/promtail-config-1.yaml"
    writeString := fun _ => none
    close := none
    checkSyntax := fun _ _ => false }

def exampleCfg : config.Config :=
  { Promtail :=
      { LocalBin := "/app/promtail"
        Secret := { Name := "promtail", Namespace := "kube-logging", Key := "promtail.yaml" }
        Sampling := { Selector := { Format := exampleFormat } } }
    DryRun := false }

def exampleWorld : World :=
  { secrets := [{ Namespace := "kube-logging", Name := "promtail"
                  Data := some [("promtail.yaml", "scrape_configs: []")] }]
    faults := []
    trace := [] }

/-- A shipper document with one scrape job and two foreign stages, the second a `sampling`
stage with the given rate; it has the top-level key `limits_config` and the job key
`static_configs`, for which models.go declares no field. -/
def exampleDocument (rate : promtail.Any) : promtail.Any :=
  .map [(.str "server", .map [(.str "http_listen_port", .int 9080)]),
        (.str "limits_config", .map [(.str "readline_burst", .int 10000)]),
        (.str "scrape_configs", .seq [.map
          [(.str "job_name", .str "kubernetes-pods"),
           (.str "static_configs", .seq [.map [(.str "targets", .seq [.str "localhost"])]]),
           (.str "pipeline_stages", .seq
             [.map [(.str "docker", .map [])],
              .map [(.str "sampling", .map [(.str "rate", rate)])]])]])]

/-- The config that `New` returns for `exampleDocument rate`. -/
def exampleLoaded (rate : promtail.Any) : promtail.PromtailConfig :=
  { Server := .map [(.str "http_listen_port", .int 9080)]
    Client := .null
    Positions := .null
    ScrapeConfigs :=
      [{ JobName := "kubernetes-pods"
         PipelineStages :=
           [[("docker", .map [])], [("sampling", .map [(.str "rate", rate)])]]
         KubernetesSDConfigs := []
         RelabelConfigs := [] }] }

/-- A config with two scrape jobs holding the given stages. -/
def exampleTwoJobs (first second : List promtail.PipelineStage) : promtail.PromtailConfig :=
  { Server := .null
    Client := .null
    Positions := .null
    ScrapeConfigs :=
      [{ JobName := "kubernetes-pods", PipelineStages := first
         KubernetesSDConfigs := [], RelabelConfigs := [] },
       { JobName := "journal", PipelineStages := second
         KubernetesSDConfigs := [], RelabelConfigs := [] }] }

/-- Enumerations of a rate map that differ between jobs: the first job gets the entries
in list order, every later job in the reverse order. -/
def exampleRanges (samplingRates : GoMap Float64) (i : Nat) : GoMap Float64 :=
  if i = 0 then samplingRates else samplingRates.reverse

/-- A catalog in which the workload `api` is listed twice under `groww`/`prod`. -/
def exampleBudget : budget.Budget :=
  { Organizations :=
      [{ Name := "groww"
         Environments :=
           [{ Name := "prod"
              Workloads := [{ Name := "api", DailyIngestionBudget := 5 },
                            { Name := "web", DailyIngestionBudget := 7 },
                            { Name := "api", DailyIngestionBudget := 9 }] },
            { Name := "stage"
              Workloads := [{ Name := "api", DailyIngestionBudget := 1 }] }] }] }

/-- Sources that all answer: no resource requests, no ingestion, and a secret text that
reads as a document without scrape jobs. -/
def exampleSources : main.Sources :=
  { budgetConfig := exampleBudget
    budgetCfg := { Org := "groww", Env := "prod", Multiplier := .fin 1, Minimum := .fin 1 }
    resourceRequests := .ok []
    ingestedGB := .ok []
    document := fun _ => .ok (.map [(.str "scrape_configs", .seq [])]) }

/-! ## Properties

Helper lemmas come first in each part; the statements that settle a claim carry the
claim number in their doc comment. -/

/-! ### The sizing engine -/

namespace GoMap

theorem get?_set_self {V : Type} (m : GoMap V) (k : String) (v : V) :
    get? (set m k v) k = some v := by
  induction m with
  | nil => simp [set, get?]
  | cons kv rest ih =>
    obtain ⟨k1, v1⟩ := kv
    by_cases h : k1 = k
    · simp [set, get?, h]
    · simp [set, get?, h, ih]

theorem get?_set_ne {V : Type} (m : GoMap V) (k k2 : String) (v : V) (hne : k ≠ k2) :
    get? (set m k v) k2 = get? m k2 := by
  induction m with
  | nil => simp [set, get?, hne]
  | cons kv rest ih =>
    obtain ⟨k1, v1⟩ := kv
    by_cases h : k1 = k
    · subst h
      simp [set, get?, hne]
    · by_cases h2 : k1 = k2
      · subst h2
        simp [set, get?, h]
      · simp [set, get?, h, h2, ih]

theorem mem_of_get? {V : Type} (m : GoMap V) (k : String) (v : V) (h : get? m k = some v) :
    (k, v) ∈ m := by
  induction m with
  | nil => simp [get?] at h
  | cons kv rest ih =>
    obtain ⟨k1, v1⟩ := kv
    by_cases hk : k1 = k
    · simp [get?, hk] at h
      simp [hk, h]
    · simp [get?, hk] at h
      exact List.mem_cons_of_mem _ (ih h)

end GoMap

namespace budget

theorem dynamicBudgetLoop_get? (ov : GoMap Float64) (mult minB : Float64)
    (reqs : List models.WorkloadResourceRequest) (m : GoMap Float64) (w : String) :
    GoMap.get? (dynamicBudgetLoop ov mult minB reqs m) w =
      match reqs.reverse.find? (fun r => r.Workload = w) with
      | some r => some (budgetOf r ov mult minB)
      | none => GoMap.get? m w := by
  induction reqs generalizing m with
  | nil => simp [dynamicBudgetLoop]
  | cons r rest ih =>
    simp only [dynamicBudgetLoop, ih, List.reverse_cons, List.find?_append]
    cases hfind : List.find? (fun r => decide (r.Workload = w)) rest.reverse with
    | some x => simp
    | none =>
      by_cases hw : r.Workload = w
      · subst hw
        simp [List.find?, GoMap.get?_set_self]
      · simp [hw, List.find?, GoMap.get?_set_ne _ _ _ _ hw]

end budget

/-- C5: `CalculateDynamicBudget` never fails, and its result has an entry exactly for the
workloads of the resource-request list.  The entry of `w` comes from the last request
for `w`: it is `override[w]` as it stands when `w` has an override, and otherwise
`(cpu / 16) * multiplier` raised to `minimum` when it is below it.  A workload without a
request has no entry, whether or not it has an override. -/
theorem calculateDynamicBudget_entries (reqs : List models.WorkloadResourceRequest)
    (ov : GoMap Float64) (mult minB : Float64) :
    ∃ m, budget.CalculateDynamicBudget reqs ov mult minB = .ok m ∧
      ∀ w : String,
        GoMap.get? m w =
          ((reqs.reverse.find? (fun r => r.Workload = w)).map fun r =>
            match GoMap.get? ov w with
            | some override => override
            | none =>
              let b := Float64.mul (Float64.div r.CPU (.fin 16)) mult
              if Float64.lt b minB then minB else b) ∧
        ((GoMap.get? m w).isSome ↔ w ∈ reqs.map (fun r => r.Workload)) := by
  refine ⟨_, rfl, fun w => ?_⟩
  have key := budget.dynamicBudgetLoop_get? ov mult minB reqs [] w
  cases hfind : List.find? (fun r => decide (r.Workload = w)) reqs.reverse with
  | some r =>
    rw [hfind] at key
    have hr := List.find?_some hfind
    have hmem := List.mem_of_find?_eq_some hfind
    simp only [decide_eq_true_eq] at hr
    constructor
    · rw [key]
      subst hr
      rfl
    · rw [key]
      simp only [Option.isSome_some, List.mem_map, true_iff]
      exact ⟨r, by simpa using hmem, hr⟩
  | none =>
    rw [hfind] at key
    constructor
    · rw [key]; simp [GoMap.get?]
    · rw [key]
      simp only [GoMap.get?, Option.isSome_none, List.mem_map, false_iff, Bool.false_eq_true]
      rintro ⟨r, hr, hw⟩
      have := List.find?_eq_none.mp hfind r (by simpa using hr)
      simp [hw] at this

namespace Float64

theorem pos_of_nonneg_of_ne_zero (b : Float64) (h0 : le (fin 0) b = true)
    (hne : eq b (fin 0) = false) : lt (fin 0) b = true := by
  cases b with
  | nan => simp [le] at h0
  | pinf => simp [lt]
  | ninf => simp [le] at h0
  | nzero => simp [eq, toRat] at hne
  | fin q =>
    simp only [le, toRat, decide_eq_true_eq] at h0
    simp only [eq, toRat, decide_eq_false_iff_not] at hne
    simp only [lt, toRat, decide_eq_true_eq]
    exact lt_of_le_of_ne h0 (Ne.symm hne)

theorem not_isZero_of_gt_pos (b c : Float64) (hb : lt (fin 0) b = true) (hc : lt b c = true) :
    c.isZero = false := by
  cases b with
  | nan => simp [lt] at hb
  | pinf => cases c <;> simp [lt] at hc
  | ninf => simp [lt] at hb
  | nzero => simp [lt, toRat] at hb
  | fin qb =>
    simp only [lt, toRat, decide_eq_true_eq] at hb
    cases c with
    | nan => simp [lt] at hc
    | pinf => rfl
    | ninf => simp [lt] at hc
    | nzero =>
      simp only [lt, toRat, decide_eq_true_eq] at hc
      linarith
    | fin qc =>
      simp only [lt, toRat, decide_eq_true_eq] at hc
      simp only [isZero, decide_eq_false_iff_not]
      intro h; rw [h] at hc; linarith

end Float64

namespace utils

/-- The offender record emitted for one ingested entry, if any. -/
theorem findAbusersLoop_eq (bud : GoMap Float64) (ing : List models.WorkloadIngestedBytes)
    (acc : List models.OverBudgetWorkload) :
    findAbusersLoop bud ing acc = acc ++ ing.filterMap (fun w =>
      match GoMap.get? bud w.Workload with
      | some b =>
        if Float64.eq b (.fin 0) = false ∧ Float64.gt (Float64.div w.Value (.fin 1000000000)) b = true
        then some { Cluster := w.Cluster, Workload := w.Workload, Budget := b,
                    CurrentIngestion := Float64.div w.Value (.fin 1000000000) }
        else none
      | none => none) := by
  induction ing generalizing acc with
  | nil => simp [findAbusersLoop]
  | cons w rest ih =>
    simp only [findAbusersLoop, List.filterMap_cons]
    cases hget : GoMap.get? bud w.Workload with
    | none =>
      have : Float64.eq (Float64.fin 0) (Float64.fin 0) = true := by simp [Float64.eq, Float64.toRat]
      simp [this, ih]
    | some b =>
      by_cases hz : Float64.eq b (.fin 0) = true
      · simp [hz, ih]
      · simp only [Bool.not_eq_true] at hz
        by_cases hg : Float64.gt (currentGB w) b = true
        · have hg2 := hg
          simp only [currentGB] at hg2
          simp [hz, hg, hg2, ih, currentGB]
        · have hg2 := hg
          simp only [currentGB] at hg2
          simp [hz, hg, hg2, ih]

end utils

/-- C6: `FindAbusersV2` emits, in input order, one record for each ingested entry whose
workload has a budget entry `b` with `b != 0` and `bytes / 1e9 > b`, and nothing for any
other entry; the record carries the entry's cluster and workload, `b`, and
`bytes / 1e9`.  Ingested `A: 2e9, B: 0.3e9` with budgets `A: 1, B: 1` gives exactly the
offender `A` with budget 1 and current 2. -/
theorem findAbusersV2_spec (ing : List models.WorkloadIngestedBytes) (bud : GoMap Float64) :
    utils.FindAbusersV2 ing bud = ing.filterMap (fun w =>
      match GoMap.get? bud w.Workload with
      | some b =>
        if Float64.eq b (.fin 0) = false ∧ Float64.gt (Float64.div w.Value (.fin 1000000000)) b = true
        then some { Cluster := w.Cluster, Workload := w.Workload, Budget := b,
                    CurrentIngestion := Float64.div w.Value (.fin 1000000000) }
        else none
      | none => none) ∧
    utils.FindAbusersV2
        [⟨"c", "A", .fin 2000000000⟩, ⟨"c", "B", .fin 300000000⟩]
        [("A", .fin 1), ("B", .fin 1)]
      = [⟨"c", "A", .fin 1, .fin 2⟩] := by
  constructor
  · simpa [utils.FindAbusersV2] using utils.findAbusersLoop_eq bud ing []
  · decide!

/-- C8 fails for a negative budget: with budget -1 and 0 bytes ingested the entry is an
offender, its budget is not above 0, and its current ingestion, the divisor in
`CalculateSamplingRates`, is zero. -/
theorem findAbusersV2_negative_budget :
    utils.FindAbusersV2 [⟨"c", "A", .fin 0⟩] [("A", .fin (-1))]
        = [⟨"c", "A", .fin (-1), .fin 0⟩] ∧
      Float64.lt (.fin 0) (.fin (-1)) = false ∧
      Float64.isZero (.fin 0) = true ∧
      Float64.div (.fin (-1)) (.fin 0) = .ninf := by
  decide!

/-- C8 as amended: when no budget of the map is negative (each is a number at least 0),
every offender emitted by `FindAbusersV2` satisfies `CurrentIngestion > Budget > 0`, so
the divisor `CurrentIngestion` of `CalculateSamplingRates` is never zero. -/
theorem findAbusersV2_offender_positive (ing : List models.WorkloadIngestedBytes)
    (bud : GoMap Float64) (hnonneg : ∀ kv ∈ bud, Float64.le (.fin 0) kv.2 = true)
    (o : models.OverBudgetWorkload) (ho : o ∈ utils.FindAbusersV2 ing bud) :
    Float64.gt o.CurrentIngestion o.Budget = true ∧ Float64.lt (.fin 0) o.Budget = true ∧
      o.CurrentIngestion.isZero = false := by
  have heq := utils.findAbusersLoop_eq bud ing []
  simp only [List.nil_append] at heq
  rw [utils.FindAbusersV2, heq, List.mem_filterMap] at ho
  obtain ⟨w, _, hw⟩ := ho
  cases hget : GoMap.get? bud w.Workload with
  | none => simp [hget] at hw
  | some b =>
    simp only [hget] at hw
    split_ifs at hw with hcond
    obtain ⟨hz, hg⟩ := hcond
    simp only [Option.some.injEq] at hw
    subst hw
    have hb0 := hnonneg _ (GoMap.mem_of_get? _ _ _ hget)
    have hpos := Float64.pos_of_nonneg_of_ne_zero b hb0 hz
    exact ⟨hg, hpos, Float64.not_isZero_of_gt_pos _ _ hpos hg⟩

theorem findAbusersV2_offender_positive_witness :
    Float64.gt (Float64.fin 2) (.fin 1) = true ∧ Float64.lt (.fin 0) (.fin 1) = true ∧
      (Float64.fin 2).isZero = false :=
  findAbusersV2_offender_positive
    [⟨"c", "A", .fin 2000000000⟩, ⟨"c", "B", .fin 300000000⟩] [("A", .fin 1), ("B", .fin 1)]
    (by decide) ⟨"c", "A", .fin 1, .fin 2⟩ (by decide!)

/-! ### Selector formats: `strings.Index`, `fmt.Sprintf` and slicing -/

namespace strings

theorem indexAux_percent_s (pre suf : List Char) (i : Nat) (hpre : '%' ∉ pre) :
    indexAux ['%', 's'] (pre ++ '%' :: 's' :: suf) i = ((i + pre.length : Nat) : Int) := by
  induction pre generalizing i with
  | nil => simp [indexAux, List.isPrefixOf]
  | cons c cs ih =>
    have hc : c ≠ '%' := fun h => hpre (by simp [h])
    have hcs : '%' ∉ cs := fun h => hpre (List.mem_cons_of_mem _ h)
    have hc2 : ('%' == c) = false := by simpa using hc.symm
    simp only [List.cons_append, indexAux, List.isPrefixOf, hc2, Bool.false_and,
      Bool.false_eq_true, if_false]
    have := ih (i + 1) hcs
    simp only [List.append_eq] at this ⊢
    rw [this]
    simp only [List.length_cons]
    congr 1
    omega

theorem Index_format (pre suf : String) (hpre : '%' ∉ pre.data) :
    Index (pre ++ "%s" ++ suf) "%s" = ((Go.len pre : Nat) : Int) := by
  have h := indexAux_percent_s pre.data suf.data 0 hpre
  simpa [Index, Go.len, String.data_append] using h

end strings

namespace fmt

theorem sprintfAux_literal (arg pre rest : List Char) (used : Bool) (hpre : '%' ∉ pre) :
    sprintfAux arg (pre ++ rest) used = pre ++ sprintfAux arg rest used := by
  induction pre with
  | nil => rfl
  | cons c cs ih =>
    have hc : c ≠ '%' := fun h => hpre (by simp [h])
    have hcs : '%' ∉ cs := fun h => hpre (List.mem_cons_of_mem _ h)
    rw [List.cons_append, sprintfAux]
    · rw [ih hcs]; rfl
    · intro r h _; exact hc h
    · intro r h _; exact hc h

theorem sprintfAux_used_literal (arg suf : List Char) (hsuf : '%' ∉ suf) :
    sprintfAux arg suf true = suf := by
  have := sprintfAux_literal arg suf [] true hsuf
  simpa [sprintfAux] using this

theorem Sprintf_format (pre suf w : String) (hpre : '%' ∉ pre.data) (hsuf : '%' ∉ suf.data) :
    Sprintf (pre ++ "%s" ++ suf) w = pre ++ w ++ suf := by
  apply String.ext
  simp only [Sprintf, String.data_append]
  rw [List.append_assoc, sprintfAux_literal _ _ _ _ hpre]
  simp only [List.cons_append, List.nil_append, sprintfAux, Bool.false_eq_true, if_false,
    List.append_eq]
  rw [sprintfAux_used_literal _ _ hsuf, List.append_assoc]

end fmt

namespace Go

theorem slice_format_pre (pre suf : String) :
    slice (pre ++ "%s" ++ suf) 0 (len pre) = pre := by
  apply String.ext
  simp [slice, len, String.data_append, List.append_assoc]

theorem slice_format_suf (pre suf : String) :
    slice (pre ++ "%s" ++ suf) (len pre + 2) (len (pre ++ "%s" ++ suf)) = suf := by
  apply String.ext
  simp only [slice, len, String.data_append]
  rw [List.take_length]
  have h : (pre.data ++ ("%s" : String).data).length = pre.data.length + 2 := by
    simp
  rw [← h, List.drop_left]

theorem slice_between (pre w suf : String) :
    slice (pre ++ w ++ suf) (len pre) (len pre + len w) = w := by
  apply String.ext
  simp only [slice, len, String.data_append]
  have h : pre.data.length + w.data.length = (pre.data ++ w.data).length := by simp
  rw [h, List.take_left, List.drop_left]

end Go

namespace promtail

/-- The outcome of `parseSamplingStage` on an untyped match stage that carries the marker
`automated_sampling` and a string selector, by the length of the selector. -/
theorem parseSamplingStage_marked (pre suf selector : String) (m : List (Any × Any))
    (st : PipelineStage)
    (hidx : strings.Index (pre ++ "%s" ++ suf) "%s" = ((Go.len pre : Nat) : Int))
    (hst : GoMap.get? st "match" = some (.map m))
    (hname : Any.index m "pipeline_name" = some (.str "automated_sampling"))
    (hsel : Any.index m "selector" = some (.str selector)) :
    (Go.len selector ≤ Go.len pre →
      parseSamplingStage st (pre ++ "%s" ++ suf) = .error .notASamplingStage) ∧
    (Go.len pre < Go.len selector → Go.len selector ≤ Go.len pre + Go.len suf →
      parseSamplingStage st (pre ++ "%s" ++ suf) = .error (.extractFailed selector)) ∧
    (Go.len pre + Go.len suf < Go.len selector →
      (∃ rate, parseSamplingStage st (pre ++ "%s" ++ suf) =
          .ok (Go.slice selector (Go.len pre) (Go.len selector - Go.len suf), rate)) ∨
      parseSamplingStage st (pre ++ "%s" ++ suf) = .error .rateNotFloat ∨
      parseSamplingStage st (pre ++ "%s" ++ suf) = .error .samplingNotFound ∨
      parseSamplingStage st (pre ++ "%s" ++ suf) = .error .invalidStageFormat ∨
      parseSamplingStage st (pre ++ "%s" ++ suf) = .error .stagesMissingOrEmpty) := by
  have hne : ¬ (((Go.len pre : Nat) : Int) = -1) := by omega
  refine ⟨fun h => ?_, fun h1 h2 => ?_, fun h => ?_⟩
  · simp only [parseSamplingStage, hidx, hne, if_false, Int.toNat_ofNat, Go.slice_format_pre,
      hst, hname, hsel, if_true]
    rw [if_neg (by omega)]
  · simp only [parseSamplingStage, hidx, hne, if_false, Int.toNat_ofNat, Go.slice_format_pre,
      Go.slice_format_suf, hst, hname, hsel, if_true]
    rw [if_pos (by omega), if_neg (by omega)]
  · simp only [parseSamplingStage, hidx, hne, if_false, Int.toNat_ofNat, Go.slice_format_pre,
      Go.slice_format_suf, hst, hname, hsel, if_true]
    rw [if_pos (by omega), if_pos (by omega)]
    have hend : ((Go.len selector : Int) - (Go.len suf : Int)).toNat
        = Go.len selector - Go.len suf := by omega
    rw [hend]
    split
    · split
      · split
        · split
          · exact Or.inl ⟨_, rfl⟩
          · exact Or.inr (Or.inl rfl)
        · exact Or.inr (Or.inr (Or.inl rfl))
      · exact Or.inr (Or.inr (Or.inr (Or.inl rfl)))
    · exact Or.inr (Or.inr (Or.inr (Or.inr rfl)))

end promtail


namespace Go

theorem len_slice (s : String) (i j : Nat) : len (slice s i j) = Nat.min j (len s) - i := by
  simp [len, slice, List.length_drop, List.length_take]

end Go

namespace Float64

theorem lt_false_of_le (a b : Float64) (h : le a b = true) : lt b a = false := by
  cases a <;> cases b <;> simp_all [le, lt, toRat]

end Float64

/-! ### `parseSamplingStage` and `newSamplingStage` -/

/-- C10 fails where the selector does not start with the prefix: a marked stage whose
selector is 25 letters `z` parses under the format `{workload="%s"} |= ""` to the
workload `zzzzzz`, the bytes between offset 11 and offset 25 - 8, with no error, although
the selector neither starts with the prefix nor ends with the suffix. -/
theorem parseSamplingStage_ignores_affixes :
    promtail.parseSamplingStage
        [("match", .map [(.str "pipeline_name", .str "automated_sampling"),
          (.str "selector", .str "zzzzzzzzzzzzzzzzzzzzzzzzz"),
          (.str "stages", .seq [.map [(.str "sampling", .map [(.str "rate", .float (.fin (1/2)))])]])])]
        exampleFormat
      = .ok ("zzzzzz", .fin 50) ∧
    List.isPrefixOf "\x7bworkload=\"".data "zzzzzzzzzzzzzzzzzzzzzzzzz".data = false ∧
    List.isSuffixOf "\"\x7d |= \"\"".data "zzzzzzzzzzzzzzzzzzzzzzzzz".data = false := by
  decide!

/-- C10 as amended: for a match stage marked `automated_sampling` with a string selector
and a format `pre ++ "%s" ++ suf` whose first `%s` is the one after `pre`,
`parseSamplingStage` decides by length alone and never compares the selector with the
prefix or the suffix.  A selector no longer than `pre` gives the sentinel "not a sampling
stage"; one longer than `pre` but not longer than `pre` and `suf` together gives the
parse error "failed to extract workload"; a workload `w` is returned only for a selector
strictly longer than both together, and then `w` is the non-empty slice
`selector[len(pre) : len(selector) - len(suf)]`, which is the `w` of
`selector = pre ++ w ++ suf` when the selector has that form. -/
theorem parseSamplingStage_workload_by_length (pre suf selector : String)
    (m : List (promtail.Any × promtail.Any)) (st : promtail.PipelineStage)
    (hidx : strings.Index (pre ++ "%s" ++ suf) "%s" = ((Go.len pre : Nat) : Int))
    (hst : GoMap.get? st "match" = some (.map m))
    (hname : promtail.Any.index m "pipeline_name" = some (.str "automated_sampling"))
    (hsel : promtail.Any.index m "selector" = some (.str selector)) :
    (Go.len selector ≤ Go.len pre →
      promtail.parseSamplingStage st (pre ++ "%s" ++ suf) = .error .notASamplingStage) ∧
    (Go.len pre < Go.len selector → Go.len selector ≤ Go.len pre + Go.len suf →
      promtail.parseSamplingStage st (pre ++ "%s" ++ suf) = .error (.extractFailed selector)) ∧
    (∀ w pct, promtail.parseSamplingStage st (pre ++ "%s" ++ suf) = .ok (w, pct) →
      Go.len pre + Go.len suf < Go.len selector ∧
      w = Go.slice selector (Go.len pre) (Go.len selector - Go.len suf) ∧ w ≠ "") ∧
    (∀ w w2 pct, selector = pre ++ w ++ suf →
      promtail.parseSamplingStage st (pre ++ "%s" ++ suf) = .ok (w2, pct) → w2 = w) := by
  obtain ⟨h1, h2, h3⟩ := promtail.parseSamplingStage_marked pre suf selector m st hidx hst hname hsel
  have key : ∀ w pct, promtail.parseSamplingStage st (pre ++ "%s" ++ suf) = .ok (w, pct) →
      Go.len pre + Go.len suf < Go.len selector ∧
      w = Go.slice selector (Go.len pre) (Go.len selector - Go.len suf) := by
    intro w pct hok
    by_cases hlen : Go.len pre + Go.len suf < Go.len selector
    · refine ⟨hlen, ?_⟩
      rcases h3 hlen with ⟨rate, hr⟩ | hr | hr | hr | hr
      · rw [hr] at hok
        simp only [Except.ok.injEq, Prod.mk.injEq] at hok
        exact hok.1.symm
      all_goals (rw [hr] at hok; cases hok)
    · by_cases hle : Go.len selector ≤ Go.len pre
      · rw [h1 hle] at hok; cases hok
      · rw [h2 (by omega) (by omega)] at hok; cases hok
  refine ⟨h1, h2, fun w pct hok => ?_, fun w w2 pct hform hok => ?_⟩
  · obtain ⟨hlen, hw⟩ := key w pct hok
    refine ⟨hlen, hw, fun hempty => ?_⟩
    have hl := Go.len_slice selector (Go.len pre) (Go.len selector - Go.len suf)
    rw [← hw, hempty] at hl
    have h0 : Go.len "" = 0 := rfl
    rw [h0] at hl
    simp only [Nat.min_def] at hl
    split_ifs at hl <;> omega
  · obtain ⟨_, hw⟩ := key w2 pct hok
    rw [hw, hform]
    have hl : Go.len (pre ++ w ++ suf) - Go.len suf = Go.len pre + Go.len w := by
      simp only [Go.len, String.data_append, List.length_append]
      omega
    rw [hl, Go.slice_between]

theorem parseSamplingStage_workload_by_length_witness :
    Go.len "\x7bworkload=\"" + Go.len "\"\x7d |= \"\"" < Go.len "\x7bworkload=\"api\"\x7d |= \"\"" ∧
      "api" = Go.slice "\x7bworkload=\"api\"\x7d |= \"\"" (Go.len "\x7bworkload=\"")
        (Go.len "\x7bworkload=\"api\"\x7d |= \"\"" - Go.len "\"\x7d |= \"\"") ∧
      "api" ≠ "" :=
  (parseSamplingStage_workload_by_length "\x7bworkload=\"" "\"\x7d |= \"\""
    "\x7bworkload=\"api\"\x7d |= \"\""
    [(.str "pipeline_name", .str "automated_sampling"),
      (.str "selector", .str "\x7bworkload=\"api\"\x7d |= \"\""),
      (.str "stages", .seq [.map [(.str "sampling", .map [(.str "rate", .float (.fin (1/2)))])]])]
    [("match", .map [(.str "pipeline_name", .str "automated_sampling"),
      (.str "selector", .str "\x7bworkload=\"api\"\x7d |= \"\""),
      (.str "stages", .seq [.map [(.str "sampling", .map [(.str "rate", .float (.fin (1/2)))])]])])]
    (by decide) (by rfl) (by rfl) (by rfl)).2.2.1 "api" (.fin 50) (by decide!)

/-- C9 fails at `p = 7`: the stage built for 7 percent stores the rate `7 / 100`, and
parsing its YAML form multiplies that rate by 100 again, which in float64 gives
`7.000000000000001` (`7 + 2 ^ (-50)`), not 7. -/
theorem sampling_roundtrip_inexact :
    (promtail.newSamplingStage exampleFormat "api" (.fin 7)).map
        (fun s => promtail.parseSamplingStage (promtail.serialized s) exampleFormat)
      = .ok (.ok ("api", .fin (7881299347898369 / 1125899906842624))) ∧
    Float64.fin (7881299347898369 / 1125899906842624) ≠ .fin 7 := by
  decide!

/-- C9 as amended: for a format `pre ++ "%s" ++ suf` with no other `%`, a non-empty
workload `w` and a percentage `p` in `[0, 100]`, `newSamplingStage` returns the match
stage with selector `pre ++ w ++ suf` and rate `p / 100`; when that rate is read back
from YAML as a float64 (it is not the whole number 0 or 1), `parseSamplingStage` with the
same format returns, with no error, the workload `w` exactly and the percentage
`(p / 100) * 100` computed in float64, which is `p` up to one rounding. -/
theorem sampling_roundtrip (pre suf w : String) (p : Float64)
    (hpre : '%' ∉ pre.data) (hsuf : '%' ∉ suf.data) (hw : w ≠ "")
    (h0 : Float64.le (.fin 0) p = true) (h100 : Float64.le p (.fin 100) = true)
    (hrate : promtail.yamlInt? (Float64.div p (.fin 100)) = none) :
    promtail.newSamplingStage (pre ++ "%s" ++ suf) w p =
        .ok [("match", .matchStage
          { PipelineName := "automated_sampling"
            Selector := pre ++ w ++ suf
            Stages := [[("sampling", { Rate := Float64.div p (.fin 100) })]] })] ∧
      promtail.parseSamplingStage
          (promtail.serialized [("match", .matchStage
            { PipelineName := "automated_sampling"
              Selector := pre ++ w ++ suf
              Stages := [[("sampling", { Rate := Float64.div p (.fin 100) })]] })])
          (pre ++ "%s" ++ suf)
        = .ok (w, Float64.mul (Float64.div p (.fin 100)) (.fin 100)) := by
  constructor
  · simp [promtail.newSamplingStage, Float64.gt, Float64.lt_false_of_le _ _ h0,
      Float64.lt_false_of_le _ _ h100, hw, fmt.Sprintf_format pre suf w hpre hsuf]
  · have hidx := strings.Index_format pre suf hpre
    have hne : ¬ (((Go.len pre : Nat) : Int) = -1) := by omega
    have hwlen : 0 < Go.len w := by
      rcases w with ⟨l⟩
      cases l with
      | nil => exact absurd rfl hw
      | cons c cs => simp [Go.len]
    have hlen : Go.len (pre ++ w ++ suf) = Go.len pre + Go.len w + Go.len suf := by
      simp only [Go.len, String.data_append, List.length_append]
    have hyaml : promtail.yamlFloat (Float64.div p (.fin 100))
        = .float (Float64.div p (.fin 100)) := by
      simp [promtail.yamlFloat, hrate]
    have hst : GoMap.get? (promtail.serialized [("match", promtail.Any.matchStage
            { PipelineName := "automated_sampling"
              Selector := pre ++ w ++ suf
              Stages := [[("sampling", { Rate := Float64.div p (.fin 100) })]] })]) "match"
        = some (.map [(.str "pipeline_name", .str "automated_sampling"),
            (.str "selector", .str (pre ++ w ++ suf)),
            (.str "stages", .seq [.map [(.str "sampling",
              .map [(.str "rate", promtail.Any.float (Float64.div p (.fin 100)))])]])]) := by
      rw [← hyaml]; rfl
    have hname : promtail.Any.index [(.str "pipeline_name", .str "automated_sampling"),
            (.str "selector", .str (pre ++ w ++ suf)),
            (.str "stages", .seq [.map [(.str "sampling",
              .map [(.str "rate", promtail.Any.float (Float64.div p (.fin 100)))])]])]
          "pipeline_name" = some (.str "automated_sampling") := rfl
    have hsel : promtail.Any.index [(.str "pipeline_name", .str "automated_sampling"),
            (.str "selector", .str (pre ++ w ++ suf)),
            (.str "stages", .seq [.map [(.str "sampling",
              .map [(.str "rate", promtail.Any.float (Float64.div p (.fin 100)))])]])]
          "selector" = some (.str (pre ++ w ++ suf)) := rfl
    have hstages : promtail.Any.index [(.str "pipeline_name", .str "automated_sampling"),
            (.str "selector", .str (pre ++ w ++ suf)),
            (.str "stages", .seq [.map [(.str "sampling",
              .map [(.str "rate", promtail.Any.float (Float64.div p (.fin 100)))])]])]
          "stages" = some (.seq [.map [(.str "sampling",
              .map [(.str "rate", promtail.Any.float (Float64.div p (.fin 100)))])]]) := rfl
    have hsampling : promtail.Any.index [(.str "sampling",
              .map [(.str "rate", promtail.Any.float (Float64.div p (.fin 100)))])] "sampling"
        = some (.map [(.str "rate", promtail.Any.float (Float64.div p (.fin 100)))]) := rfl
    have hrt : promtail.Any.index
          [(.str "rate", promtail.Any.float (Float64.div p (.fin 100)))] "rate"
        = some (promtail.Any.float (Float64.div p (.fin 100))) := rfl
    simp only [promtail.parseSamplingStage, hidx, hne, if_false, Int.toNat_ofNat,
      Go.slice_format_pre, Go.slice_format_suf, hst, hname, hsel, hstages, hsampling, hrt,
      if_true]
    rw [if_pos (by omega), if_pos (by omega)]
    have hend : ((Go.len (pre ++ w ++ suf) : Int) - (Go.len suf : Int)).toNat
        = Go.len pre + Go.len w := by omega
    rw [hend, Go.slice_between]

theorem sampling_roundtrip_witness :
    promtail.newSamplingStage ("\x7bworkload=\"" ++ "%s" ++ "\"\x7d |= \"\"") "api" (.fin 50) =
        .ok [("match", .matchStage
          { PipelineName := "automated_sampling"
            Selector := "\x7bworkload=\"" ++ "api" ++ "\"\x7d |= \"\""
            Stages := [[("sampling", { Rate := Float64.div (.fin 50) (.fin 100) })]] })] ∧
      promtail.parseSamplingStage
          (promtail.serialized [("match", .matchStage
            { PipelineName := "automated_sampling"
              Selector := "\x7bworkload=\"" ++ "api" ++ "\"\x7d |= \"\""
              Stages := [[("sampling", { Rate := Float64.div (.fin 50) (.fin 100) })]] })])
          ("\x7bworkload=\"" ++ "%s" ++ "\"\x7d |= \"\"")
        = .ok ("api", Float64.mul (Float64.div (.fin 50) (.fin 100)) (.fin 100)) :=
  sampling_roundtrip "\x7bworkload=\"" "\"\x7d |= \"\"" "api" (.fin 50)
    (by decide) (by decide) (by decide) (by decide) (by decide) (by decide!)

/-! ### `RemoveAllSamplingStages` and `AddSamplingStages` -/

namespace promtail

theorem removeStagesLoop_ok (f : String) (stages acc res : List PipelineStage) (upd u : Bool)
    (h : removeStagesLoop f stages acc upd = .ok (res, u)) :
    res = acc ++ stages.filter (fun st => !accepts f st) ∧
      ∀ st ∈ stages, accepts f st = true ∨ parseSamplingStage st f = .error .notASamplingStage := by
  induction stages generalizing acc upd with
  | nil =>
    simp only [removeStagesLoop, Except.ok.injEq, Prod.mk.injEq] at h
    simp [h.1]
  | cons st rest ih =>
    simp only [removeStagesLoop] at h
    cases hp : parseSamplingStage st f with
    | ok r =>
      simp only [hp] at h
      obtain ⟨h1, h2⟩ := ih _ _ h
      have hacc : accepts f st = true := by simp [accepts, hp]
      refine ⟨by simp [h1, List.filter, hacc], fun s hs => ?_⟩
      rcases List.mem_cons.mp hs with rfl | hs
      · exact Or.inl hacc
      · exact h2 s hs
    | error e =>
      have hacc : accepts f st = false := by simp [accepts, hp]
      cases e with
      | notASamplingStage =>
        simp only [hp] at h
        obtain ⟨h1, h2⟩ := ih _ _ h
        refine ⟨by simp [h1, List.filter, hacc], fun s hs => ?_⟩
        rcases List.mem_cons.mp hs with rfl | hs
        · exact Or.inr hp
        · exact h2 s hs
      | _ => simp [hp] at h

theorem removeJobsLoop_ok (f : String) (jobs : List ScrapeConfig) (upd : Bool)
    (h : (removeJobsLoop f jobs upd).err = none) :
    (removeJobsLoop f jobs upd).config = jobs.map (fun sc =>
        { sc with PipelineStages := sc.PipelineStages.filter (fun st => !accepts f st) }) ∧
      ∀ sc ∈ jobs, ∀ st ∈ sc.PipelineStages,
        accepts f st = true ∨ parseSamplingStage st f = .error .notASamplingStage := by
  induction jobs generalizing upd with
  | nil => simp [removeJobsLoop]
  | cons sc rest ih =>
    simp only [removeJobsLoop] at h ⊢
    cases hl : removeStagesLoop f sc.PipelineStages [] upd with
    | error e => simp [hl] at h
    | ok r =>
      simp only [hl] at h ⊢
      obtain ⟨r1, r2⟩ := r
      obtain ⟨h1, h2⟩ := removeStagesLoop_ok f _ _ _ _ _ hl
      obtain ⟨h3, h4⟩ := ih _ h
      refine ⟨by simp [h3, h1], fun s hs => ?_⟩
      rcases List.mem_cons.mp hs with rfl | hs
      · exact h2
      · exact h4 s hs

theorem accepts_marker (f : String) (st : PipelineStage) (h : accepts f st = true) :
    pipelineName? st = some "automated_sampling" := by
  by_contra hne
  have herr : accepts f st = false := by
    unfold pipelineName? at hne
    unfold accepts parseSamplingStage
    by_cases hidx : strings.Index f "%s" = -1
    · simp [hidx]
    · cases hg : GoMap.get? st "match" with
      | none => simp [hidx]
      | some v =>
        cases v with
        | map m =>
          cases hn : Any.index m "pipeline_name" with
          | none => simp [hidx, hn]
          | some n =>
            cases n with
            | str s =>
              by_cases hs : s = "automated_sampling"
              · simp [hg, hn, hs] at hne
              · simp [hidx, hn, hs]
            | _ => simp [hidx, hn]
        | _ => simp [hidx]
  rw [herr] at h
  cases h

end promtail

/-- C3: when `RemoveAllSamplingStages` succeeds, every job's stage list is the original
list filtered to the stages that `parseSamplingStage` does not accept, so the kept stages
are unchanged and in their original order, and the other fields of the config are
untouched.  A stage whose `pipeline_name` is not `automated_sampling` is never accepted,
hence always kept. -/
theorem removeAllSamplingStages_filter (p p1 : promtail.PromtailConfig) (f : String)
    (upd : Bool) (h : promtail.RemoveAllSamplingStages p f = (p1, upd, none)) :
    p1.ScrapeConfigs = p.ScrapeConfigs.map (fun sc =>
        { sc with PipelineStages :=
            sc.PipelineStages.filter (fun st => !promtail.accepts f st) }) ∧
      p1.Server = p.Server ∧ p1.Client = p.Client ∧ p1.Positions = p.Positions ∧
      ∀ st, promtail.pipelineName? st ≠ some "automated_sampling" →
        promtail.accepts f st = false := by
  simp only [promtail.RemoveAllSamplingStages, Prod.mk.injEq] at h
  obtain ⟨hp, _, herr⟩ := h
  obtain ⟨hcfg, _⟩ := promtail.removeJobsLoop_ok f p.ScrapeConfigs false herr
  subst hp
  refine ⟨hcfg, rfl, rfl, rfl, fun st hst => ?_⟩
  cases hacc : promtail.accepts f st with
  | false => rfl
  | true => exact absurd (promtail.accepts_marker f st hacc) hst

namespace GoMap

end GoMap

/-- Every enumeration of `exampleRanges` is a permutation of the map. -/
theorem exampleRanges_perm (R : GoMap Float64) (i : Nat) : (exampleRanges R i).Perm R := by
  unfold exampleRanges
  split_ifs
  · exact List.Perm.refl _
  · exact List.reverse_perm _

namespace promtail

end promtail

theorem removeAllSamplingStages_filter_witness :
    (exampleConfig [[("docker", .null)],
        [("match", .map [(.str "pipeline_name", .str "other"), (.str "selector", .str "x")])]]).ScrapeConfigs
      = (exampleConfig [[("docker", .null)],
          promtail.markedStage "\x7bworkload=\"X\"\x7d |= \"\"" (.float (.fin (1/5))),
          [("match", .map [(.str "pipeline_name", .str "other"), (.str "selector", .str "x")])]]
        ).ScrapeConfigs.map (fun sc =>
          { sc with PipelineStages :=
              sc.PipelineStages.filter (fun st => !promtail.accepts exampleFormat st) }) ∧
      (exampleConfig [[("docker", .null)],
        [("match", .map [(.str "pipeline_name", .str "other"), (.str "selector", .str "x")])]]).Server
        = (exampleConfig [[("docker", .null)],
          promtail.markedStage "\x7bworkload=\"X\"\x7d |= \"\"" (.float (.fin (1/5))),
          [("match", .map [(.str "pipeline_name", .str "other"), (.str "selector", .str "x")])]]).Server :=
  ⟨(removeAllSamplingStages_filter
    (exampleConfig [[("docker", .null)],
      promtail.markedStage "\x7bworkload=\"X\"\x7d |= \"\"" (.float (.fin (1/5))),
      [("match", .map [(.str "pipeline_name", .str "other"), (.str "selector", .str "x")])]])
    (exampleConfig [[("docker", .null)],
      [("match", .map [(.str "pipeline_name", .str "other"), (.str "selector", .str "x")])]])
    exampleFormat true rfl).1,
   (removeAllSamplingStages_filter
    (exampleConfig [[("docker", .null)],
      promtail.markedStage "\x7bworkload=\"X\"\x7d |= \"\"" (.float (.fin (1/5))),
      [("match", .map [(.str "pipeline_name", .str "other"), (.str "selector", .str "x")])]])
    (exampleConfig [[("docker", .null)],
      [("match", .map [(.str "pipeline_name", .str "other"), (.str "selector", .str "x")])]])
    exampleFormat true rfl).2.1⟩

/-- C1 fails on the config with one job and no stage, the format `{workload="%s"} |= ""`
and the rate map `api: 50` (a map of one entry has one enumeration): one run of the pair
leaves one stage in the job, a second run
on that result leaves two, because `parseSamplingStage` answers "not a sampling stage" for
the `*MatchStage` value that the first run stored, so the second removal keeps it and
the second addition appends another. -/
theorem rewrite_twice_appends_again :
    (promtail.rewrite (exampleConfig []) [("api", .fin 50)] exampleFormat
        (fun _ => [("api", .fin 50)])).ScrapeConfigs.map
        (fun job => job.PipelineStages.length) = [1] ∧
    (promtail.rewrite (promtail.rewrite (exampleConfig []) [("api", .fin 50)] exampleFormat
        (fun _ => [("api", .fin 50)]))
        [("api", .fin 50)] exampleFormat (fun _ => [("api", .fin 50)])).ScrapeConfigs.map
        (fun job => job.PipelineStages.length) = [2] ∧
    (promtail.rewrite (exampleConfig []) [("api", .fin 50)] exampleFormat
        (fun _ => [("api", .fin 50)])).ScrapeConfigs.map
        (fun job => job.PipelineStages.map
          (fun st => promtail.parseSamplingStage st exampleFormat))
      = [[.error .notASamplingStage]] ∧
    promtail.parseSamplingStage
        (promtail.serialized (promtail.samplingStage exampleFormat "api" (.fin 50)))
        exampleFormat = .ok ("api", .fin 50) := by
  decide!

/-! ### Validation before persistence -/

namespace promtail

/-- `ValidateConfig` sends nothing to the secret store: it leaves the secrets and the
fault script as they are and only appends events that are not secret requests. -/
theorem ValidateConfig_frame (env : Env) (p : PromtailConfig) (bin : String) (w : World) :
    (ValidateConfig env p bin w).1.secrets = w.secrets ∧
      (ValidateConfig env p bin w).1.faults = w.faults ∧
      ∃ evs, (ValidateConfig env p bin w).1.trace = w.trace ++ evs ∧
        ∀ e ∈ evs, e.isSecretCall = false := by
  unfold ValidateConfig
  cases ToYAML env p with
  | error e => exact ⟨rfl, rfl, [], by simp, by simp⟩
  | ok yamlStr =>
    dsimp only
    cases env.createTemp with
    | error e => exact ⟨rfl, rfl, [], by simp, by simp⟩
    | ok tmpFile =>
      dsimp only
      cases env.writeString yamlStr with
      | some e => exact ⟨rfl, rfl, [], by simp, by simp⟩
      | none =>
        dsimp only
        cases env.close with
        | some e => exact ⟨rfl, rfl, [], by simp, by simp⟩
        | none =>
          dsimp only
          by_cases hc : env.checkSyntax bin yamlStr = true
          · simp only [hc, if_true]
            exact ⟨rfl, rfl, [.exec bin ["-check-syntax", "--config.file", tmpFile],
              .removeFile tmpFile], by simp [World.log], by simp [Event.isSecretCall]⟩
          · simp only [hc, if_false]
            exact ⟨rfl, rfl, [.exec bin ["-check-syntax", "--config.file", tmpFile]],
              by simp [World.log], by simp [Event.isSecretCall]⟩

end promtail

namespace kubernetes

theorem secretGet_trace (w : World) (ns name : String) :
    (w.secretGet ns name).1.trace = w.trace ++ [.secretGet ns name] := by
  unfold World.secretGet World.nextFault World.log
  cases w.faults <;> simp only <;> split <;> (try split) <;> rfl

theorem secretUpdate_trace (w : World) (s : Secret) (d : Bool) :
    (w.secretUpdate s d).1.trace = w.trace ++ [.secretUpdate s d] := by
  unfold World.secretUpdate World.nextFault World.log
  cases w.faults <;> simp only <;> split <;> (try split) <;> (try split) <;> rfl

theorem updateSecretLoop_trace (ns name key v : String) (d : Bool) (n a : Nat) (w : World)
    (lastErr : String) :
    ∃ rest, (updateSecretLoop ns name key v d n a w lastErr).1.trace = w.trace ++ rest := by
  induction n generalizing a w lastErr with
  | zero => exact ⟨[], by simp [updateSecretLoop]⟩
  | succ n ih =>
    unfold updateSecretLoop
    simp only
    generalize hw0 : (if a > 0 then w.log (.sleep (1 * 2 ^ (a - 1))) else w) = w0
    have h0 : ∃ r0, w0.trace = w.trace ++ r0 := by
      rw [← hw0]
      split_ifs
      · exact ⟨[.sleep (1 * 2 ^ (a - 1))], rfl⟩
      · exact ⟨[], by simp⟩
    obtain ⟨r0, hr0⟩ := h0
    have hget := secretGet_trace w0 ns name
    rcases hg : w0.secretGet ns name with ⟨w1, res⟩
    rw [hg] at hget
    simp only at hget
    cases res with
    | error e =>
      simp only
      obtain ⟨r, hr⟩ := ih (a + 1) w1 ("failed to get secret: " ++ e)
      exact ⟨r0 ++ [.secretGet ns name] ++ r, by rw [hr, hget, hr0]; simp⟩
    | ok secret =>
      simp only
      cases hd : secret.Data with
      | none => exact ⟨r0 ++ [.secretGet ns name], by simp [hget, hr0]⟩
      | some data =>
        simp only
        have hupd := secretUpdate_trace w1
          { secret with Data := some (GoMap.set data key v) } d
        rcases hu : w1.secretUpdate { secret with Data := some (GoMap.set data key v) } d
          with ⟨w2, res2⟩
        rw [hu] at hupd
        simp only at hupd
        cases res2 with
        | error e =>
          simp only
          obtain ⟨r, hr⟩ := ih (a + 1) w2 ("failed to update secret: " ++ e)
          exact ⟨r0 ++ [.secretGet ns name] ++ [.secretUpdate { secret with Data := some (GoMap.set data key v) } d] ++ r, by
            rw [hr, hupd, hget, hr0]; simp⟩
        | ok u =>
          exact ⟨r0 ++ [.secretGet ns name] ++ [.secretUpdate { secret with Data := some (GoMap.set data key v) } d], by
            simp [hupd, hget, hr0]⟩

/-- Every call of `UpdateSecretValue` begins with a `Get` request to the secret store. -/
theorem UpdateSecretValue_first_event (w : World) (ns name key v : String) (d : Bool) :
    ∃ rest, (UpdateSecretValue w ns name key v d).1.trace
      = w.trace ++ Event.secretGet ns name :: rest := by
  unfold UpdateSecretValue maxRetries updateSecretLoop
  simp only [gt_iff_lt, lt_self_iff_false, if_false]
  have hget := secretGet_trace w ns name
  rcases hg : w.secretGet ns name with ⟨w1, res⟩
  rw [hg] at hget
  simp only at hget
  cases res with
  | error e =>
    simp only
    obtain ⟨r, hr⟩ := updateSecretLoop_trace ns name key v d 14 1 w1 ("failed to get secret: " ++ e)
    exact ⟨r, by rw [hr, hget]; simp⟩
  | ok secret =>
    simp only
    cases hd : secret.Data with
    | none => exact ⟨[], by simp [hget]⟩
    | some data =>
      simp only
      have hupd := secretUpdate_trace w1 { secret with Data := some (GoMap.set data key v) } d
      rcases hu : w1.secretUpdate { secret with Data := some (GoMap.set data key v) } d
        with ⟨w2, res2⟩
      rw [hu] at hupd
      simp only at hupd
      cases res2 with
      | error e =>
        simp only
        obtain ⟨r, hr⟩ := updateSecretLoop_trace ns name key v d 14 1 w2
          ("failed to update secret: " ++ e)
        exact ⟨[.secretUpdate { secret with Data := some (GoMap.set data key v) } d] ++ r, by rw [hr, hupd, hget]; simp⟩
      | ok u => exact ⟨[.secretUpdate { secret with Data := some (GoMap.set data key v) } d], by simp [hupd, hget]⟩

end kubernetes

/-- C4: in `updateSamplingConfig`, when the rewritten config reaches `ValidateConfig` and
`ValidateConfig` does not return `nil` (the syntax checker exits non-zero, or an earlier
step of the validation fails), the function ends without success and without any request
to the secret store: the stored secrets are unchanged, no scripted API answer has been
consumed, and the events added to the trace are not secret requests.  Since every call of
`UpdateSecretValue` starts with a `Get` request, `UpdateSecretValue` was not called. -/
theorem updateSamplingConfig_validation_gate (env : Env) (cfg : config.Config)
    (p p1 : promtail.PromtailConfig) (upd : Bool) (samplingRates : GoMap Float64) (w : World)
    (hrem : promtail.RemoveAllSamplingStages p cfg.Promtail.Sampling.Selector.Format
      = (p1, upd, none))
    (hval : (promtail.ValidateConfig env
        (promtail.AddSamplingStages p1 samplingRates cfg.Promtail.Sampling.Selector.Format
          (env.rangeOrder samplingRates)).1
        cfg.Promtail.LocalBin w).2 ≠ .returned none) :
    (main.updateSamplingConfig env cfg p samplingRates w).1.secrets = w.secrets ∧
      (main.updateSamplingConfig env cfg p samplingRates w).1.faults = w.faults ∧
      (∃ evs, (main.updateSamplingConfig env cfg p samplingRates w).1.trace = w.trace ++ evs ∧
        ∀ e ∈ evs, e.isSecretCall = false) ∧
      (main.updateSamplingConfig env cfg p samplingRates w).2 ≠ .returned none ∧
      (∀ (w0 : World) (ns name key v : String) (d : Bool),
        ∃ rest, (kubernetes.UpdateSecretValue w0 ns name key v d).1.trace
          = w0.trace ++ Event.secretGet ns name :: rest) := by
  have hframe := promtail.ValidateConfig_frame env
    (promtail.AddSamplingStages p1 samplingRates cfg.Promtail.Sampling.Selector.Format
          (env.rangeOrder samplingRates)).1
    cfg.Promtail.LocalBin w
  have key : main.updateSamplingConfig env cfg p samplingRates w =
      ((promtail.ValidateConfig env
        (promtail.AddSamplingStages p1 samplingRates cfg.Promtail.Sampling.Selector.Format
          (env.rangeOrder samplingRates)).1
        cfg.Promtail.LocalBin w).1,
       match (promtail.ValidateConfig env
        (promtail.AddSamplingStages p1 samplingRates cfg.Promtail.Sampling.Selector.Format
          (env.rangeOrder samplingRates)).1
        cfg.Promtail.LocalBin w).2 with
       | .exited code => .exited code
       | .panicked msg => .panicked msg
       | .returned (some err) => .returned (some (.validationFailed err))
       | .returned none => .returned none) := by
    unfold main.updateSamplingConfig
    rw [hrem]
    simp only
    rcases hv : promtail.ValidateConfig env
        (promtail.AddSamplingStages p1 samplingRates cfg.Promtail.Sampling.Selector.Format
          (env.rangeOrder samplingRates)).1
        cfg.Promtail.LocalBin w with ⟨w1, o⟩
    rw [hv] at hval
    simp only at hval
    cases o with
    | exited c => rfl
    | panicked m => rfl
    | returned r =>
      cases r with
      | some e => rfl
      | none => exact absurd rfl hval
  rw [key]
  refine ⟨hframe.1, hframe.2.1, hframe.2.2, ?_, kubernetes.UpdateSecretValue_first_event⟩
  simp only
  rcases hv : (promtail.ValidateConfig env
        (promtail.AddSamplingStages p1 samplingRates cfg.Promtail.Sampling.Selector.Format
          (env.rangeOrder samplingRates)).1
        cfg.Promtail.LocalBin w).2 with r | c | m
  · cases r with
    | none => exact absurd hv hval
    | some e => simp
  · simp
  · simp

theorem updateSamplingConfig_validation_gate_witness :
    (main.updateSamplingConfig rejectingEnv exampleCfg (exampleConfig [])
        [("api", .fin 50)] exampleWorld).1.secrets = exampleWorld.secrets ∧
      (main.updateSamplingConfig rejectingEnv exampleCfg (exampleConfig [])
        [("api", .fin 50)] exampleWorld).2 ≠ .returned none :=
  ⟨(updateSamplingConfig_validation_gate rejectingEnv exampleCfg (exampleConfig [])
      (exampleConfig []) false [("api", .fin 50)] exampleWorld rfl (by decide)).1,
   (updateSamplingConfig_validation_gate rejectingEnv exampleCfg (exampleConfig [])
      (exampleConfig []) false [("api", .fin 50)] exampleWorld rfl (by decide)).2.2.2.1⟩

/-! ### The sentinel, aborts and additions of the sampling-stage operator -/

namespace promtail

/-- A stage without the marker `automated_sampling` gives the sentinel. -/
theorem parse_sentinel_of_unmarked (f : String) (st : PipelineStage)
    (hf : strings.Index f "%s" ≠ -1) (hne : pipelineName? st ≠ some "automated_sampling") :
    parseSamplingStage st f = .error .notASamplingStage := by
  unfold pipelineName? at hne
  unfold parseSamplingStage
  cases hg : GoMap.get? st "match" with
  | none => simp [hf]
  | some v =>
    cases v with
    | map m =>
      cases hn : Any.index m "pipeline_name" with
      | none => simp [hf, hn]
      | some n =>
        cases n with
        | str s =>
          by_cases hs : s = "automated_sampling"
          · simp [hg, hn, hs] at hne
          · simp [hf, hn, hs]
        | _ => simp [hf, hn]
    | _ => simp [hf]

/-- A marked untyped stage gives the sentinel exactly when its selector is not a string
longer than the head of the format. -/
theorem parse_sentinel_of_marked (f : String) (st : PipelineStage) (m : List (Any × Any))
    (hf : strings.Index f "%s" ≠ -1) (hg : GoMap.get? st "match" = some (.map m))
    (hn : Any.index m "pipeline_name" = some (.str "automated_sampling")) :
    parseSamplingStage st f = .error .notASamplingStage ↔
      ¬ ∃ sel, Any.index m "selector" = some (.str sel) ∧
        Go.len (formatHead f) < Go.len sel := by
  unfold parseSamplingStage formatHead
  simp only [hf, if_false, hg, hn, if_true]
  cases hs : Any.index m "selector" with
  | none => simp
  | some s =>
    cases s with
    | str sel =>
      simp only [Option.some.injEq, Any.str.injEq, exists_eq_left']
      by_cases hlen : Go.len sel > Go.len (Go.slice f 0 (strings.Index f "%s").toNat)
      · simp only [hlen, if_true, gt_iff_lt, not_true_eq_false, iff_false]
        split
        · split
          · split
            · split
              · split <;> simp
              · simp
            · simp
          · simp
        · simp
      · simp [hlen]
    | _ => simp

end promtail

/-- C11 fails for a stage that carries the marker but no selector: the parser answers
with the sentinel "not a sampling stage". -/
theorem parseSamplingStage_marked_sentinel :
    promtail.parseSamplingStage
        [("match", .map [(.str "pipeline_name", .str "automated_sampling")])] exampleFormat
      = .error .notASamplingStage ∧
    promtail.pipelineName?
        [("match", .map [(.str "pipeline_name", .str "automated_sampling")])]
      = some "automated_sampling" ∧
    promtail.parseSamplingStage
        [("match", .map [(.str "pipeline_name", .str "automated_sampling"),
          (.str "selector", .str "short")])] exampleFormat
      = .error .notASamplingStage := by
  decide

/-- C11 as amended: for a format containing `%s` and a stage as read from YAML,
`parseSamplingStage` returns the sentinel "not a sampling stage" if and only if the stage
is not a match stage whose `pipeline_name` is `automated_sampling` and whose selector is
a string longer than the part of the format before `%s`.  So a stage without the marker
always gives the sentinel, and a marked stage with such a selector gives a parsed pair or
another error, never the sentinel. -/
theorem parseSamplingStage_sentinel_iff (f : String) (st : promtail.PipelineStage)
    (hf : strings.Index f "%s" ≠ -1) (huntyped : ∀ kv ∈ st, kv.2.isTyped = false) :
    (promtail.parseSamplingStage st f = .error .notASamplingStage ↔
      ¬ (promtail.pipelineName? st = some "automated_sampling" ∧
        ∃ sel, promtail.selector? st = some sel ∧
          Go.len (promtail.formatHead f) < Go.len sel)) ∧
    (promtail.pipelineName? st ≠ some "automated_sampling" →
      promtail.parseSamplingStage st f = .error .notASamplingStage) := by
  refine ⟨?_, promtail.parse_sentinel_of_unmarked f st hf⟩
  by_cases hmark : promtail.pipelineName? st = some "automated_sampling"
  · simp only [hmark, true_and]
    have hmark2 := hmark
    unfold promtail.pipelineName? at hmark2
    cases hg : GoMap.get? st "match" with
    | none => simp [hg] at hmark2
    | some v =>
      have htyped := huntyped _ (GoMap.mem_of_get? _ _ _ hg)
      cases v with
      | map m =>
        simp only [hg] at hmark2
        have hn : promtail.Any.index m "pipeline_name" = some (.str "automated_sampling") := by
          cases hi : promtail.Any.index m "pipeline_name" with
          | none => simp [hi] at hmark2
          | some n => cases n <;> simp_all
        rw [promtail.parse_sentinel_of_marked f st m hf hg hn]
        have hsel : ∀ sel, promtail.selector? st = some sel ↔
            promtail.Any.index m "selector" = some (.str sel) := by
          intro sel
          unfold promtail.selector?
          simp only [hg]
          cases hi : promtail.Any.index m "selector" with
          | none => simp
          | some n => cases n <;> simp
        simp only [hsel]
      | matchStage m => simp [promtail.Any.isTyped] at htyped
      | dropStage d => simp [promtail.Any.isTyped] at htyped
      | _ => simp [hg] at hmark2
  · simp only [hmark, false_and, not_false_eq_true, iff_true]
    exact promtail.parse_sentinel_of_unmarked f st hf hmark

theorem parseSamplingStage_sentinel_iff_witness :
    (promtail.parseSamplingStage
        (promtail.markedStage "\x7bworkload=\"api\"\x7d |= \"\"" (.float (.fin (1/2))))
        exampleFormat = .error .notASamplingStage ↔
      ¬ (promtail.pipelineName?
          (promtail.markedStage "\x7bworkload=\"api\"\x7d |= \"\"" (.float (.fin (1/2))))
            = some "automated_sampling" ∧
        ∃ sel, promtail.selector?
          (promtail.markedStage "\x7bworkload=\"api\"\x7d |= \"\"" (.float (.fin (1/2))))
            = some sel ∧
          Go.len (promtail.formatHead exampleFormat) < Go.len sel)) :=
  (parseSamplingStage_sentinel_iff exampleFormat
    (promtail.markedStage "\x7bworkload=\"api\"\x7d |= \"\"" (.float (.fin (1/2))))
    (by decide) (by decide)).1

namespace promtail

theorem firstParseError_cons_ok (f : String) (st : PipelineStage) (rest : List PipelineStage)
    (r : String × Float64) (h : parseSamplingStage st f = .ok r) :
    firstParseError f (st :: rest) = firstParseError f rest := by
  simp [firstParseError, h]

theorem firstParseError_cons_sentinel (f : String) (st : PipelineStage)
    (rest : List PipelineStage) (h : parseSamplingStage st f = .error .notASamplingStage) :
    firstParseError f (st :: rest) = firstParseError f rest := by
  simp [firstParseError, h]

theorem firstParseError_cons_error (f : String) (st : PipelineStage)
    (rest : List PipelineStage) (e : ParseError) (h : parseSamplingStage st f = .error e)
    (hne : e ≠ .notASamplingStage) : firstParseError f (st :: rest) = some e := by
  cases e <;> simp_all [firstParseError]

theorem firstParseError_append (f : String) (l1 l2 : List PipelineStage) :
    firstParseError f (l1 ++ l2) =
      match firstParseError f l1 with
      | some e => some e
      | none => firstParseError f l2 := by
  induction l1 with
  | nil => simp [firstParseError]
  | cons st rest ih =>
    rw [List.cons_append]
    cases hp : parseSamplingStage st f with
    | ok r =>
      rw [firstParseError_cons_ok f st _ r hp, firstParseError_cons_ok f st _ r hp, ih]
    | error e =>
      by_cases hs : e = .notASamplingStage
      · subst hs
        rw [firstParseError_cons_sentinel f st _ hp, firstParseError_cons_sentinel f st _ hp, ih]
      · rw [firstParseError_cons_error f st _ e hp hs, firstParseError_cons_error f st _ e hp hs]

theorem removeStagesLoop_error (f : String) (stages acc : List PipelineStage) (upd : Bool) :
    match firstParseError f stages with
    | some e => removeStagesLoop f stages acc upd = .error e
    | none => ∃ r, removeStagesLoop f stages acc upd = .ok r := by
  induction stages generalizing acc upd with
  | nil => simp [firstParseError, removeStagesLoop]
  | cons st rest ih =>
    cases hp : parseSamplingStage st f with
    | ok r =>
      rw [firstParseError_cons_ok f st _ r hp]
      simpa [removeStagesLoop, hp] using ih acc upd
    | error e =>
      by_cases hs : e = .notASamplingStage
      · subst hs
        rw [firstParseError_cons_sentinel f st _ hp]
        simpa [removeStagesLoop, hp] using ih (acc ++ [st]) true
      · rw [firstParseError_cons_error f st _ e hp hs]
        cases e <;> simp_all [removeStagesLoop]

theorem removeJobsLoop_error (f : String) (jobs : List ScrapeConfig) (upd : Bool) :
    (removeJobsLoop f jobs upd).err
        = firstParseError f (jobs.flatMap fun sc => sc.PipelineStages) ∧
      ((removeJobsLoop f jobs upd).err ≠ none → (removeJobsLoop f jobs upd).isConfigUpdated = false)
    := by
  induction jobs generalizing upd with
  | nil => simp [removeJobsLoop, firstParseError]
  | cons sc rest ih =>
    have hstage := removeStagesLoop_error f sc.PipelineStages [] upd
    simp only [removeJobsLoop, List.flatMap_cons, firstParseError_append]
    cases hfe : firstParseError f sc.PipelineStages with
    | some e =>
      rw [hfe] at hstage
      simp only at hstage
      simp [hstage]
    | none =>
      rw [hfe] at hstage
      simp only at hstage
      obtain ⟨r, hr⟩ := hstage
      simp only [hr]
      exact ih r.2

end promtail

namespace promtail

end promtail

namespace promtail

/-- The validation of `newSamplingStage` is `validEntry`. -/
theorem newSamplingStage_validEntry (f : String) (kv : String × Float64) :
    (validEntry kv = true → newSamplingStage f kv.1 kv.2 = .ok (samplingStage f kv.1 kv.2)) ∧
    (validEntry kv = false → ∃ e, newSamplingStage f kv.1 kv.2 = .error e) := by
  unfold validEntry newSamplingStage samplingStage
  by_cases h1 : (Float64.lt kv.2 (.fin 0) || Float64.gt kv.2 (.fin 100)) = true
  · simp [h1]
  · by_cases h2 : kv.1 = ""
    · simp [h1, h2]
    · simp [h1, h2]

theorem addStagesLoop_eq (f : String) (R : GoMap Float64) (stages : List PipelineStage)
    (upd : Bool) :
    addStagesLoop f R stages upd
      = (stages ++ validStages f R, upd || !(validStages f R).isEmpty) := by
  induction R generalizing stages upd with
  | nil => simp [addStagesLoop, validStages]
  | cons kv rest ih =>
    obtain ⟨w, p⟩ := kv
    cases hv : validEntry (w, p) with
    | true =>
      have := (newSamplingStage_validEntry f (w, p)).1 hv
      simp only at this
      simp only [addStagesLoop, this, ih]
      simp [validStages, List.filter, hv]
    | false =>
      obtain ⟨e, he⟩ := (newSamplingStage_validEntry f (w, p)).2 hv
      simp only at he
      simp only [addStagesLoop, he, ih]
      simp [validStages, List.filter, hv]

/-- The valid stages of two enumerations of one map are the same up to order. -/
theorem validStages_perm (f : String) (L R : GoMap Float64) (h : L.Perm R) :
    (validStages f L).Perm (validStages f R) :=
  (h.filter _).map _

/-- Job `i` of the result of the job loop started at index `k` is job `i` before the call
followed by the valid stages of its own enumeration `ranges (k + i)`. -/
theorem addJobsLoop_getElem? (f : String) (ranges : Nat → GoMap Float64) (k : Nat)
    (jobs : List ScrapeConfig) (upd : Bool) (i : Nat) :
    (addJobsLoop f ranges k jobs upd).1[i]? = (jobs[i]?).map (fun (sc : ScrapeConfig) =>
      { sc with PipelineStages := sc.PipelineStages ++ validStages f (ranges (k + i)) }) := by
  induction jobs generalizing k upd i with
  | nil => simp [addJobsLoop]
  | cons sc rest ih =>
    simp only [addJobsLoop, addStagesLoop_eq]
    cases i with
    | zero => simp
    | succ n =>
      simp only [List.getElem?_cons_succ, ih]
      rw [Nat.add_assoc, Nat.add_comm 1 n]

/-- The flag of the job loop when every enumeration has a valid entry, or none has. -/
theorem addJobsLoop_flag (f : String) (ranges : Nat → GoMap Float64) (k : Nat)
    (jobs : List ScrapeConfig) (upd b : Bool)
    (hb : ∀ i, (validStages f (ranges i)).isEmpty = b) :
    (addJobsLoop f ranges k jobs upd).2 = (upd || (!jobs.isEmpty && !b)) := by
  induction jobs generalizing k upd with
  | nil => simp [addJobsLoop]
  | cons sc rest ih =>
    simp only [addJobsLoop, addStagesLoop_eq, ih, hb]
    cases upd <;> cases b <;> cases rest.isEmpty <;> simp

/-- The jobs that `RemoveAllSamplingStages` leaves: the first `k` filtered, the others as
they were; all of them filtered when no error is returned. -/
theorem removeJobsLoop_shape (f : String) (jobs : List ScrapeConfig) (upd : Bool) :
    ∃ k, (removeJobsLoop f jobs upd).config
      = (jobs.take k).map (fun sc =>
          { sc with PipelineStages := sc.PipelineStages.filter (fun st => !accepts f st) })
        ++ jobs.drop k := by
  induction jobs generalizing upd with
  | nil => exact ⟨0, by simp [removeJobsLoop]⟩
  | cons sc rest ih =>
    cases hl : removeStagesLoop f sc.PipelineStages [] upd with
    | error e => exact ⟨0, by simp [removeJobsLoop, hl]⟩
    | ok r =>
      obtain ⟨r1, r2⟩ := r
      obtain ⟨h1, _⟩ := removeStagesLoop_ok f _ _ _ _ _ hl
      obtain ⟨k, hk⟩ := ih r2
      refine ⟨k + 1, ?_⟩
      simp only [removeJobsLoop, hl, hk, h1]
      simp

end promtail

/-- C13: `newSamplingStage f w p` returns an error if and only if `p < 0`, `p > 100` or
`w` is empty; in every other case it returns the match stage with `pipeline_name`
`automated_sampling`, selector `fmt.Sprintf f w` and the one-element stages list
`[{sampling: {rate: p / 100}}]`.  For a format `pre ++ "%s" ++ suf` without another `%`
the selector is `pre ++ w ++ suf`; `50 / 100 = 0.5`, `0 / 100 = 0` and `100 / 100 = 1`;
the first case of `TestNewSamplingStage` evaluates as the test expects. -/
theorem newSamplingStage_spec (f w : String) (p : Float64) :
    ((∃ e, promtail.newSamplingStage f w p = .error e) ↔
      (Float64.lt p (.fin 0) = true ∨ Float64.gt p (.fin 100) = true ∨ w = "")) ∧
    ((Float64.lt p (.fin 0) = true ∨ Float64.gt p (.fin 100) = true ∨ w = "") ∨
      promtail.newSamplingStage f w p = .ok
        [("match", .matchStage
          { PipelineName := "automated_sampling"
            Selector := fmt.Sprintf f w
            Stages := [[("sampling", { Rate := Float64.div p (.fin 100) })]] })]) ∧
    (∀ pre suf : String, '%' ∉ pre.data → '%' ∉ suf.data →
      fmt.Sprintf (pre ++ "%s" ++ suf) w = pre ++ w ++ suf) ∧
    Float64.div (.fin 50) (.fin 100) = .fin (1/2) ∧
    Float64.div (.fin 0) (.fin 100) = .fin 0 ∧
    Float64.div (.fin 100) (.fin 100) = .fin 1 ∧
    promtail.newSamplingStage exampleFormat "test-workload" (.fin 50) = .ok
      [("match", .matchStage
        { PipelineName := "automated_sampling"
          Selector := "\x7bworkload=\"test-workload\"\x7d |= \"\""
          Stages := [[("sampling", { Rate := .fin (1/2) })]] })] ∧
    promtail.newSamplingStage exampleFormat "test-workload" (.fin (-10))
      = .error (.outOfRangePercentage (.fin (-10))) ∧
    promtail.newSamplingStage exampleFormat "test-workload" (.fin 150)
      = .error (.outOfRangePercentage (.fin 150)) ∧
    promtail.newSamplingStage exampleFormat "" (.fin 50)
      = .error (.canNotCreateSamplingStage "workload name can not be empty") := by
  have hsel : fmt.Sprintf exampleFormat "test-workload"
      = "\x7bworkload=\"test-workload\"\x7d |= \"\"" := by decide
  have hhalf : Float64.div (.fin 50) (.fin 100) = .fin (1/2) := by decide!
  refine ⟨?_, ?_, fun pre suf hpre hsuf => fmt.Sprintf_format pre suf w hpre hsuf,
    hhalf, by decide!, by decide!, ?_, ?_, ?_, ?_⟩
  rotate_left 2
  · unfold promtail.newSamplingStage
    rw [if_neg (by decide!), if_neg (by decide), hsel, hhalf]
  · unfold promtail.newSamplingStage
    rw [if_pos (by decide!)]
  · unfold promtail.newSamplingStage
    rw [if_pos (by decide!)]
  · unfold promtail.newSamplingStage
    rw [if_neg (by decide!), if_pos (by decide)]
  · unfold promtail.newSamplingStage
    by_cases h1 : Float64.lt p (.fin 0) = true
    · simp [h1]
    · by_cases h2 : Float64.gt p (.fin 100) = true
      · simp [h2]
      · by_cases h3 : w = ""
        · simp [h1, h2, h3]
        · simp [h1, h2, h3]
  · unfold promtail.newSamplingStage
    by_cases h1 : Float64.lt p (.fin 0) = true
    · simp [h1]
    · by_cases h2 : Float64.gt p (.fin 100) = true
      · simp [h2]
      · by_cases h3 : w = ""
        · simp [h3]
        · simp [h1, h2, h3]

/-- C14: whatever order the `range` over the rate map takes for each job (`ranges i` for
job `i`, a permutation of the entries of `R`), `AddSamplingStages R f` leaves job `i` with
its previous stages followed by the sampling stages of the entries that pass the
validation of `newSamplingStage`, in the order of that job's enumeration: one stage for
each valid entry of `R`, none for an entry that fails the validation.  The number of jobs
and the other fields of the config are untouched.  It returns `true` exactly when a stage
was appended, that is when there is a job and a valid entry; for the empty map it returns
`false` and leaves the config as it was. -/
theorem addSamplingStages_spec (p : promtail.PromtailConfig) (R : GoMap Float64)
    (f : String) (ranges : Nat → GoMap Float64) (hranges : ∀ i, (ranges i).Perm R) :
    (∀ i : Nat, (promtail.AddSamplingStages p R f ranges).1.ScrapeConfigs[i]?
      = (p.ScrapeConfigs[i]?).map (fun (sc : promtail.ScrapeConfig) =>
        { sc with PipelineStages :=
                    sc.PipelineStages ++ promtail.validStages f (ranges i) })) ∧
    (∀ i : Nat, (promtail.validStages f (ranges i)).Perm (promtail.validStages f R)) ∧
    (promtail.AddSamplingStages p R f ranges).1.Server = p.Server ∧
    (promtail.AddSamplingStages p R f ranges).1.Client = p.Client ∧
    (promtail.AddSamplingStages p R f ranges).1.Positions = p.Positions ∧
    ((promtail.AddSamplingStages p R f ranges).2 = true ↔
      (p.ScrapeConfigs ≠ [] ∧ promtail.validStages f R ≠ [])) ∧
    (promtail.AddSamplingStages p [] f ranges).2 = false ∧
    (promtail.AddSamplingStages p [] f ranges).1.ScrapeConfigs = p.ScrapeConfigs ∧
    (∀ kv : String × Float64,
      (promtail.validEntry kv = true ↔
        promtail.newSamplingStage f kv.1 kv.2 = .ok (promtail.samplingStage f kv.1 kv.2)) ∧
      (promtail.validEntry kv = false ↔
        ∃ e, promtail.newSamplingStage f kv.1 kv.2 = .error e)) := by
  have hperm := fun i => promtail.validStages_perm f (ranges i) R (hranges i)
  refine ⟨fun i => ?_, hperm, ?_, ?_, ?_, ?_, rfl, rfl, fun kv => ?_⟩
  · unfold promtail.AddSamplingStages
    split_ifs with h
    · have hR : R = [] := List.length_eq_zero.mp h
      have hi : ranges i = [] := by
        have := hranges i
        rw [hR] at this
        exact List.Perm.eq_nil this
      rw [hi]
      cases p.ScrapeConfigs[i]? <;> simp [promtail.validStages]
    · simp only [promtail.addJobsLoop_getElem?, Nat.zero_add]
  · unfold promtail.AddSamplingStages
    split_ifs <;> rfl
  · unfold promtail.AddSamplingStages
    split_ifs <;> rfl
  · unfold promtail.AddSamplingStages
    split_ifs <;> rfl
  · unfold promtail.AddSamplingStages
    split_ifs with h
    · have hR : R = [] := List.length_eq_zero.mp h
      subst hR
      simp [promtail.validStages]
    · have hb : ∀ i, (promtail.validStages f (ranges i)).isEmpty
          = (promtail.validStages f R).isEmpty := by
        intro i
        rw [Bool.eq_iff_iff, List.isEmpty_iff, List.isEmpty_iff]
        exact ⟨fun h0 => ((hperm i).symm.trans (h0 ▸ List.Perm.refl _)).eq_nil,
          fun h0 => ((hperm i).trans (h0 ▸ List.Perm.refl _)).eq_nil⟩
      simp only [promtail.addJobsLoop_flag f ranges 0 _ _ _ hb]
      simp [List.isEmpty_iff]
  · have h := promtail.newSamplingStage_validEntry f kv
    cases hv : promtail.validEntry kv with
    | true =>
      simp only [true_iff, Bool.true_eq_false, false_iff, not_exists]
      refine ⟨h.1 hv, fun e he => ?_⟩
      rw [h.1 hv] at he
      cases he
    | false =>
      obtain ⟨e, he⟩ := h.2 hv
      simp only [Bool.false_eq_true, false_iff, true_iff]
      exact ⟨by rw [he]; simp, e, he⟩

theorem addSamplingStages_spec_witness :
    (promtail.AddSamplingStages (exampleTwoJobs [[("docker", .null)]] [])
        [("X", .fin 40), ("bad", .fin 140), ("Y", .fin 60)] exampleFormat
        (exampleRanges [("X", .fin 40), ("bad", .fin 140), ("Y", .fin 60)])).1.ScrapeConfigs[1]?
      = ((exampleTwoJobs [[("docker", .null)]] []).ScrapeConfigs[1]?).map
        (fun (sc : promtail.ScrapeConfig) =>
          { sc with PipelineStages :=
                      sc.PipelineStages ++ promtail.validStages exampleFormat
                        (exampleRanges [("X", .fin 40), ("bad", .fin 140), ("Y", .fin 60)] 1) }) ∧
    (promtail.validStages exampleFormat
        (exampleRanges [("X", .fin 40), ("bad", .fin 140), ("Y", .fin 60)] 1)).Perm
      (promtail.validStages exampleFormat
        [("X", .fin 40), ("bad", .fin 140), ("Y", .fin 60)]) :=
  ⟨(addSamplingStages_spec (exampleTwoJobs [[("docker", .null)]] [])
      [("X", .fin 40), ("bad", .fin 140), ("Y", .fin 60)] exampleFormat
      (exampleRanges [("X", .fin 40), ("bad", .fin 140), ("Y", .fin 60)])
      (exampleRanges_perm _)).1 1,
   (addSamplingStages_spec (exampleTwoJobs [[("docker", .null)]] [])
      [("X", .fin 40), ("bad", .fin 140), ("Y", .fin 60)] exampleFormat
      (exampleRanges [("X", .fin 40), ("bad", .fin 140), ("Y", .fin 60)])
      (exampleRanges_perm _)).2.1 1⟩

/-- C15: with the empty rate map the rewrite step leaves, whatever the enumerations
`ranges`, what `RemoveAllSamplingStages` leaves: `server`, `client`, `positions`, the jobs and their other fields are as before,
and each job's stage list is either untouched or the original list without the stages
that `parseSamplingStage` accepts, the kept stages unchanged and in their order (all jobs
are filtered when the removal returns no error).  Every removed stage is a match stage
with `pipeline_name` `automated_sampling`. -/
theorem rewrite_no_offenders (p : promtail.PromtailConfig) (f : String)
    (ranges : Nat → GoMap Float64) :
    promtail.rewrite p [] f ranges = (promtail.RemoveAllSamplingStages p f).1 ∧
    (promtail.rewrite p [] f ranges).Server = p.Server ∧
    (promtail.rewrite p [] f ranges).Client = p.Client ∧
    (promtail.rewrite p [] f ranges).Positions = p.Positions ∧
    (∃ k, (promtail.rewrite p [] f ranges).ScrapeConfigs
      = (p.ScrapeConfigs.take k).map (fun sc =>
          { sc with PipelineStages :=
              sc.PipelineStages.filter (fun st => !promtail.accepts f st) })
        ++ p.ScrapeConfigs.drop k) ∧
    ((promtail.RemoveAllSamplingStages p f).2.2 ≠ none ∨
      (promtail.rewrite p [] f ranges).ScrapeConfigs
        = p.ScrapeConfigs.map (fun sc =>
          { sc with PipelineStages :=
              sc.PipelineStages.filter (fun st => !promtail.accepts f st) })) ∧
    (∀ st, promtail.accepts f st = false ∨
      promtail.pipelineName? st = some "automated_sampling") := by
  refine ⟨rfl, rfl, rfl, rfl, promtail.removeJobsLoop_shape f p.ScrapeConfigs false, ?_,
    fun st => ?_⟩
  · cases herr : (promtail.RemoveAllSamplingStages p f).2.2 with
    | some e => exact Or.inl (by simp)
    | none =>
      right
      exact (promtail.removeJobsLoop_ok f p.ScrapeConfigs false herr).1
  · cases hacc : promtail.accepts f st with
    | false => exact Or.inl rfl
    | true => exact Or.inr (promtail.accepts_marker f st hacc)

/-! ### Load and dump -/

namespace yaml

open promtail

mutual
theorem reread_plain : ∀ v : Any, plain v = true → reread v = v
  | .null, _ => rfl
  | .bool _, _ => rfl
  | .int _, _ => rfl
  | .str _, _ => rfl
  | .float x, h => by
    simp only [plain, Bool.and_eq_true, Option.isNone_iff_eq_none] at h
    simp [reread, yamlFloat, h.1]
  | .seq xs, h => by
    simp only [plain] at h
    simp [reread, rereadList_plain xs h]
  | .map kvs, h => by
    simp only [plain] at h
    simp [reread, rereadEntries_plain kvs h]
  | .matchStage _, h => by simp [plain] at h
  | .dropStage _, h => by simp [plain] at h
theorem rereadList_plain : ∀ xs : List Any, plainList xs = true → rereadList xs = xs
  | [], _ => rfl
  | x :: xs, h => by
    simp only [plainList, Bool.and_eq_true] at h
    simp [rereadList, reread_plain x h.1, rereadList_plain xs h.2]
theorem rereadEntries_plain :
    ∀ kvs : List (Any × Any), plainEntries kvs = true → rereadEntries kvs = kvs
  | [], _ => rfl
  | (k, v) :: rest, h => by
    simp only [plainEntries, Bool.and_eq_true] at h
    simp [rereadEntries, reread_plain k h.1.1, reread_plain v h.1.2,
      rereadEntries_plain rest h.2]
end

end yaml

namespace yaml

open promtail

/-- The sequence elements and their decoded values correspond one to one. -/
theorem decodeList_ok {α : Type} (f : Any → Except DecodeError α) (xs : List Any)
    (ys : List α) (h : decodeList f xs = .ok ys) :
    List.Forall₂ (fun x y => f x = .ok y) xs ys := by
  induction xs generalizing ys with
  | nil =>
    simp only [decodeList, Except.ok.injEq] at h
    subst h
    exact List.Forall₂.nil
  | cons x xs ih =>
    simp only [decodeList] at h
    cases hx : f x with
    | error e => simp [hx] at h
    | ok a =>
      cases hxs : decodeList f xs with
      | error e => simp [hx, hxs] at h
      | ok as =>
        simp only [hx, hxs, Except.ok.injEq] at h
        subst h
        exact List.Forall₂.cons hx (ih as hxs)

theorem decodeEntries_ok (kvs : List (Any × Any)) (st : PipelineStage)
    (h : decodeEntries kvs = .ok st) : kvs = st.map fun kv => (Any.str kv.1, kv.2) := by
  induction kvs generalizing st with
  | nil =>
    simp only [decodeEntries, Except.ok.injEq] at h
    subst h
    rfl
  | cons kv rest ih =>
    obtain ⟨k, v⟩ := kv
    cases k with
    | str s =>
      simp only [decodeEntries] at h
      cases hr : decodeEntries rest with
      | error e => simp [hr] at h
      | ok r =>
        simp only [hr, Except.ok.injEq] at h
        subst h
        simp [← ih r hr]
    | _ => simp [decodeEntries] at h

/-- A decoded stage has the keys of the stage it was decoded from. -/
theorem decodeStage_keys (x : Any) (st : PipelineStage) (h : decodeStage x = .ok st) :
    keys x = st.map fun kv => Any.str kv.1 := by
  cases x with
  | null =>
    simp only [decodeStage, Except.ok.injEq] at h
    subst h
    rfl
  | map kvs =>
    simp only [decodeStage] at h
    rw [decodeEntries_ok kvs st h]
    simp [keys]
  | _ => simp [decodeStage] at h

end yaml

namespace yaml

open promtail

theorem forall2_map_eq {α β γ : Type} (R : α → β → Prop) (F : α → γ) (G : β → γ)
    (xs : List α) (ys : List β) (h : List.Forall₂ R xs ys)
    (hFG : ∀ x y, R x y → F x = G y) : xs.map F = ys.map G := by
  induction h with
  | nil => rfl
  | cons hxy _ ih => simp [hFG _ _ hxy, ih]

/-- The elements of a decoded slice, seen through a function that the decoding respects. -/
theorem decodeSlice_map {α γ : Type} (t : String) (f : Any → Except DecodeError α)
    (key : String) (kvs : List (Any × Any)) (ys : List α) (F : Any → γ) (G : α → γ)
    (h : decodeSlice t f (Any.index kvs key) = .ok ys)
    (hFG : ∀ x y, f x = .ok y → F x = G y) :
    (elementsAt key (.map kvs)).map F = ys.map G := by
  simp only [elementsAt]
  cases ho : Any.index kvs key with
  | none =>
    simp only [ho, decodeSlice, Except.ok.injEq] at h
    subst h
    rfl
  | some v =>
    rw [ho] at h
    cases v with
    | null =>
      simp only [decodeSlice, Except.ok.injEq] at h
      subst h
      rfl
    | seq xs =>
      simp only [decodeSlice] at h
      exact forall2_map_eq _ F G xs ys (decodeList_ok f xs ys h) hFG
    | _ => simp [decodeSlice] at h

/-- The stage keys of a scrape job before and after decoding. -/
theorem decodeScrapeConfig_kinds (j : Any) (sc : ScrapeConfig)
    (h : decodeScrapeConfig j = .ok sc) :
    (elementsAt "pipeline_stages" j).map keys
      = sc.PipelineStages.map fun st => st.map fun kv => Any.str kv.1 := by
  cases j with
  | null =>
    simp only [decodeScrapeConfig, Except.ok.injEq] at h
    subst h
    rfl
  | map kvs =>
    simp only [decodeScrapeConfig] at h
    cases hn : decodeString (Any.index kvs "job_name") with
    | error e => simp [hn] at h
    | ok n =>
      cases hs : decodeSlice "[]promtail.PipelineStage" decodeStage
          (Any.index kvs "pipeline_stages") with
      | error e => simp [hn, hs] at h
      | ok stages =>
        cases hk : decodeSlice "[]yaml.MapSlice" decodeMapSlice
            (Any.index kvs "kubernetes_sd_configs") with
        | error e => simp [hn, hs, hk] at h
        | ok sds =>
          cases hr : decodeSlice "[]yaml.MapSlice" decodeMapSlice
              (Any.index kvs "relabel_configs") with
          | error e => simp [hn, hs, hk, hr] at h
          | ok rls =>
            simp only [hn, hs, hk, hr, Except.ok.injEq] at h
            subst h
            exact decodeSlice_map _ _ _ kvs stages keys _ hs decodeStage_keys
  | _ => simp [decodeScrapeConfig] at h

theorem stageKinds_unmarshal (doc : Any) (c : PromtailConfig) (h : Unmarshal doc = .ok c) :
    stageKinds doc = c.ScrapeConfigs.map fun sc =>
      sc.PipelineStages.map fun st => st.map fun kv => Any.str kv.1 := by
  cases doc with
  | null =>
    simp only [Unmarshal, Except.ok.injEq] at h
    subst h
    rfl
  | map kvs =>
    simp only [Unmarshal] at h
    cases hs : decodeSlice "[]promtail.ScrapeConfig" decodeScrapeConfig
        (Any.index kvs "scrape_configs") with
    | error e => simp [hs] at h
    | ok jobs =>
      simp only [hs, Except.ok.injEq] at h
      subst h
      exact decodeSlice_map _ _ _ kvs jobs _ _ hs decodeScrapeConfig_kinds
  | _ => simp [Unmarshal] at h

theorem stageKinds_marshal (c : PromtailConfig) :
    stageKinds (Marshal c) = c.ScrapeConfigs.map fun sc =>
      sc.PipelineStages.map fun st => st.map fun kv => Any.str kv.1 := by
  simp only [stageKinds, Marshal, elementsAt, Any.index]
  simp [marshalScrapeConfig, elementsAt, Any.index, marshalStage, keys]

end yaml

/-- C17 fails for keys that have no field in models.go: the top-level key `limits_config`
and the job key `static_configs` of the document are absent from the dump. -/
theorem load_dump_loses_keys :
    ∃ c, promtail.New (exampleDocument (.float (.fin (1/2)))) = .ok c ∧
      promtail.Any.str "limits_config" ∈ yaml.keys (exampleDocument (.float (.fin (1/2)))) ∧
      promtail.Any.str "limits_config" ∉ yaml.keys (yaml.Marshal c) ∧
      (∃ j ∈ yaml.elementsAt "scrape_configs" (exampleDocument (.float (.fin (1/2)))),
        promtail.Any.str "static_configs" ∈ yaml.keys j) ∧
      ∀ j ∈ yaml.elementsAt "scrape_configs" (yaml.Marshal c),
        promtail.Any.str "static_configs" ∉ yaml.keys j := by
  refine ⟨exampleLoaded (.float (.fin (1/2))), rfl, ?_, ?_, ?_, ?_⟩
  · simp [exampleDocument, yaml.keys]
  · simp [yaml.Marshal, yaml.keys]
  · simp [exampleDocument, yaml.elementsAt, promtail.Any.index, yaml.keys]
  · simp [yaml.Marshal, yaml.elementsAt, promtail.Any.index, yaml.marshalScrapeConfig,
      yaml.keys]

/-- C17 as amended: a load followed by a dump gives a document whose top-level keys are
`server`, `client`, `positions` and `scrape_configs` and whose scrape jobs have the keys
`job_name`, `pipeline_stages`, `kubernetes_sd_configs` and `relabel_configs`, whatever
other keys the input had; the number of scrape jobs, the stages of each job, their order
and their kinds (the keys of each stage) are those of the input document. -/
theorem load_dump_keys (doc : promtail.Any) (c : promtail.PromtailConfig)
    (hnew : promtail.New doc = .ok c) :
    yaml.keys (yaml.Marshal c)
      = [.str "server", .str "client", .str "positions", .str "scrape_configs"] ∧
    (∀ j ∈ yaml.elementsAt "scrape_configs" (yaml.Marshal c),
      yaml.keys j = [.str "job_name", .str "pipeline_stages",
        .str "kubernetes_sd_configs", .str "relabel_configs"]) ∧
    yaml.stageKinds (yaml.Marshal c) = yaml.stageKinds doc ∧
    (yaml.elementsAt "scrape_configs" (yaml.Marshal c)).length
      = (yaml.elementsAt "scrape_configs" doc).length := by
  have hun : yaml.Unmarshal doc = .ok c := by
    unfold promtail.New at hnew
    cases h : yaml.Unmarshal doc with
    | error e => simp [h] at hnew
    | ok c1 =>
      simp only [h, Except.ok.injEq] at hnew
      rw [hnew]
  have hkinds : yaml.stageKinds (yaml.Marshal c) = yaml.stageKinds doc := by
    rw [yaml.stageKinds_marshal, yaml.stageKinds_unmarshal doc c hun]
  refine ⟨rfl, ?_, hkinds, ?_⟩
  · intro j hj
    simp only [yaml.Marshal, yaml.elementsAt, promtail.Any.index] at hj
    simp at hj
    obtain ⟨sc, _, rfl⟩ := hj
    rfl
  · have := congrArg List.length hkinds
    simpa [yaml.stageKinds] using this

theorem load_dump_keys_witness :
    yaml.stageKinds (yaml.Marshal
      (exampleLoaded (.float (.fin (1/2)))))
      = yaml.stageKinds (exampleDocument (.float (.fin (1/2)))) :=
  (load_dump_keys (exampleDocument (.float (.fin (1/2)))) _ rfl).2.2.1

/-! ### The drop-stage operators -/

namespace promtail

/-- `parseDropStage` fails when `source` or `value` is absent or not a string. -/
theorem parseDropStage_error (m : List (Any × Any))
    (hbad : (∀ s, Any.index m "source" ≠ some (.str s)) ∨
      (∀ v, Any.index m "value" ≠ some (.str v))) :
    ∃ e, parseDropStage m = .error e := by
  unfold parseDropStage
  cases hs : Any.index m "source" with
  | none => exact ⟨_, rfl⟩
  | some a =>
    cases a with
    | str s =>
      rcases hbad with h | h
      · exact absurd hs (h s)
      · cases hv : Any.index m "value" with
        | none => exact ⟨_, rfl⟩
        | some b =>
          cases b with
          | str v => exact absurd hv (h v)
          | _ => exact ⟨_, rfl⟩
    | _ => exact ⟨_, rfl⟩

/-- The stage loop of `AllowAllLogs` returns or panics on a nil pointer. -/
theorem allowAllLoop_outcome (l acc : List PipelineStage) :
    (∃ r, allowAllLoop l acc = .returned r) ∨ allowAllLoop l acc = .panicked nilDereference := by
  induction l generalizing acc with
  | nil => exact Or.inl ⟨acc, rfl⟩
  | cons s rest ih =>
    simp only [allowAllLoop]
    split
    · split
      · exact Or.inr rfl
      · split <;> exact ih _
    · split <;> exact ih _
    · exact ih _
    · exact ih _

/-- The stage loop of `AllowAllLogs` panics when it meets an unparsable drop stage. -/
theorem allowAllLoop_panics (l1 l2 acc : List PipelineStage) (st : PipelineStage)
    (m : List (Any × Any)) (e : String) (hst : GoMap.get? st "drop" = some (.map m))
    (herr : parseDropStage m = .error e) :
    allowAllLoop (l1 ++ st :: l2) acc = .panicked nilDereference := by
  induction l1 generalizing acc with
  | nil => simp [allowAllLoop, hst, herr]
  | cons s rest ih =>
    simp only [List.cons_append, allowAllLoop]
    split
    · split
      · rfl
      · split <;> exact ih _
    · split <;> exact ih _
    · exact ih _
    · exact ih _

theorem allowAllJobs_panics (jobs : List ScrapeConfig) (st : PipelineStage)
    (m : List (Any × Any)) (e : String)
    (hmem : ∃ sc ∈ jobs, st ∈ sc.PipelineStages)
    (hst : GoMap.get? st "drop" = some (.map m))
    (herr : parseDropStage m = .error e) :
    allowAllJobs jobs = .panicked nilDereference := by
  induction jobs with
  | nil => simp at hmem
  | cons sc rest ih =>
    obtain ⟨sc1, hsc1, hin⟩ := hmem
    simp only [allowAllJobs]
    rcases List.mem_cons.mp hsc1 with rfl | hrest
    · obtain ⟨l1, l2, hl⟩ := List.append_of_mem hin
      rw [hl, allowAllLoop_panics l1 l2 [] st m e hst herr]
    · rw [ih ⟨sc1, hrest, hin⟩]
      rcases allowAllLoop_outcome sc.PipelineStages [] with ⟨r, hr⟩ | hp
      · rw [hr]
      · rw [hp]

/-- The stage loop of `removeDropStage` returns or panics on a nil pointer. -/
theorem removeDropLoop_outcome (s v : String) (l acc : List PipelineStage) :
    (∃ r, removeDropLoop s v l acc = .returned r) ∨
      removeDropLoop s v l acc = .panicked nilDereference := by
  induction l generalizing acc with
  | nil => exact Or.inl ⟨acc, rfl⟩
  | cons s rest ih =>
    simp only [removeDropLoop]
    split
    · split
      · exact Or.inr rfl
      · split <;> exact ih _
    · split <;> exact ih _
    · exact ih _
    · exact ih _

theorem removeDropLoop_panics (s v : String) (l1 l2 acc : List PipelineStage)
    (st : PipelineStage) (m : List (Any × Any)) (e : String)
    (hst : GoMap.get? st "drop" = some (.map m)) (herr : parseDropStage m = .error e) :
    removeDropLoop s v (l1 ++ st :: l2) acc = .panicked nilDereference := by
  induction l1 generalizing acc with
  | nil => simp [removeDropLoop, hst, herr]
  | cons s rest ih =>
    simp only [List.cons_append, removeDropLoop]
    split
    · split
      · rfl
      · split <;> exact ih _
    · split <;> exact ih _
    · exact ih _
    · exact ih _

theorem removeDropJobs_panics (s v : String) (jobs : List ScrapeConfig) (st : PipelineStage)
    (m : List (Any × Any)) (e : String)
    (hmem : ∃ sc ∈ jobs, st ∈ sc.PipelineStages)
    (hst : GoMap.get? st "drop" = some (.map m))
    (herr : parseDropStage m = .error e) :
    removeDropJobs s v jobs = .panicked nilDereference := by
  induction jobs with
  | nil => simp at hmem
  | cons sc rest ih =>
    obtain ⟨sc1, hsc1, hin⟩ := hmem
    simp only [removeDropJobs]
    rcases List.mem_cons.mp hsc1 with rfl | hrest
    · obtain ⟨l1, l2, hl⟩ := List.append_of_mem hin
      rw [hl, removeDropLoop_panics s v l1 l2 [] st m e hst herr]
    · rw [ih ⟨sc1, hrest, hin⟩]
      rcases removeDropLoop_outcome s v sc.PipelineStages [] with ⟨r, hr⟩ | hp
      · rw [hr]
      · rw [hp]

/-- What `extractDropStages` collects when no `drop` value has an unexpected type: the
projections of the drop stages in order, `none` for an unparsable one. -/
theorem extractLoop_ok (l : List PipelineStage) (acc : List (Option DropStage))
    (hty : ∀ s ∈ l, ∀ a, GoMap.get? s "drop" = some a →
      (∃ m, a = .map m) ∨ ∃ d, a = .dropStage d) :
    extractLoop l acc
      = .ok (acc ++ (l.filter isDropStage).map dropStage?) := by
  induction l generalizing acc with
  | nil => simp [extractLoop]
  | cons s rest ih =>
    have ih1 := fun acc => ih acc (fun x hx => hty x (List.mem_cons_of_mem _ hx))
    have hs := hty s (List.mem_cons_self _ _)
    simp only [extractLoop]
    cases hg : GoMap.get? s "drop" with
    | none => simp [ih1, List.filter, isDropStage, hg]
    | some a =>
      rcases hs a hg with ⟨m, rfl⟩ | ⟨d, rfl⟩
      · cases hp : parseDropStage m with
        | error e => simp [ih1, List.filter, isDropStage, hg, dropStage?, hp]
        | ok d => simp [ih1, List.filter, isDropStage, hg, dropStage?, hp]
      · simp [ih1, List.filter, isDropStage, hg, dropStage?]

theorem droppedLoop_panics (l1 l2 : List (Option DropStage)) (acc : List String) :
    droppedLoop (l1 ++ none :: l2) acc = .panicked nilDereference := by
  induction l1 generalizing acc with
  | nil => rfl
  | cons x rest ih =>
    cases x with
    | none => rfl
    | some d =>
      simp only [List.cons_append, droppedLoop]
      split <;> exact ih _

end promtail

namespace promtail

theorem allowAllLoop_wellFormed (l acc : List PipelineStage)
    (hwf : ∀ st ∈ l, (!isDropStage st || (dropStage? st).isSome) = true) :
    allowAllLoop l acc
      = .returned (acc ++ l.filter fun st => !hasReason "too_many_logs" st) := by
  induction l generalizing acc with
  | nil => simp [allowAllLoop]
  | cons s rest ih =>
    have ih1 := fun acc => ih acc (fun x hx => hwf x (List.mem_cons_of_mem _ hx))
    have hs := hwf s (List.mem_cons_self _ _)
    simp only [allowAllLoop]
    cases hg : GoMap.get? s "drop" with
    | none => simp [ih1, List.filter, hasReason, dropStage?, hg]
    | some a =>
      cases a with
      | map m =>
        cases hp : parseDropStage m with
        | error e => simp [isDropStage, dropStage?, hg, hp] at hs
        | ok d =>
          by_cases hr : d.DropCounterReason = "too_many_logs"
          · simp [ih1, List.filter, hasReason, dropStage?, hg, hp, hr]
          · simp [ih1, List.filter, hasReason, dropStage?, hg, hp, hr]
      | dropStage d =>
        by_cases hr : d.DropCounterReason = "too_many_logs"
        · simp [ih1, List.filter, hasReason, dropStage?, hg, hr]
        · simp [ih1, List.filter, hasReason, dropStage?, hg, hr]
      | _ => simp [isDropStage, dropStage?, hg] at hs

theorem allowAllJobs_wellFormed (jobs : List ScrapeConfig)
    (hwf : ∀ sc ∈ jobs, ∀ st ∈ sc.PipelineStages,
      (!isDropStage st || (dropStage? st).isSome) = true) :
    allowAllJobs jobs = .returned (jobs.map fun sc =>
      { sc with PipelineStages :=
          sc.PipelineStages.filter fun st => !hasReason "too_many_logs" st }) := by
  induction jobs with
  | nil => rfl
  | cons sc rest ih =>
    simp only [allowAllJobs, List.map_cons]
    rw [allowAllLoop_wellFormed _ _ (hwf sc (List.mem_cons_self _ _)),
      ih (fun x hx => hwf x (List.mem_cons_of_mem _ hx))]
    simp

theorem removeDropLoop_wellFormed (s v : String) (l acc : List PipelineStage)
    (hwf : ∀ st ∈ l, (!isDropStage st || (dropStage? st).isSome) = true) :
    removeDropLoop s v l acc
      = .returned (acc ++ l.filter fun st => !dropMatches s v st) := by
  induction l generalizing acc with
  | nil => simp [removeDropLoop]
  | cons st rest ih =>
    have ih1 := fun acc => ih acc (fun x hx => hwf x (List.mem_cons_of_mem _ hx))
    have hs := hwf st (List.mem_cons_self _ _)
    simp only [removeDropLoop]
    cases hg : GoMap.get? st "drop" with
    | none => simp [ih1, List.filter, dropMatches, dropStage?, hg]
    | some a =>
      cases a with
      | map m =>
        cases hp : parseDropStage m with
        | error e => simp [isDropStage, dropStage?, hg, hp] at hs
        | ok d =>
          by_cases hr : d.Source = s ∧ d.Value = v
          · simp [ih1, List.filter, dropMatches, dropStage?, hg, hp, hr]
          · have hr2 : d.Source ≠ s ∨ d.Value ≠ v := by
              by_contra hc
              push_neg at hc
              exact hr hc
            simp [ih1, List.filter, dropMatches, dropStage?, hg, hp, hr, hr2]
      | dropStage d =>
        by_cases hr : d.Source = s ∧ d.Value = v
        · simp [ih1, List.filter, dropMatches, dropStage?, hg, hr]
        · have hr2 : d.Source ≠ s ∨ d.Value ≠ v := by
            by_contra hc
            push_neg at hc
            exact hr hc
          simp [ih1, List.filter, dropMatches, dropStage?, hg, hr, hr2]
      | _ => simp [isDropStage, dropStage?, hg] at hs

theorem removeDropJobs_wellFormed (s v : String) (jobs : List ScrapeConfig)
    (hwf : ∀ sc ∈ jobs, ∀ st ∈ sc.PipelineStages,
      (!isDropStage st || (dropStage? st).isSome) = true) :
    removeDropJobs s v jobs = .returned (jobs.map fun sc =>
      { sc with PipelineStages :=
          sc.PipelineStages.filter fun st => !dropMatches s v st }) := by
  induction jobs with
  | nil => rfl
  | cons sc rest ih =>
    simp only [removeDropJobs, List.map_cons]
    rw [removeDropLoop_wellFormed s v _ _ (hwf sc (List.mem_cons_self _ _)),
      ih (fun x hx => hwf x (List.mem_cons_of_mem _ hx))]
    simp

theorem wellFormedDrops_iff (p : PromtailConfig) :
    wellFormedDrops p = true ↔ ∀ sc ∈ p.ScrapeConfigs, ∀ st ∈ sc.PipelineStages,
      (!isDropStage st || (dropStage? st).isSome) = true := by
  simp [wellFormedDrops, List.all_eq_true]

end promtail

/-- C18 fails for a drop stage without the string `too_many_logs` as its
`drop_counter_reason`: a drop stage that has no `drop_counter_reason` at all, and one whose
`drop_counter_reason` is the number 5, are both removed by `AllowAllLogs`. -/
theorem allowAllLogs_removes_defaulted :
    promtail.AllowAllLogs (exampleConfig
        [[("drop", .map [(.str "source", .str "level"), (.str "value", .str "debug")])],
         [("drop", .map [(.str "source", .str "level"), (.str "value", .str "trace"),
            (.str "drop_counter_reason", .int 5)])]])
      = .returned (exampleConfig [], none) := by
  rfl

/-- C18 as amended: on a config in which every drop stage has a projection (its `drop`
value is a `*DropStage` or a mapping with string `source` and `value`), `AllowAllLogs`
returns, with no error, and leaves each job's stage list as the original list without the
drop stages whose projected reason is `too_many_logs`, where the projection reads a
missing or non-string `drop_counter_reason` as `too_many_logs`.  The kept stages are
unchanged and in their original order, the other fields of the jobs and of the config are
untouched, and no stage with projected reason `too_many_logs` remains. -/
theorem allowAllLogs_wellFormed (p : promtail.PromtailConfig)
    (hwf : promtail.wellFormedDrops p = true) :
    promtail.AllowAllLogs p = .returned
      ({ p with ScrapeConfigs := p.ScrapeConfigs.map fun sc =>
          { sc with PipelineStages :=
              sc.PipelineStages.filter fun st => !promtail.hasReason "too_many_logs" st } },
        none) ∧
    (∀ sc ∈ p.ScrapeConfigs, ∀ st ∈ sc.PipelineStages.filter
        (fun st => !promtail.hasReason "too_many_logs" st),
      promtail.hasReason "too_many_logs" st = false) := by
  constructor
  · unfold promtail.AllowAllLogs
    rw [promtail.allowAllJobs_wellFormed _ ((promtail.wellFormedDrops_iff p).mp hwf)]
  · intro sc _ st hst
    simpa using (List.mem_filter.mp hst).2

theorem allowAllLogs_wellFormed_witness :
    promtail.AllowAllLogs (exampleConfig
        [[("docker", .null)],
         [("drop", .map [(.str "source", .str "workload"), (.str "value", .str "api"),
            (.str "drop_counter_reason", .str "too_many_logs")])],
         [("drop", .map [(.str "source", .str "level"), (.str "value", .str "debug"),
            (.str "drop_counter_reason", .str "just_because_i_can")])]])
      = .returned
        (exampleConfig
          [[("docker", .null)],
           [("drop", .map [(.str "source", .str "level"), (.str "value", .str "debug"),
              (.str "drop_counter_reason", .str "just_because_i_can")])]], none) :=
  (allowAllLogs_wellFormed (exampleConfig
        [[("docker", .null)],
         [("drop", .map [(.str "source", .str "workload"), (.str "value", .str "api"),
            (.str "drop_counter_reason", .str "too_many_logs")])],
         [("drop", .map [(.str "source", .str "level"), (.str "value", .str "debug"),
            (.str "drop_counter_reason", .str "just_because_i_can")])]]) (by decide)).1

/-- C19 fails: a config that holds, in any job, an untyped drop stage whose `source` or
`value` is absent or not a string makes `AllowAllLogs`, `removeDropStage` and `AllowLogs`
panic on a nil pointer, and `getDroppedWorkloads` and `DropLogs` as well when no `drop`
value has an unexpected type (when one has, `extractDropStages` returns an error first).
The error branch only logs; the pointer that `parseDropStage` returned as `nil` is
dereferenced right after. -/
theorem dropOperators_panic_on_malformed (p : promtail.PromtailConfig)
    (st : promtail.PipelineStage) (m : List (promtail.Any × promtail.Any))
    (hmem : ∃ sc ∈ p.ScrapeConfigs, st ∈ sc.PipelineStages)
    (hst : GoMap.get? st "drop" = some (.map m))
    (hbad : (∀ s, promtail.Any.index m "source" ≠ some (.str s)) ∨
      (∀ v, promtail.Any.index m "value" ≠ some (.str v))) :
    (∃ e, promtail.parseDropStage m = .error e) ∧
    promtail.AllowAllLogs p = .panicked promtail.nilDereference ∧
    (∀ s v, promtail.removeDropStage p s v = .panicked promtail.nilDereference) ∧
    (∀ w ws, promtail.AllowLogs p (w :: ws) = .panicked promtail.nilDereference) ∧
    ((∀ sc ∈ p.ScrapeConfigs, ∀ s ∈ sc.PipelineStages, ∀ a, GoMap.get? s "drop" = some a →
        (∃ m1, a = .map m1) ∨ ∃ d, a = .dropStage d) →
      promtail.getDroppedWorkloads p = .panicked promtail.nilDereference ∧
      ∀ ws, promtail.DropLogs p ws = .panicked promtail.nilDereference) := by
  obtain ⟨e, he⟩ := promtail.parseDropStage_error m hbad
  have hrem : ∀ s v, promtail.removeDropStage p s v = .panicked promtail.nilDereference := by
    intro s v
    unfold promtail.removeDropStage
    rw [promtail.removeDropJobs_panics s v _ st m e hmem hst he]
  refine ⟨⟨e, he⟩, ?_, hrem, ?_, ?_⟩
  · unfold promtail.AllowAllLogs
    rw [promtail.allowAllJobs_panics _ st m e hmem hst he]
  · intro w ws
    simp only [promtail.AllowLogs, hrem]
  · intro hty
    have hget : promtail.getDroppedWorkloads p = .panicked promtail.nilDereference := by
      unfold promtail.getDroppedWorkloads promtail.extractDropStages
      rw [promtail.extractLoop_ok _ _ (by
        intro s hs a ha
        obtain ⟨sc, hsc, hin⟩ := List.mem_flatMap.mp hs
        exact hty sc hsc s hin a ha)]
      have hin : st ∈ (p.ScrapeConfigs.flatMap fun sc => sc.PipelineStages).filter
          promtail.isDropStage := by
        obtain ⟨sc, hsc, hin⟩ := hmem
        exact List.mem_filter.mpr ⟨List.mem_flatMap.mpr ⟨sc, hsc, hin⟩,
          by simp [promtail.isDropStage, hst]⟩
      have hnone : none ∈ ((p.ScrapeConfigs.flatMap fun sc => sc.PipelineStages).filter
          promtail.isDropStage).map promtail.dropStage? := by
        refine List.mem_map.mpr ⟨st, hin, ?_⟩
        simp [promtail.dropStage?, hst, he]
      obtain ⟨l1, l2, hl⟩ := List.append_of_mem hnone
      simp only [List.nil_append, hl, promtail.droppedLoop_panics]
    refine ⟨hget, fun ws => ?_⟩
    simp only [promtail.DropLogs, hget]

theorem dropOperators_panic_on_malformed_witness :
    promtail.AllowAllLogs (exampleConfig
        [[("drop", .map [(.str "expression", .str ".*debug.*")])]])
      = .panicked promtail.nilDereference ∧
    promtail.removeDropStage (exampleConfig
        [[("drop", .map [(.str "expression", .str ".*debug.*")])]]) "workload" "api"
      = .panicked promtail.nilDereference ∧
    promtail.DropLogs (exampleConfig
        [[("drop", .map [(.str "expression", .str ".*debug.*")])]]) ["api"]
      = .panicked promtail.nilDereference := by
  obtain ⟨_, h1, h2, _, h3⟩ := dropOperators_panic_on_malformed (exampleConfig
      [[("drop", .map [(.str "expression", .str ".*debug.*")])]])
    [("drop", .map [(.str "expression", .str ".*debug.*")])]
    [(.str "expression", .str ".*debug.*")]
    ⟨_, List.mem_singleton.mpr rfl, List.mem_singleton.mpr rfl⟩ rfl
    (Or.inl (by simp [promtail.Any.index]))
  refine ⟨h1, h2 _ _, (h3 ?_).2 _⟩
  intro sc hsc s hs a ha
  simp only [exampleConfig, List.mem_singleton] at hsc
  subst hsc
  simp only [List.mem_singleton] at hs
  subst hs
  simp only [GoMap.get?] at ha
  simp at ha
  exact Or.inl ⟨_, ha.symm⟩

/-- C20 fails: `removeDropStage "workload" "api"` panics on a config that holds a drop
stage without `source` (the nil pointer of the failed parse is dereferenced, as in
`AllowAllLogs`), and it removes a stage whose `drop` value is not a mapping although that
stage matches neither argument.  On a config in which every drop stage has a projection
the function does what the claim says: each job keeps, unchanged and in order, exactly
the stages that are not drop stages with the given source and value. -/
theorem removeDropStage_loses_stages :
    promtail.removeDropStage (exampleConfig
        [[("drop", .map [(.str "expression", .str ".*debug.*")])]]) "workload" "api"
      = .panicked promtail.nilDereference ∧
    promtail.removeDropStage (exampleConfig
        [[("docker", .null)], [("drop", .str "debug")]]) "workload" "api"
      = .returned (exampleConfig [[("docker", .null)]]) ∧
    (∀ (p : promtail.PromtailConfig) (s v : String), promtail.wellFormedDrops p = false ∨
      promtail.removeDropStage p s v = .returned
        { p with ScrapeConfigs := p.ScrapeConfigs.map fun sc =>
            { sc with PipelineStages :=
                sc.PipelineStages.filter fun st => !promtail.dropMatches s v st } }) := by
  refine ⟨rfl, rfl, fun p s v => ?_⟩
  cases hwf : promtail.wellFormedDrops p with
  | false => exact Or.inl rfl
  | true =>
    right
    unfold promtail.removeDropStage
    rw [promtail.removeDropJobs_wellFormed s v _ ((promtail.wellFormedDrops_iff p).mp hwf)]

/-! ### `parseDropStage` and `DropLogs` -/

namespace promtail

theorem droppedLoop_some (l : List DropStage) (acc : List String) :
    droppedLoop (l.map some) acc = .returned (acc ++ l.filterMap fun d =>
      if d.Source = "workload" ∧ d.DropCounterReason = "too_many_logs" then some d.Value
      else none) := by
  induction l generalizing acc with
  | nil => simp [droppedLoop]
  | cons d rest ih =>
    simp only [List.map_cons, droppedLoop]
    split_ifs with h
    · rw [ih]
      simp [List.filterMap_cons, h]
    · rw [ih]
      simp [List.filterMap_cons, h]

theorem wellFormed_drop_type (s : PipelineStage) (a : Any)
    (hwf : (!isDropStage s || (dropStage? s).isSome) = true)
    (ha : GoMap.get? s "drop" = some a) : (∃ m, a = .map m) ∨ ∃ d, a = .dropStage d := by
  cases a with
  | map m => exact Or.inl ⟨m, rfl⟩
  | dropStage d => exact Or.inr ⟨d, rfl⟩
  | _ => simp [isDropStage, dropStage?, ha] at hwf

theorem wellFormed_projections (l : List PipelineStage)
    (hwf : ∀ s ∈ l, (!isDropStage s || (dropStage? s).isSome) = true) :
    (l.filter isDropStage).map dropStage? = (l.filterMap dropStage?).map some := by
  induction l with
  | nil => rfl
  | cons s rest ih =>
    have ih1 := ih (fun x hx => hwf x (List.mem_cons_of_mem _ hx))
    have hs := hwf s (List.mem_cons_self _ _)
    cases hd : dropStage? s with
    | some d =>
      have hdrop : isDropStage s = true := by
        unfold dropStage? at hd
        unfold isDropStage
        cases hg : GoMap.get? s "drop" with
        | none => simp [hg] at hd
        | some a => rfl
      simp [List.filter, hdrop, hd, ih1, List.filterMap_cons]
    | none =>
      have hdrop : isDropStage s = false := by
        cases h : isDropStage s with
        | false => rfl
        | true => simp [h, hd] at hs
      simp [List.filter, hdrop, hd, ih1, List.filterMap_cons]

/-- On a config whose drop stages all have a projection, `getDroppedWorkloads` returns
the owned workloads. -/
theorem getDroppedWorkloads_wellFormed (p : PromtailConfig)
    (hwf : wellFormedDrops p = true) :
    getDroppedWorkloads p = .returned (.ok (ownedDropWorkloads p)) := by
  have hwf2 := (wellFormedDrops_iff p).mp hwf
  have hall : ∀ s ∈ (p.ScrapeConfigs.flatMap fun sc => sc.PipelineStages),
      (!isDropStage s || (dropStage? s).isSome) = true := by
    intro s hs
    obtain ⟨sc, hsc, hin⟩ := List.mem_flatMap.mp hs
    exact hwf2 sc hsc s hin
  unfold getDroppedWorkloads extractDropStages ownedDropWorkloads
  rw [extractLoop_ok _ _ (fun s hs a ha => wellFormed_drop_type s a (hall s hs) ha),
    List.nil_append, wellFormed_projections _ hall]
  simp only [droppedLoop_some, List.nil_append, List.filterMap_filterMap]
  congr 2
  apply List.filterMap_congr
  intro st _
  cases dropStage? st <;> rfl

/-- What the loop of `DropLogs` leaves: every job gets the stages of the entries that are
not in the set computed before the loop. -/
theorem dropLogsLoop_eq (dropped ws : List String) (p : PromtailConfig) (upd : Bool) :
    dropLogsLoop dropped ws p upd
      = ({ p with ScrapeConfigs := p.ScrapeConfigs.map fun sc =>
            { sc with PipelineStages := sc.PipelineStages ++
                (ws.filter fun w => decide (w ∉ dropped)).map workloadDrop } },
         upd || !(ws.filter fun w => decide (w ∉ dropped)).isEmpty) := by
  induction ws generalizing p upd with
  | nil =>
    simp only [dropLogsLoop, List.filter_nil, List.map_nil, List.append_nil,
      List.isEmpty_nil, Bool.not_true, Bool.or_false]
    congr 1
    cases p
    simp
  | cons w rest ih =>
    simp only [dropLogsLoop]
    split_ifs with h
    · rw [ih]
      simp [List.filter, h]
    · rw [ih]
      simp [List.filter, h, appendDropStage, workloadDrop, List.map_map, Function.comp_def]

/-- `DropLogs` on a config whose drop stages all have a projection. -/
theorem dropLogs_eq (p : PromtailConfig) (ws : List String)
    (hwf : wellFormedDrops p = true) :
    DropLogs p ws = .returned
      ({ p with ScrapeConfigs := p.ScrapeConfigs.map fun sc =>
          { sc with PipelineStages := sc.PipelineStages ++
              (newDrops p ws).map workloadDrop } },
        !(newDrops p ws).isEmpty) := by
  unfold DropLogs
  rw [getDroppedWorkloads_wellFormed p hwf]
  simp only [dropLogsLoop_eq, newDrops, Bool.false_or]

/-- Appending a non-empty list to the stages of every job changes the jobs, unless there
is none. -/
theorem map_append_eq_self (jobs : List ScrapeConfig) (extra : List PipelineStage) :
    (jobs.map fun sc => { sc with PipelineStages := sc.PipelineStages ++ extra }) = jobs ↔
      (extra = [] ∨ jobs = []) := by
  constructor
  · intro h
    cases jobs with
    | nil => exact Or.inr rfl
    | cons sc rest =>
      left
      simp only [List.map_cons, List.cons.injEq] at h
      have hlen := congrArg (fun c : ScrapeConfig => c.PipelineStages.length) h.1
      simp only [List.length_append] at hlen
      exact List.length_eq_zero.mp (by omega)
  · rintro (h | h)
    · subst h
      simp
    · subst h
      rfl

end promtail

/-- C23: `parseDropStage` returns an error (and the nil pointer) if and only if `source`
or `value` is missing or not a string.  Otherwise it returns the `DropStage` with the given
source and value, whose `DropCounterReason` is the given `drop_counter_reason` when that is
a string and `too_many_logs` when it is missing or not a string.  The four cases of
`TestParseDropStage` evaluate as the test expects. -/
theorem parseDropStage_spec (m : List (promtail.Any × promtail.Any)) :
    ((∃ e, promtail.parseDropStage m = .error e) ↔
      ((∀ s, promtail.Any.index m "source" ≠ some (.str s)) ∨
        (∀ v, promtail.Any.index m "value" ≠ some (.str v)))) ∧
    (∀ s v, promtail.Any.index m "source" = some (.str s) →
      promtail.Any.index m "value" = some (.str v) →
      (∀ r, promtail.Any.index m "drop_counter_reason" = some (.str r) →
        promtail.parseDropStage m
          = .ok { Source := s, DropCounterReason := r, Value := v }) ∧
      ((∀ r, promtail.Any.index m "drop_counter_reason" ≠ some (.str r)) →
        promtail.parseDropStage m
          = .ok { Source := s, DropCounterReason := "too_many_logs", Value := v })) ∧
    promtail.parseDropStage [(.str "source", .str "job"),
        (.str "drop_counter_reason", .str "too_many_logs"), (.str "value", .str "flog45")]
      = .ok { Source := "job", DropCounterReason := "too_many_logs", Value := "flog45" } ∧
    promtail.parseDropStage [(.str "source", .str "job"), (.str "value", .str "flog45")]
      = .ok { Source := "job", DropCounterReason := "too_many_logs", Value := "flog45" } ∧
    promtail.parseDropStage []
      = .error "can't parse drop stage, source field is missing or not a string" ∧
    promtail.parseDropStage [(.str "source", .int 123),
        (.str "drop_counter_reason", .bool true), (.str "value", .seq [.str "flog45"])]
      = .error "can't parse drop stage, source field is missing or not a string" := by
  refine ⟨⟨?_, promtail.parseDropStage_error m⟩, ?_, rfl, rfl, rfl, rfl⟩
  · rintro ⟨e, he⟩
    by_contra hcon
    push_neg at hcon
    obtain ⟨⟨s, hs⟩, ⟨v, hv⟩⟩ := hcon
    simp [promtail.parseDropStage, hs, hv] at he
  · intro s v hs hv
    constructor
    · intro r hr
      simp [promtail.parseDropStage, hs, hv, hr]
    · intro hr
      unfold promtail.parseDropStage
      cases hd : promtail.Any.index m "drop_counter_reason" with
      | none => simp [hs, hv]
      | some a =>
        cases a with
        | str r => exact absurd hd (hr r)
        | _ => simp [hs, hv]

/-- C21 fails on two counts.  When a `drop` value is neither a mapping nor a `*DropStage`,
`extractDropStages` returns an error and `DropLogs` returns without appending anything,
although the listed workload is not present.  And a workload that is listed twice gets two
drop stages, because the set of dropped workloads is computed once before the loop. -/
theorem dropLogs_appends_none_or_twice :
    promtail.DropLogs (exampleConfig [[("drop", .str "debug")]]) ["api"]
      = .returned (exampleConfig [[("drop", .str "debug")]], false) ∧
    promtail.DropLogs (exampleConfig []) ["api", "api"]
      = .returned
        (exampleConfig [promtail.workloadDrop "api", promtail.workloadDrop "api"], true) := by
  constructor <;> rfl

/-- C21 as amended: on a config in which every drop stage has a projection, `DropLogs`
returns and leaves each scrape job with its previous stages, unchanged, followed by one
drop stage `{source: workload, value: w, drop_counter_reason: too_many_logs}` for each
entry `w` of the list, in list order, that is not the value of an owned drop stage (source
`workload`, reason `too_many_logs`) of some job before the call; an entry that is such a
value adds nothing, and the other fields of the config are untouched.  When
`extractDropStages` returns an error, `DropLogs` leaves the config as it was. -/
theorem dropLogs_wellFormed (p : promtail.PromtailConfig) (ws : List String)
    (hwf : promtail.wellFormedDrops p = true) :
    promtail.DropLogs p ws = .returned
      ({ p with ScrapeConfigs := p.ScrapeConfigs.map fun sc =>
          { sc with PipelineStages := sc.PipelineStages ++
              (promtail.newDrops p ws).map promtail.workloadDrop } },
        !(promtail.newDrops p ws).isEmpty) ∧
    (∀ w ∈ ws, w ∈ promtail.newDrops p ws ↔ w ∉ promtail.ownedDropWorkloads p) ∧
    (∀ (q : promtail.PromtailConfig) (e : String), promtail.extractDropStages q = .error e →
      promtail.DropLogs q ws = .returned (q, false)) := by
  refine ⟨?_, fun w hw => ?_, fun q e he => ?_⟩
  · exact promtail.dropLogs_eq p ws hwf
  · simp [promtail.newDrops, hw]
  · simp [promtail.DropLogs, promtail.getDroppedWorkloads, he]

theorem dropLogs_wellFormed_witness :
    promtail.DropLogs (exampleConfig
        [[("drop", .map [(.str "source", .str "workload"), (.str "value", .str "api"),
            (.str "drop_counter_reason", .str "too_many_logs")])]]) ["api", "web"]
      = .returned
        ({ exampleConfig
            [[("drop", .map [(.str "source", .str "workload"), (.str "value", .str "api"),
              (.str "drop_counter_reason", .str "too_many_logs")])]] with
           ScrapeConfigs := (exampleConfig
            [[("drop", .map [(.str "source", .str "workload"), (.str "value", .str "api"),
              (.str "drop_counter_reason", .str "too_many_logs")])]]).ScrapeConfigs.map
              fun sc => { sc with PipelineStages := sc.PipelineStages ++
                (promtail.newDrops (exampleConfig
                  [[("drop", .map [(.str "source", .str "workload"),
                    (.str "value", .str "api"),
                    (.str "drop_counter_reason", .str "too_many_logs")])]])
                  ["api", "web"]).map promtail.workloadDrop } },
         !(promtail.newDrops (exampleConfig
            [[("drop", .map [(.str "source", .str "workload"), (.str "value", .str "api"),
              (.str "drop_counter_reason", .str "too_many_logs")])]])
            ["api", "web"]).isEmpty) :=
  (dropLogs_wellFormed (exampleConfig
      [[("drop", .map [(.str "source", .str "workload"), (.str "value", .str "api"),
        (.str "drop_counter_reason", .str "too_many_logs")])]]) ["api", "web"]
    (by decide)).1

/-- C22 fails for a config without scrape jobs: `DropLogs ["api"]` returns `true` although
there is no job to append to and the config is left as it was.  The flag is set after the
call of `appendDropStage`, whatever that call did.  In general, on a config whose drop
stages all have a projection, the returned flag says whether some listed workload is not
yet dropped, and the config is left as it was exactly when no listed workload is new or
there is no scrape job. -/
theorem dropLogs_true_without_change :
    promtail.DropLogs
        { Server := .null, Client := .null, Positions := .null, ScrapeConfigs := [] } ["api"]
      = .returned
        ({ Server := .null, Client := .null, Positions := .null, ScrapeConfigs := [] }, true) ∧
    (∀ (p : promtail.PromtailConfig) (ws : List String), promtail.wellFormedDrops p = false ∨
      ∃ p1 b, promtail.DropLogs p ws = .returned (p1, b) ∧
        (b = true ↔ promtail.newDrops p ws ≠ []) ∧
        (p1 = p ↔ (promtail.newDrops p ws = [] ∨ p.ScrapeConfigs = []))) := by
  refine ⟨rfl, fun p ws => ?_⟩
  cases hwf : promtail.wellFormedDrops p with
  | false => exact Or.inl rfl
  | true =>
    right
    refine ⟨_, _, promtail.dropLogs_eq p ws hwf, ?_, ?_⟩
    · simp [List.isEmpty_iff]
    · have hmap := promtail.map_append_eq_self p.ScrapeConfigs
        ((promtail.newDrops p ws).map promtail.workloadDrop)
      simp only [List.map_eq_nil_iff] at hmap
      rw [← hmap]
      constructor
      · intro h
        exact congrArg promtail.PromtailConfig.ScrapeConfigs h
      · intro h
        cases p
        simp only at h ⊢
        rw [h]

/-! ### The budget catalog -/

namespace budget

theorem workloadsLoop_append (l1 l2 : List Workload) (a : GoMap Float64) :
    workloadsLoop (l1 ++ l2) a = workloadsLoop l2 (workloadsLoop l1 a) := by
  induction l1 generalizing a with
  | nil => rfl
  | cons x xs ih =>
    rw [List.cons_append]
    simp only [workloadsLoop]
    exact ih _

theorem envsLoop_eq (envName : String) (envs : List Environment) (acc : GoMap Float64) :
    envsLoop envName envs acc
      = workloadsLoop ((envs.filter fun env => decide (env.Name = envName)).flatMap
          fun env => env.Workloads) acc := by
  induction envs generalizing acc with
  | nil => rfl
  | cons env rest ih =>
    simp only [envsLoop]
    split_ifs with h
    · simp [List.filter, h, ih, workloadsLoop_append]
    · simp [List.filter, h, ih]

theorem orgsLoop_eq (orgName envName : String) (orgs : List Organization)
    (acc : GoMap Float64) :
    orgsLoop orgName envName orgs acc
      = workloadsLoop ((orgs.filter fun org => decide (org.Name = orgName)).flatMap fun org =>
          (org.Environments.filter fun env => decide (env.Name = envName)).flatMap
            fun env => env.Workloads) acc := by
  induction orgs generalizing acc with
  | nil => rfl
  | cons org rest ih =>
    simp only [orgsLoop]
    split_ifs with h
    · simp [List.filter, h, ih, envsLoop_eq, workloadsLoop_append]
    · simp [List.filter, h, ih]

theorem workloadsLoop_get?_other (l : List Workload) (acc : GoMap Float64) (k : String)
    (h : ∀ y ∈ l, y.Name ≠ k) : GoMap.get? (workloadsLoop l acc) k = GoMap.get? acc k := by
  induction l generalizing acc with
  | nil => rfl
  | cons x rest ih =>
    simp only [workloadsLoop]
    rw [ih _ (fun y hy => h y (List.mem_cons_of_mem _ hy)),
      GoMap.get?_set_ne _ _ _ _ (h x (List.mem_cons_self _ _))]

theorem workloadsLoop_get?_last (pre post : List Workload) (x : Workload)
    (acc : GoMap Float64) (hlast : ∀ y ∈ post, y.Name ≠ x.Name) :
    GoMap.get? (workloadsLoop (pre ++ x :: post) acc) x.Name
      = some (Float64.ofInt x.DailyIngestionBudget) := by
  rw [workloadsLoop_append]
  simp only [workloadsLoop]
  rw [workloadsLoop_get?_other _ _ _ hlast, GoMap.get?_set_self]

end budget

/-- C24: `ExtractBudget` always returns a map and no error.  The map is built from the
workloads listed under the organizations named `org` and, in them, the environments named
`env`, in catalog order: a workload is mapped to the `daily_ingestion_budget` of its last
entry, converted to float64, and a name that is not listed is not a key.  When no
organization is named `org`, or no environment of such an organization is named `env`, the
map is empty.  In the example catalog `api` is listed with 5 and later with 9 and is
mapped to 9. -/
theorem extractBudget_spec (b : budget.Budget) (org env : String) :
    ∃ m, budget.ExtractBudget b org env = .ok m ∧
      (∀ pre x post, budget.listedWorkloads b org env = pre ++ x :: post →
        (∀ y ∈ post, y.Name ≠ x.Name) →
        GoMap.get? m x.Name = some (Float64.ofInt x.DailyIngestionBudget)) ∧
      (∀ k, (∀ y ∈ budget.listedWorkloads b org env, y.Name ≠ k) → GoMap.get? m k = none) ∧
      (budget.listedWorkloads b org env = [] → m = []) ∧
      ((∀ o ∈ b.Organizations, o.Name ≠ org) → m = []) ∧
      ((∀ o ∈ b.Organizations, ∀ e ∈ o.Environments, e.Name ≠ env) → m = []) ∧
      budget.ExtractBudget exampleBudget "groww" "prod"
        = .ok [("api", .fin 9), ("web", .fin 7)] ∧
      budget.ExtractBudget exampleBudget "groww" "dev" = .ok [] ∧
      budget.ExtractBudget exampleBudget "other" "prod" = .ok [] := by
  have hm : budget.ExtractBudget b org env
      = .ok (budget.workloadsLoop (budget.listedWorkloads b org env) []) := by
    simp only [budget.ExtractBudget, budget.orgsLoop_eq, budget.listedWorkloads]
  have hempty : budget.listedWorkloads b org env = [] →
      budget.workloadsLoop (budget.listedWorkloads b org env) [] = [] := by
    intro h
    rw [h]
    rfl
  refine ⟨_, hm, ?_, ?_, hempty, ?_, ?_, by decide!, by decide!, by decide!⟩
  · intro pre x post hl hlast
    rw [hl]
    exact budget.workloadsLoop_get?_last pre post x [] hlast
  · intro k hk
    rw [budget.workloadsLoop_get?_other _ _ _ hk]
    rfl
  · intro horg
    apply hempty
    have : (b.Organizations.filter fun o => decide (o.Name = org)) = [] :=
      List.filter_eq_nil_iff.mpr fun o ho => by simp [horg o ho]
    simp [budget.listedWorkloads, this]
  · intro henv
    apply hempty
    simp only [budget.listedWorkloads, List.flatMap_eq_nil_iff]
    intro o ho e he
    have := henv o (List.mem_filter.mp ho).1 e (List.mem_filter.mp he).1
    simp [this] at he

/-! ### The secret store: `FetchSecretValue` and `UpdateSecretValue` -/

namespace kubernetes

theorem secretGet_fail (w : World) (ns name : String) (fs : List Bool)
    (h : w.faults = true :: fs) :
    w.secretGet ns name
      = ({ w with trace := w.trace ++ [.secretGet ns name], faults := fs },
         .error "api error") := by
  simp [World.secretGet, World.nextFault, World.log, h]

theorem secretGet_found (w : World) (ns name : String) (s : Secret)
    (h : w.faults.head? ≠ some true) (hs : World.findSecret w.secrets ns name = some s) :
    w.secretGet ns name
      = ({ w with trace := w.trace ++ [.secretGet ns name], faults := w.faults.tail },
         .ok s) := by
  cases hf : w.faults with
  | nil => simp [World.secretGet, World.nextFault, World.log, hf, hs]
  | cons b fs =>
    cases b with
    | true => simp [hf] at h
    | false => simp [World.secretGet, World.nextFault, World.log, hf, hs]

theorem secretGet_secrets (w : World) (ns name : String) :
    (w.secretGet ns name).1.secrets = w.secrets := by
  unfold World.secretGet World.nextFault World.log
  cases w.faults <;> simp only <;> split <;> (try split) <;> rfl

/-- The pause before an attempt leaves everything but the trace. -/
theorem pause_eq (w : World) (a : Nat) :
    (if a > 0 then w.log (.sleep (1 * 2 ^ (a - 1))) else w)
      = { w with trace := w.trace ++
            (if a > 0 then [Event.sleep (1 * 2 ^ (a - 1))] else []) } := by
  split_ifs
  · rfl
  · simp

/-- The run of `FetchSecretValue` when the first `k` requests fail in the API and the next
one finds the secret. -/
theorem fetchSecretLoop_found (ns name key : String) (k r a : Nat) (w : World)
    (lastErr : String) (rest : List Bool) (s : Secret)
    (hfaults : w.faults = List.replicate k true ++ rest)
    (hrest : rest.head? ≠ some true)
    (hs : World.findSecret w.secrets ns name = some s) (hk : k < r) :
    fetchSecretLoop ns name key r a w lastErr
      = ({ w with trace := w.trace ++ attemptEvents ns name a (k + 1), faults := rest.tail },
         match valueAt s key with
         | some value => .ok value
         | none => .error ("key " ++ key ++ " not found in secret")) := by
  induction k generalizing r a w lastErr with
  | zero =>
    obtain ⟨r, rfl⟩ : ∃ r1, r = r1 + 1 := ⟨r - 1, by omega⟩
    simp only [List.replicate, List.nil_append] at hfaults
    unfold fetchSecretLoop
    simp only [pause_eq]
    rw [secretGet_found _ ns name s (by simpa [hfaults] using hrest) (by simpa using hs)]
    simp only [valueAt, attemptEvents, hfaults, List.append_nil]
    cases hd : s.Data with
    | none => simp
    | some data =>
      simp only
      cases hv : GoMap.get? data key with
      | none => simp only [hv, List.append_assoc]
      | some value => simp only [hv, List.append_assoc]
  | succ k ih =>
    obtain ⟨r, rfl⟩ : ∃ r1, r = r1 + 1 := ⟨r - 1, by omega⟩
    unfold fetchSecretLoop
    simp only [pause_eq]
    rw [secretGet_fail _ ns name (List.replicate k true ++ rest)
      (by simp [hfaults, List.replicate_succ])]
    simp only
    rw [ih r (a + 1) _ _ rfl (by simpa using hs) (by omega)]
    simp [attemptEvents, List.append_assoc]

/-- The run of `FetchSecretValue` when the requests of all attempts fail in the API. -/
theorem fetchSecretLoop_exhausted (ns name key : String) (r a : Nat) (w : World)
    (lastErr : String) (rest : List Bool)
    (hfaults : w.faults = List.replicate (r + 1) true ++ rest) :
    fetchSecretLoop ns name key (r + 1) a w lastErr
      = ({ w with trace := w.trace ++ attemptEvents ns name a (r + 1), faults := rest },
         .error "failed to get secret after 15 attempts: failed to get secret: api error") := by
  induction r generalizing a w lastErr with
  | zero =>
    unfold fetchSecretLoop
    simp only [pause_eq]
    rw [secretGet_fail _ ns name rest (by simp [hfaults])]
    simp [fetchSecretLoop, attemptEvents]
  | succ r ih =>
    unfold fetchSecretLoop
    simp only [pause_eq]
    rw [secretGet_fail _ ns name (List.replicate (r + 1) true ++ rest)
      (by simp [hfaults, List.replicate_succ])]
    simp only
    rw [ih (a + 1) _ _ rfl]
    simp [attemptEvents, List.append_assoc]

/-- Every run of `FetchSecretValue` makes some number of attempts, at most as many as
are allowed, with the pauses of `attemptEvents`, and leaves the secrets as they are.  A
value that is returned is the value under the key in the secret. -/
theorem fetchSecretLoop_run (ns name key : String) (r a : Nat) (w : World)
    (lastErr : String) :
    (∃ n, n ≤ r ∧ (fetchSecretLoop ns name key r a w lastErr).1.trace
        = w.trace ++ attemptEvents ns name a n) ∧
    (fetchSecretLoop ns name key r a w lastErr).1.secrets = w.secrets ∧
    (∀ value, (fetchSecretLoop ns name key r a w lastErr).2 = .ok value →
      ∃ s, World.findSecret w.secrets ns name = some s ∧ valueAt s key = some value) := by
  induction r generalizing a w lastErr with
  | zero => exact ⟨⟨0, le_refl _, by simp [fetchSecretLoop, attemptEvents]⟩, rfl,
      by simp [fetchSecretLoop]⟩
  | succ r ih =>
    unfold fetchSecretLoop
    simp only [pause_eq]
    generalize hw0 : ({ w with trace := w.trace ++
        (if a > 0 then [Event.sleep (1 * 2 ^ (a - 1))] else []) } : World) = w0
    have htr := secretGet_trace w0 ns name
    have hsec := secretGet_secrets w0 ns name
    have hfound : ∀ s, (w0.secretGet ns name).2 = .ok s →
        World.findSecret w.secrets ns name = some s := by
      intro s hs
      have hw0s : w0.secrets = w.secrets := by rw [← hw0]
      rw [← hw0s]
      unfold World.secretGet World.nextFault World.log at hs
      cases hf : w0.faults with
      | nil =>
        simp only [hf] at hs
        cases hfs : World.findSecret w0.secrets ns name with
        | none => simp [hfs] at hs
        | some s1 => simpa [hfs] using hs
      | cons b fs =>
        simp only [hf] at hs
        cases b with
        | true => simp at hs
        | false =>
          cases hfs : World.findSecret w0.secrets ns name with
          | none => simp [hfs] at hs
          | some s1 => simpa [hfs] using hs
    rcases hg : w0.secretGet ns name with ⟨w1, res⟩
    rw [hg] at htr hsec hfound
    simp only at htr hsec hfound
    have hw0t : w0.trace = w.trace ++
        (if a > 0 then [Event.sleep (1 * 2 ^ (a - 1))] else []) := by rw [← hw0]
    have hw0s : w0.secrets = w.secrets := by rw [← hw0]
    cases res with
    | error e =>
      simp only
      obtain ⟨⟨n, hn, htrace⟩, hsecrets, hval⟩ := ih (a + 1) w1 ("failed to get secret: " ++ e)
      refine ⟨⟨n + 1, by omega, ?_⟩, ?_, ?_⟩
      · rw [htrace, htr, hw0t]
        simp [attemptEvents, List.append_assoc]
      · rw [hsecrets, hsec, hw0s]
      · intro value hv
        obtain ⟨s, hs, hvs⟩ := hval value hv
        exact ⟨s, by rw [← hw0s, ← hsec]; exact hs, hvs⟩
    | ok secret =>
      simp only
      have hone : w1.trace = w.trace ++ attemptEvents ns name a 1 := by
        rw [htr, hw0t]
        simp [attemptEvents, List.append_assoc]
      cases hd : secret.Data with
      | none =>
        exact ⟨⟨1, by omega, hone⟩, by rw [hsec, hw0s], by simp⟩
      | some data =>
        simp only
        cases hv : GoMap.get? data key with
        | none => exact ⟨⟨1, by omega, hone⟩, by rw [hsec, hw0s], by simp⟩
        | some value =>
          refine ⟨⟨1, by omega, hone⟩, by rw [hsec, hw0s], ?_⟩
          intro v2 hv2
          simp only [Except.ok.injEq] at hv2
          subst hv2
          exact ⟨secret, hfound secret rfl, by simp [valueAt, hd, hv]⟩

end kubernetes

namespace kubernetes

theorem findSecret_some (l : List Secret) (ns name : String) (s : Secret)
    (h : World.findSecret l ns name = some s) : s.Namespace = ns ∧ s.Name = name := by
  induction l with
  | nil => simp [World.findSecret] at h
  | cons x rest ih =>
    simp only [World.findSecret] at h
    split_ifs at h with hx
    · simp only [Option.some.injEq] at h
      subst h
      exact hx
    · exact ih h

theorem findSecret_replace (l : List Secret) (ns name : String) (s new : Secret)
    (h : World.findSecret l ns name = some s) (hns : new.Namespace = ns)
    (hname : new.Name = name) :
    World.findSecret (World.replaceSecret l new) ns name = some new := by
  induction l with
  | nil => simp [World.findSecret] at h
  | cons x rest ih =>
    simp only [World.findSecret] at h
    simp only [World.replaceSecret]
    split_ifs at h with hx
    · simp [hns, hname, hx, World.findSecret]
    · simp only [hns, hname, hx, if_false, World.findSecret]
      exact ih h

theorem secretGet_ok_found (w : World) (ns name : String) (s : Secret)
    (h : (w.secretGet ns name).2 = .ok s) : World.findSecret w.secrets ns name = some s := by
  unfold World.secretGet World.nextFault World.log at h
  cases hf : w.faults with
  | nil =>
    simp only [hf] at h
    cases hfs : World.findSecret w.secrets ns name with
    | none => simp [hfs] at h
    | some s1 => simpa [hfs] using h
  | cons b fs =>
    simp only [hf] at h
    cases b with
    | true => simp at h
    | false =>
      cases hfs : World.findSecret w.secrets ns name with
      | none => simp [hfs] at h
      | some s1 => simpa [hfs] using h

theorem secretUpdate_secrets (w : World) (s : Secret) :
    (∀ e, (w.secretUpdate s false).2 = .error e → (w.secretUpdate s false).1.secrets = w.secrets) ∧
    ((w.secretUpdate s false).2 = .ok () →
      (w.secretUpdate s false).1.secrets = World.replaceSecret w.secrets s) := by
  unfold World.secretUpdate World.nextFault World.log
  cases hf : w.faults with
  | nil =>
    simp only
    cases hfs : World.findSecret w.secrets s.Namespace s.Name <;> simp
  | cons b fs =>
    simp only
    cases b with
    | true => simp
    | false => cases hfs : World.findSecret w.secrets s.Namespace s.Name <;> simp

/-- A successful `UpdateSecretValue` without dry run found the secret with a data map and
stored it with the key set. -/
theorem updateSecretLoop_success (ns name key v : String) (r a : Nat) (w w2 : World)
    (lastErr : String)
    (h : updateSecretLoop ns name key v false r a w lastErr = (w2, .returned none)) :
    ∃ s data, World.findSecret w.secrets ns name = some s ∧ s.Data = some data ∧
      w2.secrets = World.replaceSecret w.secrets
        { s with Data := some (GoMap.set data key v) } := by
  induction r generalizing a w lastErr with
  | zero => simp [updateSecretLoop] at h
  | succ r ih =>
    unfold updateSecretLoop at h
    simp only [pause_eq] at h
    generalize hw0 : ({ w with trace := w.trace ++
        (if a > 0 then [Event.sleep (1 * 2 ^ (a - 1))] else []) } : World) = w0 at h
    have hw0s : w0.secrets = w.secrets := by rw [← hw0]
    have hsec := secretGet_secrets w0 ns name
    have hfound := secretGet_ok_found w0 ns name
    rcases hg : w0.secretGet ns name with ⟨w1, res⟩
    rw [hg] at h hsec hfound
    simp only at h hsec hfound
    cases res with
    | error e =>
      simp only at h
      obtain ⟨s, data, hs, hd, hw2⟩ := ih _ _ _ h
      exact ⟨s, data, by rw [← hw0s, ← hsec]; exact hs, hd, by rw [hw2, hsec, hw0s]⟩
    | ok secret =>
      simp only at h
      have hsfound := hfound secret rfl
      cases hd : secret.Data with
      | none => simp [hd] at h
      | some data =>
        simp only [hd] at h
        have hupd := secretUpdate_secrets w1 { secret with Data := some (GoMap.set data key v) }
        rcases hu : w1.secretUpdate { secret with Data := some (GoMap.set data key v) } false
          with ⟨w3, res2⟩
        rw [hu] at h hupd
        simp only at h hupd
        cases res2 with
        | error e =>
          simp only at h
          obtain ⟨s, data1, hs, hd1, hw2⟩ := ih _ _ _ h
          have h3 := hupd.1 e rfl
          exact ⟨s, data1, by rw [← hw0s, ← hsec, ← h3]; exact hs, hd1,
            by rw [hw2, h3, hsec, hw0s]⟩
        | ok u =>
          simp only [Prod.mk.injEq, and_true] at h
          subst h
          exact ⟨secret, data, by rw [← hw0s]; exact hsfound, hd,
            by rw [hupd.2 rfl, hsec, hw0s]⟩

end kubernetes

/-- C26: when the first `k ≤ 14` requests fail in the API and the next one finds the
secret, `FetchSecretValue` makes exactly `k + 1` `Get` requests, pauses `2 ^ (j - 1)`
seconds before the `j`-th retry, and returns the value under the key in that secret, or,
when the key is absent, the error "key not found" with no further request.  When 15
requests in a row fail it gives up after the 15th with the error "failed to get secret
after 15 attempts".  No run makes more than 15 attempts, and the pauses before the retries
are 1, 2, 4, ... seconds. -/
theorem fetchSecretValue_retries (w : World) (ns name key : String) (k : Nat)
    (rest : List Bool) (s : Secret)
    (hfaults : w.faults = List.replicate k true ++ rest)
    (hrest : rest.head? ≠ some true)
    (hs : World.findSecret w.secrets ns name = some s) (hk : k ≤ 14) :
    kubernetes.FetchSecretValue w ns name key
      = ({ w with trace := w.trace ++ kubernetes.attemptEvents ns name 0 (k + 1),
                  faults := rest.tail },
         match kubernetes.valueAt s key with
         | some value => .ok value
         | none => .error ("key " ++ key ++ " not found in secret")) ∧
    (∀ (w0 : World) (rest0 : List Bool), w0.faults = List.replicate 15 true ++ rest0 →
      kubernetes.FetchSecretValue w0 ns name key
        = ({ w0 with trace := w0.trace ++ kubernetes.attemptEvents ns name 0 15,
                     faults := rest0 },
           .error "failed to get secret after 15 attempts: failed to get secret: api error")) ∧
    (∀ w0 : World, ∃ n, n ≤ 15 ∧ (kubernetes.FetchSecretValue w0 ns name key).1.trace
      = w0.trace ++ kubernetes.attemptEvents ns name 0 n) ∧
    kubernetes.attemptEvents ns name 0 4
      = [.secretGet ns name, .sleep 1, .secretGet ns name, .sleep 2, .secretGet ns name,
         .sleep 4, .secretGet ns name] := by
  refine ⟨?_, fun w0 rest0 h0 => ?_, fun w0 => ?_, ?_⟩
  · exact kubernetes.fetchSecretLoop_found ns name key k _ 0 w "" rest s hfaults hrest hs
      (by simp [kubernetes.maxRetries]; omega)
  · exact kubernetes.fetchSecretLoop_exhausted ns name key 14 0 w0 "" rest0 h0
  · exact (kubernetes.fetchSecretLoop_run ns name key 15 0 w0 "").1
  · simp [kubernetes.attemptEvents]

theorem fetchSecretValue_retries_witness :
    kubernetes.FetchSecretValue { exampleWorld with faults := [true, true] }
        "kube-logging" "promtail" "promtail.yaml"
      = ({ exampleWorld with
            trace := [.secretGet "kube-logging" "promtail", .sleep 1,
              .secretGet "kube-logging" "promtail", .sleep 2,
              .secretGet "kube-logging" "promtail"],
            faults := [] },
         .ok "scrape_configs: []") :=
  (fetchSecretValue_retries { exampleWorld with faults := [true, true] }
    "kube-logging" "promtail" "promtail.yaml" 2 []
    { Namespace := "kube-logging", Name := "promtail"
      Data := some [("promtail.yaml", "scrape_configs: []")] }
    (by decide) (by decide) (by decide) (by decide)).1

/-- C27: when `UpdateSecretValue` without dry run returns no error, the secret was found
with its data map and is stored with `v` under the key and every other key as before; a
`FetchSecretValue` of that key on the resulting secrets returns `v` whenever it returns a
value, and it does so when its first request succeeds. -/
theorem updateSecretValue_then_fetch (w w2 : World) (ns name key v : String)
    (hupd : kubernetes.UpdateSecretValue w ns name key v false = (w2, .returned none)) :
    ∃ s data, World.findSecret w.secrets ns name = some s ∧ s.Data = some data ∧
      World.findSecret w2.secrets ns name
        = some { s with Data := some (GoMap.set data key v) } ∧
      GoMap.get? (GoMap.set data key v) key = some v ∧
      (∀ k2, k2 ≠ key → GoMap.get? (GoMap.set data key v) k2 = GoMap.get? data k2) ∧
      (∀ w3 : World, w3.secrets = w2.secrets →
        (∀ x, (kubernetes.FetchSecretValue w3 ns name key).2 = .ok x → x = v) ∧
        (w3.faults.head? ≠ some true →
          (kubernetes.FetchSecretValue w3 ns name key).2 = .ok v)) := by
  obtain ⟨s, data, hs, hd, hw2⟩ := kubernetes.updateSecretLoop_success ns name key v _ _ _ _ _ hupd
  obtain ⟨hns, hname⟩ := kubernetes.findSecret_some _ _ _ _ hs
  have hfind2 : World.findSecret w2.secrets ns name
      = some { s with Data := some (GoMap.set data key v) } := by
    rw [hw2]
    exact kubernetes.findSecret_replace _ ns name s _ hs hns hname
  have hval : kubernetes.valueAt { s with Data := some (GoMap.set data key v) } key = some v := by
    simp [kubernetes.valueAt, GoMap.get?_set_self]
  refine ⟨s, data, hs, hd, hfind2, GoMap.get?_set_self _ _ _,
    fun k2 hk2 => GoMap.get?_set_ne _ _ _ _ (Ne.symm hk2), fun w3 hw3 => ⟨fun x hx => ?_, fun hhead => ?_⟩⟩
  · obtain ⟨s3, hs3, hv3⟩ := (kubernetes.fetchSecretLoop_run ns name key _ 0 w3 "").2.2 x hx
    rw [hw3, hfind2] at hs3
    simp only [Option.some.injEq] at hs3
    subst hs3
    rw [hval] at hv3
    exact (Option.some.inj hv3).symm
  · have := kubernetes.fetchSecretLoop_found ns name key 0 (kubernetes.maxRetries + 1) 0 w3 ""
      w3.faults _ (by simp) hhead (by rw [hw3]; exact hfind2) (by simp)
    unfold kubernetes.FetchSecretValue
    rw [this, hval]

theorem updateSecretValue_then_fetch_witness :
    ∃ s data, World.findSecret exampleWorld.secrets "kube-logging" "promtail" = some s ∧
      s.Data = some data ∧
      GoMap.get? (GoMap.set data "promtail.yaml" "server: null") "promtail.yaml"
        = some "server: null" := by
  obtain ⟨s, data, h1, h2, _, h4, _⟩ := updateSecretValue_then_fetch exampleWorld
    (kubernetes.UpdateSecretValue exampleWorld "kube-logging" "promtail" "promtail.yaml"
      "server: null" false).1
    "kube-logging" "promtail" "promtail.yaml" "server: null" (by decide)
  exact ⟨s, data, h1, h2, h4⟩

/-! ### The cycle -/

namespace promtail

/-- `ValidateConfig` returns, or ends the process with status 1 after the checker has
rejected the text. -/
theorem ValidateConfig_outcome (env : Env) (p : PromtailConfig) (bin : String) (w : World) :
    (∃ r, (ValidateConfig env p bin w).2 = .returned r) ∨
      ((ValidateConfig env p bin w).2 = .exited 1 ∧
        ∃ yamlStr, env.checkSyntax bin yamlStr = false) := by
  unfold ValidateConfig
  cases ToYAML env p with
  | error e => exact Or.inl ⟨_, rfl⟩
  | ok yamlStr =>
    dsimp only
    cases env.createTemp with
    | error e => exact Or.inl ⟨_, rfl⟩
    | ok tmpFile =>
      dsimp only
      cases env.writeString yamlStr with
      | some e => exact Or.inl ⟨_, rfl⟩
      | none =>
        dsimp only
        cases env.close with
        | some e => exact Or.inl ⟨_, rfl⟩
        | none =>
          dsimp only
          by_cases hc : env.checkSyntax bin yamlStr = true
          · simp only [hc, if_true]
            exact Or.inl ⟨_, rfl⟩
          · simp only [hc, if_false]
            exact Or.inr ⟨rfl, yamlStr, by simpa using hc⟩

end promtail

namespace kubernetes

theorem secretUpdate_error_secrets (w : World) (s : Secret) (d : Bool) (e : String)
    (h : (w.secretUpdate s d).2 = .error e) : (w.secretUpdate s d).1.secrets = w.secrets := by
  unfold World.secretUpdate World.nextFault World.log at h ⊢
  cases hf : w.faults with
  | nil =>
    simp only [hf] at h ⊢
    cases hfs : World.findSecret w.secrets s.Namespace s.Name with
    | none => simp
    | some s1 => cases d <;> simp [hfs] at h
  | cons b fs =>
    simp only [hf] at h ⊢
    cases b with
    | true => simp
    | false =>
      cases hfs : World.findSecret w.secrets s.Namespace s.Name with
      | none => simp
      | some s1 => cases d <;> simp [hfs] at h

/-- `UpdateSecretValue` returns when the secret, if there is one, has a data map. -/
theorem updateSecretLoop_returns (ns name key v : String) (d : Bool) (r a : Nat) (w : World)
    (lastErr : String)
    (hdata : ∀ s, World.findSecret w.secrets ns name = some s → s.Data ≠ none) :
    ∃ res, (updateSecretLoop ns name key v d r a w lastErr).2 = .returned res := by
  induction r generalizing a w lastErr with
  | zero => exact ⟨_, rfl⟩
  | succ r ih =>
    unfold updateSecretLoop
    simp only [pause_eq]
    generalize hw0 : ({ w with trace := w.trace ++
        (if a > 0 then [Event.sleep (1 * 2 ^ (a - 1))] else []) } : World) = w0
    have hw0s : w0.secrets = w.secrets := by rw [← hw0]
    have hsec := secretGet_secrets w0 ns name
    have hfound := secretGet_ok_found w0 ns name
    rcases hg : w0.secretGet ns name with ⟨w1, res⟩
    rw [hg] at hsec hfound
    simp only at hsec hfound
    cases res with
    | error e =>
      simp only
      exact ih _ _ _ (fun s hs => hdata s (by rw [← hw0s, ← hsec]; exact hs))
    | ok secret =>
      simp only
      have hsfound := hfound secret rfl
      rw [hw0s] at hsfound
      cases hd : secret.Data with
      | none => exact absurd hd (hdata secret hsfound)
      | some data =>
        simp only
        have hupd := secretUpdate_error_secrets w1
          { secret with Data := some (GoMap.set data key v) } d
        rcases hu : w1.secretUpdate { secret with Data := some (GoMap.set data key v) } d
          with ⟨w3, res2⟩
        rw [hu] at hupd
        simp only at hupd
        cases res2 with
        | error e =>
          simp only
          exact ih _ _ _ (fun s hs => hdata s (by
            rw [← hw0s, ← hsec, ← hupd e rfl]; exact hs))
        | ok u => exact ⟨_, rfl⟩

end kubernetes

namespace main

/-- `updateSamplingConfig` returns, or ends the process with status 1 (in
`ValidateConfig`), when the secret has a data map. -/
theorem updateSamplingConfig_outcome (env : Env) (cfg : config.Config)
    (p : promtail.PromtailConfig) (rates : GoMap Float64) (w : World)
    (hdata : ∀ s, World.findSecret w.secrets cfg.Promtail.Secret.Namespace
      cfg.Promtail.Secret.Name = some s → s.Data ≠ none) :
    (∃ r, (updateSamplingConfig env cfg p rates w).2 = .returned r) ∨
      ((updateSamplingConfig env cfg p rates w).2 = .exited 1 ∧
        ∃ yamlStr, env.checkSyntax cfg.Promtail.LocalBin yamlStr = false) := by
  unfold updateSamplingConfig
  rcases hrem : promtail.RemoveAllSamplingStages p cfg.Promtail.Sampling.Selector.Format
    with ⟨p1, upd, err⟩
  cases err with
  | some e => exact Or.inl ⟨_, rfl⟩
  | none =>
    simp only
    have hframe := promtail.ValidateConfig_frame env
      (promtail.AddSamplingStages p1 rates cfg.Promtail.Sampling.Selector.Format
          (env.rangeOrder rates)).1
      cfg.Promtail.LocalBin w
    have hout := promtail.ValidateConfig_outcome env
      (promtail.AddSamplingStages p1 rates cfg.Promtail.Sampling.Selector.Format
          (env.rangeOrder rates)).1
      cfg.Promtail.LocalBin w
    rcases hv : promtail.ValidateConfig env
      (promtail.AddSamplingStages p1 rates cfg.Promtail.Sampling.Selector.Format
          (env.rangeOrder rates)).1
      cfg.Promtail.LocalBin w with ⟨w1, res⟩
    rw [hv] at hframe hout
    simp only at hframe hout
    rcases hout with ⟨r, hr⟩ | ⟨hex, hrej⟩
    · subst hr
      cases r with
      | some e => exact Or.inl ⟨_, rfl⟩
      | none =>
        simp only
        cases promtail.ToYAML env
            (promtail.AddSamplingStages p1 rates cfg.Promtail.Sampling.Selector.Format
          (env.rangeOrder rates)).1 with
        | error e => exact Or.inl ⟨_, rfl⟩
        | ok yamlContent =>
          simp only
          obtain ⟨res, hres⟩ := kubernetes.updateSecretLoop_returns
            cfg.Promtail.Secret.Namespace cfg.Promtail.Secret.Name cfg.Promtail.Secret.Key
            yamlContent cfg.DryRun (kubernetes.maxRetries + 1) 0 w1 ""
            (by rw [hframe.1]; exact hdata)
          unfold kubernetes.UpdateSecretValue
          rcases hu : kubernetes.updateSecretLoop cfg.Promtail.Secret.Namespace
            cfg.Promtail.Secret.Name cfg.Promtail.Secret.Key yamlContent cfg.DryRun
            (kubernetes.maxRetries + 1) 0 w1 "" with ⟨w2, res2⟩
          rw [hu] at hres
          simp only at hres
          subst hres
          cases res <;> exact Or.inl ⟨_, rfl⟩
    · subst hex
      exact Or.inr ⟨rfl, hrej⟩

/-- After `getPromtailConfig` has returned a config, the secret has a data map. -/
theorem getPromtailConfig_data (cfg : config.Config) (src : Sources) (w w1 : World)
    (p : promtail.PromtailConfig) (h : getPromtailConfig cfg src w = (w1, .ok p)) :
    ∀ s, World.findSecret w1.secrets cfg.Promtail.Secret.Namespace
      cfg.Promtail.Secret.Name = some s → s.Data ≠ none := by
  unfold getPromtailConfig kubernetes.FetchSecretValue at h
  have hrun := kubernetes.fetchSecretLoop_run cfg.Promtail.Secret.Namespace
    cfg.Promtail.Secret.Name cfg.Promtail.Secret.Key (kubernetes.maxRetries + 1) 0 w ""
  rcases hf : kubernetes.fetchSecretLoop cfg.Promtail.Secret.Namespace
    cfg.Promtail.Secret.Name cfg.Promtail.Secret.Key (kubernetes.maxRetries + 1) 0 w ""
    with ⟨w0, res⟩
  rw [hf] at h hrun
  simp only at h hrun
  cases res with
  | error e => simp at h
  | ok configYaml =>
    simp only at h
    have hw : w1 = w0 := by
      cases hd : src.document configYaml with
      | error e => simp [hd] at h
      | ok doc =>
        simp only [hd] at h
        cases hn : promtail.New doc with
        | error e => simp [hn] at h
        | ok c =>
          simp only [hn, Prod.mk.injEq] at h
          exact h.1.symm
    subst hw
    obtain ⟨s0, hs0, hv0⟩ := hrun.2.2 configYaml rfl
    intro s hs
    rw [hrun.2.1, hs0] at hs
    simp only [Option.some.injEq] at hs
    subst hs
    intro hnone
    simp [kubernetes.valueAt, hnone] at hv0

theorem applySamplingToWorkloads_outcome (env : Env) (cfg : config.Config) (src : Sources)
    (over : List models.OverBudgetWorkload) (w : World) :
    (∃ r, (applySamplingToWorkloads env cfg src over w).2 = .returned r) ∨
      ((applySamplingToWorkloads env cfg src over w).2 = .exited 1 ∧
        ∃ yamlStr, env.checkSyntax cfg.Promtail.LocalBin yamlStr = false) := by
  unfold applySamplingToWorkloads
  simp only
  rcases hg : getPromtailConfig cfg src w with ⟨w1, res⟩
  cases res with
  | error e => exact Or.inl ⟨_, rfl⟩
  | ok p =>
    simp only
    have hout := updateSamplingConfig_outcome env cfg p (utils.CalculateSamplingRates over) w1
      (getPromtailConfig_data cfg src w w1 p hg)
    rcases hu : updateSamplingConfig env cfg p (utils.CalculateSamplingRates over) w1
      with ⟨w2, res2⟩
    rw [hu] at hout
    simp only at hout
    rcases hout with ⟨r, hr⟩ | ⟨hex, hrej⟩
    · subst hr
      cases r <;> exact Or.inl ⟨_, rfl⟩
    · subst hex
      exact Or.inr ⟨rfl, hrej⟩

/-- How a cycle ends: with one recorded success, with one recorded failure, or with the
process exiting with status 1 after the checker has rejected a text. -/
theorem midnightCron_outcome (env : Env) (cfg : config.Config) (src : Sources) (w : World) :
    (midnightCron env cfg src w).2 = .returned [true] ∨
      (midnightCron env cfg src w).2 = .returned [false] ∨
      ((midnightCron env cfg src w).2 = .exited 1 ∧
        ∃ yamlStr, env.checkSyntax cfg.Promtail.LocalBin yamlStr = false) := by
  unfold midnightCron
  cases collectBudgetData src with
  | error e => exact Or.inr (Or.inl rfl)
  | ok r =>
    obtain ⟨b, rs, ing⟩ := r
    simp only
    cases calculateDynamicBudgets src b rs with
    | error e => exact Or.inr (Or.inl rfl)
    | ok dyn =>
      simp only
      have hout := applySamplingToWorkloads_outcome env cfg src
        (findOverBudgetWorkloads ing dyn) w
      rcases ha : applySamplingToWorkloads env cfg src (findOverBudgetWorkloads ing dyn) w
        with ⟨w1, res⟩
      rw [ha] at hout
      simp only at hout
      rcases hout with ⟨r, hr⟩ | ⟨hex, hrej⟩
      · subst hr
        cases r with
        | some e => exact Or.inr (Or.inl rfl)
        | none => exact Or.inl rfl
      · subst hex
        exact Or.inr (Or.inr ⟨rfl, hrej⟩)

end main

/-- C25 fails when the syntax checker rejects the generated config: `ValidateConfig` logs
through `log.Fatal`, which ends the process with status 1, so the cycle does not return
and records nothing.  In the example every source answers and the secret is read and
parsed; the checker rejects.  Every cycle ends in one of three ways: one recorded success,
one recorded failure (so whenever a step returns an error, as when the data collection
fails), or the exit with status 1, which only happens after the checker has rejected a
text. -/
theorem midnightCron_exits_on_rejected_config :
    (main.midnightCron rejectingEnv exampleCfg exampleSources exampleWorld).2 = .exited 1 ∧
    (main.midnightCron rejectingEnv exampleCfg exampleSources exampleWorld).1.trace
      = [.secretGet "kube-logging" "promtail",
         .exec "/app/promtail" ["-check-syntax", "--config.file",
           "/tmp/promtail-config-1.yaml"]] ∧
    (∀ (env : Env) (cfg : config.Config) (src : main.Sources) (w : World),
      (main.midnightCron env cfg src w).2 = .returned [true] ∨
      (main.midnightCron env cfg src w).2 = .returned [false] ∨
      ((main.midnightCron env cfg src w).2 = .exited 1 ∧
        ∃ yamlStr, env.checkSyntax cfg.Promtail.LocalBin yamlStr = false)) ∧
    (∀ (env : Env) (cfg : config.Config) (src : main.Sources) (w : World) (e : String),
      (src.resourceRequests = .error e ∨ src.ingestedGB = .error e) →
      main.midnightCron env cfg src w = (w, .returned [false])) := by
  refine ⟨by decide!, by decide!, main.midnightCron_outcome, ?_⟩
  intro env cfg src w e h
  unfold main.midnightCron main.collectBudgetData budget.ExtractBudget
  simp only
  rcases h with h | h
  · simp [h]
  · cases hr : src.resourceRequests with
    | error e1 => simp
    | ok r => simp [h]

/-! ### The flag and the abort of `RemoveAllSamplingStages` -/

namespace promtail

/-- The flag that the stage loop of `RemoveAllSamplingStages` returns: it is raised by
every stage that is kept. -/
theorem removeStagesLoop_flag (f : String) (stages acc res : List PipelineStage)
    (upd u : Bool) (h : removeStagesLoop f stages acc upd = .ok (res, u)) :
    u = (upd || stages.any fun st => !accepts f st) := by
  induction stages generalizing acc upd with
  | nil =>
    simp only [removeStagesLoop, Except.ok.injEq, Prod.mk.injEq] at h
    simp [h.2]
  | cons st rest ih =>
    simp only [removeStagesLoop] at h
    cases hp : parseSamplingStage st f with
    | ok r =>
      simp only [hp] at h
      rw [ih _ _ h]
      simp [accepts, hp]
    | error e =>
      cases e with
      | notASamplingStage =>
        simp only [hp] at h
        rw [ih _ _ h]
        simp [accepts, hp]
      | _ => simp [hp] at h

theorem removeJobsLoop_flag (f : String) (jobs : List ScrapeConfig) (upd : Bool)
    (h : (removeJobsLoop f jobs upd).err = none) :
    (removeJobsLoop f jobs upd).isConfigUpdated
      = (upd || jobs.any fun sc => sc.PipelineStages.any fun st => !accepts f st) := by
  induction jobs generalizing upd with
  | nil => simp [removeJobsLoop]
  | cons sc rest ih =>
    simp only [removeJobsLoop] at h ⊢
    cases hl : removeStagesLoop f sc.PipelineStages [] upd with
    | error e => simp [hl] at h
    | ok r =>
      obtain ⟨r1, r2⟩ := r
      simp only [hl] at h ⊢
      rw [ih _ h, removeStagesLoop_flag f _ _ _ _ _ hl]
      simp [Bool.or_assoc]

/-- Where `RemoveAllSamplingStages` stops: the jobs before the first job with a failing
stage are rewritten, that job and the later ones are as they were. -/
theorem removeJobsLoop_abort (f : String) (jobs : List ScrapeConfig) (upd : Bool)
    (e : ParseError) (h : (removeJobsLoop f jobs upd).err = some e) :
    ∃ pre bad post, jobs = pre ++ bad :: post ∧
      (∀ sc ∈ pre, firstParseError f sc.PipelineStages = none) ∧
      firstParseError f bad.PipelineStages = some e ∧
      (removeJobsLoop f jobs upd).config
        = pre.map (fun sc =>
            { sc with PipelineStages := sc.PipelineStages.filter (fun st => !accepts f st) })
          ++ bad :: post := by
  induction jobs generalizing upd with
  | nil => simp [removeJobsLoop] at h
  | cons sc rest ih =>
    have hstage := removeStagesLoop_error f sc.PipelineStages [] upd
    simp only [removeJobsLoop] at h ⊢
    cases hfe : firstParseError f sc.PipelineStages with
    | some e1 =>
      rw [hfe] at hstage
      simp only at hstage
      simp only [hstage, Option.some.injEq] at h ⊢
      subst h
      exact ⟨[], sc, rest, rfl, by simp, hfe, rfl⟩
    | none =>
      rw [hfe] at hstage
      simp only at hstage
      obtain ⟨r, hr⟩ := hstage
      obtain ⟨r1, r2⟩ := r
      simp only [hr] at h ⊢
      obtain ⟨pre, bad, post, hjobs, hpre, hbad, hcfg⟩ := ih r2 h
      obtain ⟨h1, _⟩ := removeStagesLoop_ok f _ _ _ _ _ hr
      refine ⟨sc :: pre, bad, post, by simp [hjobs], ?_, hbad, ?_⟩
      · intro x hx
        rcases List.mem_cons.mp hx with rfl | hx
        · exact hfe
        · exact hpre x hx
      · simp [hcfg, h1]

end promtail

/-- C28 fails in both directions: on a config whose only stage is a foreign `docker` stage
`RemoveAllSamplingStages` removes nothing and returns `true`, and on a config whose only
stage is an owned sampling stage it removes that stage and returns `false`.  The flag is
set in the branch that keeps a stage: whenever no error is returned, it is `true` exactly
when some stage of some job is kept. -/
theorem removeAllSamplingStages_flag_inverted :
    (promtail.RemoveAllSamplingStages (exampleConfig [[("docker", .null)]]) exampleFormat).2
      = (true, none) ∧
    ((promtail.RemoveAllSamplingStages (exampleConfig [[("docker", .null)]])
      exampleFormat).1.ScrapeConfigs.map fun sc => sc.PipelineStages.length) = [1] ∧
    (promtail.RemoveAllSamplingStages (exampleConfig
      [promtail.markedStage "\x7bworkload=\"api\"\x7d |= \"\"" (.float (.fin (1/2)))])
      exampleFormat).2 = (false, none) ∧
    ((promtail.RemoveAllSamplingStages (exampleConfig
      [promtail.markedStage "\x7bworkload=\"api\"\x7d |= \"\"" (.float (.fin (1/2)))])
      exampleFormat).1.ScrapeConfigs.map fun sc => sc.PipelineStages.length) = [0] ∧
    (∀ (p : promtail.PromtailConfig) (f : String),
      (promtail.RemoveAllSamplingStages p f).2.2 ≠ none ∨
      ((promtail.RemoveAllSamplingStages p f).2.1 = true ↔
        ∃ sc ∈ p.ScrapeConfigs, ∃ st ∈ sc.PipelineStages, promtail.accepts f st = false)) := by
  refine ⟨by decide!, by decide!, by decide!, by decide!, fun p f => ?_⟩
  cases herr : (promtail.RemoveAllSamplingStages p f).2.2 with
  | some e => exact Or.inl (by simp)
  | none =>
    right
    have := promtail.removeJobsLoop_flag f p.ScrapeConfigs false herr
    simp only [promtail.RemoveAllSamplingStages]
    rw [this]
    simp

/-- C29 fails when a job before the failing one holds an owned sampling stage: with an
owned stage in the first job and a malformed marked stage in the second,
`RemoveAllSamplingStages` returns the error and leaves the first job without its stage. -/
theorem removeAllSamplingStages_partial_rewrite :
    (promtail.RemoveAllSamplingStages (exampleTwoJobs
        [promtail.markedStage "\x7bworkload=\"api\"\x7d |= \"\"" (.float (.fin (1/2)))]
        [[("match", .map [(.str "pipeline_name", .str "automated_sampling"),
            (.str "selector", .str "\x7bworkload=\"web\"\x7d |= \"\""),
            (.str "stages", .seq [])])]]) exampleFormat).2
      = (false, some .stagesMissingOrEmpty) ∧
    ((promtail.RemoveAllSamplingStages (exampleTwoJobs
        [promtail.markedStage "\x7bworkload=\"api\"\x7d |= \"\"" (.float (.fin (1/2)))]
        [[("match", .map [(.str "pipeline_name", .str "automated_sampling"),
            (.str "selector", .str "\x7bworkload=\"web\"\x7d |= \"\""),
            (.str "stages", .seq [])])]]) exampleFormat).1.ScrapeConfigs.map
        fun sc => sc.PipelineStages.length) = [0, 1] := by
  constructor <;> decide!

/-- C29 as amended: if `RemoveAllSamplingStages` returns an error, that error is the first
parse failure of the job at which it stopped; that job and every later job have the stage
lists they had before the call, every job before it has been rewritten to its list without
the stages that `parseSamplingStage` accepts, and `server`, `client` and `positions` are
untouched.  The returned flag is `false`. -/
theorem removeAllSamplingStages_error_frame (p : promtail.PromtailConfig) (f : String)
    (e : promtail.ParseError) (herr : (promtail.RemoveAllSamplingStages p f).2.2 = some e) :
    (∃ pre bad post, p.ScrapeConfigs = pre ++ bad :: post ∧
      (∀ sc ∈ pre, promtail.firstParseError f sc.PipelineStages = none) ∧
      promtail.firstParseError f bad.PipelineStages = some e ∧
      (promtail.RemoveAllSamplingStages p f).1.ScrapeConfigs
        = pre.map (fun sc =>
            { sc with PipelineStages :=
                sc.PipelineStages.filter (fun st => !promtail.accepts f st) })
          ++ bad :: post) ∧
    (promtail.RemoveAllSamplingStages p f).1.Server = p.Server ∧
    (promtail.RemoveAllSamplingStages p f).1.Client = p.Client ∧
    (promtail.RemoveAllSamplingStages p f).1.Positions = p.Positions ∧
    (promtail.RemoveAllSamplingStages p f).2.1 = false := by
  refine ⟨promtail.removeJobsLoop_abort f p.ScrapeConfigs false e herr, rfl, rfl, rfl, ?_⟩
  have h := (promtail.removeJobsLoop_error f p.ScrapeConfigs false).2
  apply h
  simp only [promtail.RemoveAllSamplingStages] at herr
  rw [herr]
  simp

theorem removeAllSamplingStages_error_frame_witness :
    (promtail.RemoveAllSamplingStages (exampleTwoJobs
        [promtail.markedStage "\x7bworkload=\"api\"\x7d |= \"\"" (.float (.fin (1/2)))]
        [[("match", .map [(.str "pipeline_name", .str "automated_sampling"),
            (.str "selector", .str "\x7bworkload=\"web\"\x7d |= \"\""),
            (.str "stages", .seq [])])]]) exampleFormat).2.1 = false :=
  (removeAllSamplingStages_error_frame (exampleTwoJobs
        [promtail.markedStage "\x7bworkload=\"api\"\x7d |= \"\"" (.float (.fin (1/2)))]
        [[("match", .map [(.str "pipeline_name", .str "automated_sampling"),
            (.str "selector", .str "\x7bworkload=\"web\"\x7d |= \"\""),
            (.str "stages", .seq [])])]]) exampleFormat .stagesMissingOrEmpty
    (by decide!)).2.2.2.2

/-- C30: on a config in which every drop stage has a projection and no drop stage has the
projected reason `too_many_logs`, `DropLogs ws` followed by `AllowAllLogs` returns the
config as it was before, with no error: every job has its original stage list, in the
original order. -/
theorem allowAllLogs_after_dropLogs (p : promtail.PromtailConfig) (ws : List String)
    (hwf : promtail.wellFormedDrops p = true)
    (hfree : ∀ sc ∈ p.ScrapeConfigs, ∀ st ∈ sc.PipelineStages,
      promtail.hasReason "too_many_logs" st = false) :
    ∃ p1 b, promtail.DropLogs p ws = .returned (p1, b) ∧
      promtail.AllowAllLogs p1 = .returned (p, none) := by
  refine ⟨_, _, promtail.dropLogs_eq p ws hwf, ?_⟩
  have hwf1 := (promtail.wellFormedDrops_iff p).mp hwf
  unfold promtail.AllowAllLogs
  rw [promtail.allowAllJobs_wellFormed]
  · simp only [List.map_map]
    congr 2
    cases p with
    | mk sv cl ps jobs =>
      simp only [promtail.PromtailConfig.mk.injEq, true_and]
      conv_rhs => rw [← List.map_id jobs]
      apply List.map_congr_left
      intro sc hsc
      have hkeep : sc.PipelineStages.filter
          (fun st => !promtail.hasReason "too_many_logs" st) = sc.PipelineStages :=
        List.filter_eq_self.mpr fun st hst => by simp [hfree sc hsc st hst]
      have hdrop : ((promtail.newDrops ⟨sv, cl, ps, jobs⟩ ws).map promtail.workloadDrop).filter
          (fun st => !promtail.hasReason "too_many_logs" st) = [] := by
        apply List.filter_eq_nil_iff.mpr
        intro st hst
        obtain ⟨w, _, rfl⟩ := List.mem_map.mp hst
        simp [promtail.hasReason, promtail.dropStage?, promtail.workloadDrop, GoMap.get?]
      simp [List.filter_append, hkeep, hdrop]
  · intro sc hsc st hst
    obtain ⟨sc0, hsc0, rfl⟩ := List.mem_map.mp hsc
    rcases List.mem_append.mp hst with h | h
    · exact hwf1 sc0 hsc0 st h
    · obtain ⟨w, _, rfl⟩ := List.mem_map.mp h
      simp [promtail.isDropStage, promtail.dropStage?, promtail.workloadDrop, GoMap.get?]

theorem allowAllLogs_after_dropLogs_witness :
    ∃ p1 b, promtail.DropLogs (exampleConfig
        [[("docker", .null)],
         [("drop", .map [(.str "source", .str "level"), (.str "value", .str "debug"),
            (.str "drop_counter_reason", .str "just_because_i_can")])]]) ["api", "web"]
        = .returned (p1, b) ∧
      promtail.AllowAllLogs p1 = .returned (exampleConfig
        [[("docker", .null)],
         [("drop", .map [(.str "source", .str "level"), (.str "value", .str "debug"),
            (.str "drop_counter_reason", .str "just_because_i_can")])]], none) :=
  allowAllLogs_after_dropLogs (exampleConfig
      [[("docker", .null)],
       [("drop", .map [(.str "source", .str "level"), (.str "value", .str "debug"),
          (.str "drop_counter_reason", .str "just_because_i_can")])]]) ["api", "web"]
    (by decide) (by decide)
